import Mathlib

/-!
Verification development for the checkpoint subsystem
(utilities/checkpoint/checkpoint_impl.cc).

The code is embedded shallowly: every fallible filesystem or engine
primitive is a function on an explicit `World` (a set of existing paths, a
chronological event trace, and a fault oracle assigning each operation an
optional injected status).  The checkpoint routines are translated
statement by statement from the source; loops become structural
recursions over the corresponding lists.
-/

set_option maxHeartbeats 1000000
set_option maxRecDepth 4000

namespace Ckpt

/-- Mirror of rocksdb::Status, restricted to the codes the checkpoint code
uses. -/
inductive Status where
  | ok
  | notFound (msg : String)
  | invalidArgument (msg : String)
  | ioError (msg : String)
  | notSupported (msg : String)
  | corruption (msg : String)
  deriving DecidableEq

def Status.isOk : Status → Bool
  | Status.ok => true
  | _ => false

def Status.isNotFound : Status → Bool
  | Status.notFound _ => true
  | _ => false

def Status.isNotSupported : Status → Bool
  | Status.notSupported _ => true
  | _ => false

/-- Mirror of rocksdb::FileType, restricted to the types the checkpoint
code distinguishes (kTableFile, kBlobFile, kDescriptorFile, kCurrentFile,
kOptionsFile, kWalFile). -/
inductive FileType where
  | table
  | blob
  | descriptor
  | current
  | options
  | wal
  deriving DecidableEq

/-- Mirror of rocksdb::WalFileType (kAliveLogFile / kArchivedLogFile). -/
inductive WalFileType where
  | alive
  | archived
  deriving DecidableEq

/-- One entry of the sorted WAL file list returned by GetSortedWalFiles:
log number, path name, byte size and alive/archived state. -/
structure WalFileDesc where
  logNumber : Nat
  pathName : String
  sizeFileBytes : Nat
  walType : WalFileType
  deriving DecidableEq

/-- Mirror of rocksdb::SstFileMetaData as used by ExportColumnFamily. -/
structure SstFileMetaData where
  size : Nat
  name : String
  fileNumber : Nat
  smallestSeqno : Nat
  largestSeqno : Nat
  smallestkey : String
  largestkey : String
  oldestBlobFileNumber : Nat
  deriving DecidableEq

/-- Mirror of rocksdb::LevelMetaData. -/
structure LevelMetaData where
  level : Nat
  files : List SstFileMetaData
  deriving DecidableEq

/-- Mirror of rocksdb::ColumnFamilyMetaData (the fields the export reads). -/
structure ColumnFamilyMetaData where
  levels : List LevelMetaData
  deriving DecidableEq

/-- Mirror of rocksdb::LiveFileMetaData (the fields the export writes). -/
structure LiveFileMetaData where
  size : Nat
  name : String
  fileNumber : Nat
  dbPath : String
  smallestSeqno : Nat
  largestSeqno : Nat
  smallestkey : String
  largestkey : String
  oldestBlobFileNumber : Nat
  level : Nat
  deriving DecidableEq

/-- Mirror of rocksdb::ExportImportFilesMetaData. -/
structure ExportImportFilesMetaData where
  dbComparatorName : String
  files : List LiveFileMetaData
  deriving DecidableEq

/-- port::kMaxUint64, the sentinel meaning "no flush threshold supplied". -/
def kMaxUInt64 : Nat := 2 ^ 64 - 1

/-- Modelled from the spec: kUnknownFileChecksumFuncName lives in
util/file_checksum_helper.h, which is not part of the sources; absence of
checksum info "degrades to an unknown sentinel pair". -/
def kUnknownFileChecksumFuncName : String := "Unknown"

/-- Modelled from the spec: kUnknownFileChecksum, the unknown-checksum
sentinel value. -/
def kUnknownFileChecksum : String := ""

/-- The alphabet of fallible filesystem / engine primitives the checkpoint
code invokes.  Each constructor carries the arguments of the call site. -/
inductive Op where
  | fileExists (path : String)
  | createDir (path : String)
  | deleteFile (path : String)
  | deleteDir (path : String)
  | renameFile (src dst : String)
  | newDirectory (path : String)
  | fsyncDir (path : String)
  | getChildren (path : String)
  | disableFileDeletions
  | enableFileDeletions
  | getSortedWalFiles (callIdx : Nat)
  | getLiveFiles (callIdx : Nat) (flushMemtable : Bool)
  | flushWAL
  | flushCF (cfName : String)
  | linkFile (src dst : String)
  | copyFile (src dst : String) (sizeLimitBytes : Nat)
  | createFile (dst : String) (contents : String)
  | loadOptionsFromFile (path : String)
  | persistOptions (path : String) (dbLogDir : String) (walDir : String)
  | getFileChecksums (manifestPath : String) (manifestSize : Nat)
  deriving DecidableEq

/-- Trace events.  `prim` records a primitive execution with its result;
the `Req` events record the checkpoint code invoking one of its transfer
callbacks (link_file_cb / copy_file_cb / create_file_cb, and the two-argument
export variants) together with the returned status. -/
inductive Ev where
  | prim (op : Op) (st : Status)
  | linkReq (srcDirname fname : String) (t : FileType) (st : Status)
  | copyReq (srcDirname fname : String) (sizeLimitBytes : Nat) (t : FileType)
      (checksumFuncName checksumVal : String) (st : Status)
  | createReq (fname contents : String) (t : FileType) (st : Status)
  | linkReq2 (srcDirname fname : String) (st : Status)
  | copyReq2 (srcDirname fname : String) (st : Status)
  deriving DecidableEq

/-- The external world: the set of existing paths, the chronological event
trace, a fault oracle (`faults op = some st` makes primitive `op` return
`st` and perform no filesystem change), the engine's file-name parser and
the manifest checksum index (both external collaborators not present in
the sources). -/
structure World where
  fs : List String
  events : List Ev
  faults : Op → Option Status
  parseFileName : String → Option (Nat × FileType)
  checksums : Nat → Option (String × String)

/-- The engine collaborator: everything the checkpoint code reads from the
DB handle.  Per-call-site list results model the engine state at the time
of that call (the live-file enumeration is performed twice; the WAL list
is fetched once for the flush decision and once for the WAL pass). -/
structure DBModel where
  name : String
  allow2pc : Bool
  useFsync : Bool
  walSrcDir : String
  latestSeq : Nat
  liveFiles1 : List String
  manifestSize1 : Nat
  liveFiles2 : List String
  manifestSize2 : Nat
  minLogNum : Option Nat
  walFilesFlushCheck : List WalFileDesc
  walFilesMain : List WalFileDesc
  cfMeta : ColumnFamilyMetaData
  comparatorName : String
  cfName : String

/-- String helpers over the underlying character lists (kernel-friendly). -/
def strLen (s : String) : Nat := s.data.length

def strDrop (s : String) (n : Nat) : String := String.mk (s.data.drop n)

def strStartsWith (s p : String) : Bool := p.data.isPrefixOf s.data

/-- substr(0, find_last_not_of('/') + 1): strip all trailing slashes;
result is empty iff the string is empty or all slashes. -/
def stripTrailingSlashes (s : String) : String :=
  String.mk ((s.data.reverse.dropWhile (fun c => c = '/')).reverse)

def insertPath (p : String) (fs : List String) : List String :=
  if p ∈ fs then fs else p :: fs

def removePath (p : String) (fs : List String) : List String :=
  fs.filter (fun e => e ≠ p)

/-- Effect of renaming directory `src` to `dst` on one existing path. -/
def renameEntry (src dst e : String) : String :=
  if e = src then dst
  else if strStartsWith e (src ++ "/") then dst ++ strDrop e (strLen src)
  else e

def childrenOf (fs : List String) (dir : String) : List String :=
  fs.filterMap (fun e =>
    if strStartsWith e (dir ++ "/") then some (strDrop e (strLen dir + 1)) else none)

def World.logEv (w : World) (e : Ev) : World :=
  { w with events := w.events ++ [e] }

def faultOr (w : World) (op : Op) (dflt : Status) : Status :=
  match w.faults op with
  | some st => st
  | none => dflt

/-- Env::FileExists. -/
def opFileExists (p : String) (w : World) : Status × World :=
  let st := faultOr w (Op.fileExists p) (if p ∈ w.fs then Status.ok else Status.notFound "")
  (st, w.logEv (Ev.prim (Op.fileExists p) st))

/-- Env::CreateDir. -/
def opCreateDir (p : String) (w : World) : Status × World :=
  let st := faultOr w (Op.createDir p) Status.ok
  let w := if st.isOk then { w with fs := insertPath p w.fs } else w
  (st, w.logEv (Ev.prim (Op.createDir p) st))

/-- Env::DeleteFile. -/
def opDeleteFile (p : String) (w : World) : Status × World :=
  let st := faultOr w (Op.deleteFile p) Status.ok
  let w := if st.isOk then { w with fs := removePath p w.fs } else w
  (st, w.logEv (Ev.prim (Op.deleteFile p) st))

/-- Env::DeleteDir. -/
def opDeleteDir (p : String) (w : World) : Status × World :=
  let st := faultOr w (Op.deleteDir p) Status.ok
  let w := if st.isOk then { w with fs := removePath p w.fs } else w
  (st, w.logEv (Ev.prim (Op.deleteDir p) st))

/-- Env::RenameFile on the staging directory (moves the directory and its
children to the new name). -/
def opRenameFile (src dst : String) (w : World) : Status × World :=
  let st := faultOr w (Op.renameFile src dst) Status.ok
  let w := if st.isOk then { w with fs := w.fs.map (renameEntry src dst) } else w
  (st, w.logEv (Ev.prim (Op.renameFile src dst) st))

/-- Env::NewDirectory (open a directory handle). -/
def opNewDirectory (p : String) (w : World) : Status × World :=
  let st := faultOr w (Op.newDirectory p) Status.ok
  (st, w.logEv (Ev.prim (Op.newDirectory p) st))

/-- Directory::Fsync. -/
def opFsyncDir (p : String) (w : World) : Status × World :=
  let st := faultOr w (Op.fsyncDir p) Status.ok
  (st, w.logEv (Ev.prim (Op.fsyncDir p) st))

/-- Env::GetChildren. -/
def opGetChildren (p : String) (w : World) : Status × List String × World :=
  let st := faultOr w (Op.getChildren p) Status.ok
  (st, childrenOf w.fs p, w.logEv (Ev.prim (Op.getChildren p) st))

/-- DB::DisableFileDeletions. -/
def opDisableFileDeletions (w : World) : Status × World :=
  let st := faultOr w Op.disableFileDeletions Status.ok
  (st, w.logEv (Ev.prim Op.disableFileDeletions st))

/-- DB::EnableFileDeletions(false). -/
def opEnableFileDeletions (w : World) : Status × World :=
  let st := faultOr w Op.enableFileDeletions Status.ok
  (st, w.logEv (Ev.prim Op.enableFileDeletions st))

/-- DB::GetSortedWalFiles; the list is the engine's WAL set at that call. -/
def opGetSortedWalFiles (callIdx : Nat) (wals : List WalFileDesc) (w : World) :
    Status × List WalFileDesc × World :=
  let st := faultOr w (Op.getSortedWalFiles callIdx) Status.ok
  (st, wals, w.logEv (Ev.prim (Op.getSortedWalFiles callIdx) st))

/-- DB::GetLiveFiles; returns the live file list and manifest size the
engine reports at that call. -/
def opGetLiveFiles (callIdx : Nat) (flushMemtable : Bool) (files : List String)
    (manifestSize : Nat) (w : World) : Status × List String × Nat × World :=
  let st := faultOr w (Op.getLiveFiles callIdx flushMemtable) Status.ok
  (st, files, manifestSize, w.logEv (Ev.prim (Op.getLiveFiles callIdx flushMemtable) st))

/-- DB::FlushWAL(false). -/
def opFlushWAL (w : World) : Status × World :=
  let st := faultOr w Op.flushWAL Status.ok
  (st, w.logEv (Ev.prim Op.flushWAL st))

/-- DB::Flush(FlushOptions(), handle). -/
def opFlushCF (cfName : String) (w : World) : Status × World :=
  let st := faultOr w (Op.flushCF cfName) Status.ok
  (st, w.logEv (Ev.prim (Op.flushCF cfName) st))

/-- FileSystem::LinkFile / Env::LinkFile. -/
def opLinkFile (src dst : String) (w : World) : Status × World :=
  let st := faultOr w (Op.linkFile src dst) Status.ok
  let w := if st.isOk then { w with fs := insertPath dst w.fs } else w
  (st, w.logEv (Ev.prim (Op.linkFile src dst) st))

/-- CopyFile (file/file_util.h) with a size limit (0 = whole file). -/
def opCopyFile (src dst : String) (sizeLimitBytes : Nat) (w : World) : Status × World :=
  let st := faultOr w (Op.copyFile src dst sizeLimitBytes) Status.ok
  let w := if st.isOk then { w with fs := insertPath dst w.fs } else w
  (st, w.logEv (Ev.prim (Op.copyFile src dst sizeLimitBytes) st))

/-- CreateFile (file/file_util.h): write a file from a string. -/
def opCreateFile (dst contents : String) (w : World) : Status × World :=
  let st := faultOr w (Op.createFile dst contents) Status.ok
  let w := if st.isOk then { w with fs := insertPath dst w.fs } else w
  (st, w.logEv (Ev.prim (Op.createFile dst contents) st))

/-- LoadOptionsFromFile (options util; external collaborator). -/
def opLoadOptionsFromFile (p : String) (w : World) : Status × World :=
  let st := faultOr w (Op.loadOptionsFromFile p) Status.ok
  (st, w.logEv (Ev.prim (Op.loadOptionsFromFile p) st))

/-- PersistRocksDBOptions at the target path; the event records the two
overridden option values (db_log_dir, wal_dir). -/
def opPersistOptions (p dbLogDir walDir : String) (w : World) : Status × World :=
  let st := faultOr w (Op.persistOptions p dbLogDir walDir) Status.ok
  let w := if st.isOk then { w with fs := insertPath p w.fs } else w
  (st, w.logEv (Ev.prim (Op.persistOptions p dbLogDir walDir) st))

/-- GetFileChecksumsFromManifest (util/file_checksum_helper; external). -/
def opGetFileChecksums (manifestPath : String) (manifestSize : Nat) (w : World) :
    Status × World :=
  let st := faultOr w (Op.getFileChecksums manifestPath manifestSize) Status.ok
  (st, w.logEv (Ev.prim (Op.getFileChecksums manifestPath manifestSize) st))

/-- Callback type of link_file_cb in CreateCustomCheckpoint. -/
abbrev LinkCb := String → String → FileType → World → Status × World

/-- Callback type of copy_file_cb in CreateCustomCheckpoint. -/
abbrev CopyCb := String → String → Nat → FileType → String → String → World → Status × World

/-- Callback type of create_file_cb in CreateCustomCheckpoint. -/
abbrev CreateCb := String → String → FileType → World → Status × World

/-- Callback type of the two-argument export callbacks. -/
abbrev ExportCb := String → String → World → Status × World

/-- A call site of link_file_cb: run it and record the invocation with its
result in the trace. -/
def callLink (cb : LinkCb) (srcDirname fname : String) (t : FileType) (w : World) :
    Status × World :=
  let r := cb srcDirname fname t w
  (r.1, r.2.logEv (Ev.linkReq srcDirname fname t r.1))

/-- A call site of copy_file_cb. -/
def callCopy (cb : CopyCb) (srcDirname fname : String) (sizeLimitBytes : Nat)
    (t : FileType) (checksumFuncName checksumVal : String) (w : World) :
    Status × World :=
  let r := cb srcDirname fname sizeLimitBytes t checksumFuncName checksumVal w
  (r.1, r.2.logEv (Ev.copyReq srcDirname fname sizeLimitBytes t checksumFuncName checksumVal r.1))

/-- A call site of create_file_cb. -/
def callCreate (cb : CreateCb) (fname contents : String) (t : FileType) (w : World) :
    Status × World :=
  let r := cb fname contents t w
  (r.1, r.2.logEv (Ev.createReq fname contents t r.1))

/-- A call site of the export link_file_cb. -/
def callLink2 (cb : ExportCb) (srcDirname fname : String) (w : World) : Status × World :=
  let r := cb srcDirname fname w
  (r.1, r.2.logEv (Ev.linkReq2 srcDirname fname r.1))

/-- A call site of the export copy_file_cb. -/
def callCopy2 (cb : ExportCb) (srcDirname fname : String) (w : World) : Status × World :=
  let r := cb srcDirname fname w
  (r.1, r.2.logEv (Ev.copyReq2 srcDirname fname r.1))

/-- CheckpointImpl::CleanStagingDirectory: best-effort purge of the staging
directory; every status is logged and dropped. -/
def cleanStagingDirectory (fullPrivatePath : String) (w : World) : World :=
  let r := opFileExists fullPrivatePath w
  if r.1.isNotFound then r.2
  else
    let g := opGetChildren fullPrivatePath r.2
    let w1 :=
      if g.1.isOk then
        g.2.1.foldl (fun w c => (opDeleteFile (fullPrivatePath ++ "/" ++ c) w).2) g.2.2
      else g.2.2
    (opDeleteDir fullPrivatePath w1).2

/-- total_wal_size: the uint64 sum of SizeFileBytes over the listed WAL
files (wrapping modulo 2^64 as in C++). -/
def totalWalSize (wals : List WalFileDesc) : Nat :=
  wals.foldl (fun acc wf => (acc + wf.sizeFileBytes) % 2 ^ 64) 0

/-- The flush decision of CreateCustomCheckpoint (lines 264-288): start
from flush_memtable = true; without 2PC, an unset threshold
(port::kMaxUint64) disables the flush, and a positive threshold disables
it exactly when the total WAL size is below the threshold. -/
def flushMemtableDecision (allow2pc : Bool) (logSizeForFlush : Nat) (totalWal : Nat) : Bool :=
  if allow2pc then true
  else if logSizeForFlush = kMaxUInt64 then false
  else if 0 < logSizeForFlush then
    if totalWal < logSizeForFlush then false else true
  else true

/-- The first loop over live_files (lines 335-370): records current_fname
and manifest_fname, copies every non-table non-blob file (the manifest
with manifest_file_size as size limit, everything else with 0), and defers
table/blob files.  Returns (status, manifest_fname, current_fname,
deferred table and blob files, world). -/
def liveFilesPass (parse : String → Option (Nat × FileType)) (dbName : String)
    (copyCb : CopyCb) (manifestFileSize : Nat) :
    List String → Status → String → String → List (String × Nat × FileType) → World →
    Status × String × String × List (String × Nat × FileType) × World
  | [], s, mf, cf, acc, w => (s, mf, cf, acc, w)
  | f :: rest, s, mf, cf, acc, w =>
    if ¬ s.isOk then (s, mf, cf, acc, w)
    else
      match parse f with
      | none => (Status.corruption "Cannot parse file name. This is very bad", mf, cf, acc, w)
      | some (number, t) =>
        if t = FileType.current then
          liveFilesPass parse dbName copyCb manifestFileSize rest s mf f acc w
        else
          let mf1 := if t = FileType.descriptor then f else mf
          if t ≠ FileType.table ∧ t ≠ FileType.blob then
            let r := callCopy copyCb dbName f
              (if t = FileType.descriptor then manifestFileSize else 0) t
              kUnknownFileChecksumFuncName kUnknownFileChecksum w
            liveFilesPass parse dbName copyCb manifestFileSize rest r.1 mf1 cf acc r.2
          else
            liveFilesPass parse dbName copyCb manifestFileSize rest s mf1 cf
              (acc ++ [(f, number, t)]) w

/-- The hard-link pass over deferred table and blob files (lines 386-427):
while same_fs, attempt a hard link; a NotSupported link flips same_fs to
false for the rest of the call and falls through to copy (attaching the
resolved checksum); any other link error is fatal.  Returns
(status, same_fs, world). -/
def tableBlobPass (dbName : String) (linkCb : LinkCb) (copyCb : CopyCb)
    (getChecksum : Bool) (checksums : Nat → Option (String × String)) :
    List (String × Nat × FileType) → Bool → Status → World → Status × Bool × World
  | [], sameFs, s, w => (s, sameFs, w)
  | (fname, number, t) :: rest, sameFs, s, w =>
    if ¬ s.isOk then (s, sameFs, w)
    else
      let step :=
        if sameFs then
          let r := callLink linkCb dbName fname t w
          if r.1.isNotSupported then (Status.ok, false, r.2) else (r.1, sameFs, r.2)
        else (s, sameFs, w)
      if ¬ step.2.1 then
        let cs :=
          if getChecksum then
            match checksums number with
            | some p => p
            | none => (kUnknownFileChecksumFuncName, kUnknownFileChecksum)
          else (kUnknownFileChecksumFuncName, kUnknownFileChecksum)
        let r := callCopy copyCb dbName fname 0 t cs.1 cs.2 step.2.2
        tableBlobPass dbName linkCb copyCb getChecksum checksums rest step.2.1 r.1 r.2
      else
        tableBlobPass dbName linkCb copyCb getChecksum checksums rest step.2.1 step.1 step.2.2

/-- The WAL pass (lines 439-462): over the sorted WAL list, only alive
logs that are required (flush skipped, or log number at least min_log_num)
participate; the last element of the whole list is copied with its exact
byte size and the loop breaks; every other participating file follows the
link-then-copy discipline sharing same_fs.  Returns (status, same_fs,
world). -/
def walPass (linkCb : LinkCb) (copyCb : CopyCb) (walSrcDir : String)
    (flushMemtable : Bool) (minLogNum : Nat) :
    List WalFileDesc → Bool → Status → World → Status × Bool × World
  | [], sameFs, s, w => (s, sameFs, w)
  | wf :: rest, sameFs, s, w =>
    if ¬ s.isOk then (s, sameFs, w)
    else if wf.walType = WalFileType.alive ∧ (¬ flushMemtable ∨ wf.logNumber ≥ minLogNum) then
      if rest = [] then
        let r := callCopy copyCb walSrcDir wf.pathName wf.sizeFileBytes FileType.wal
          kUnknownFileChecksumFuncName kUnknownFileChecksum w
        (r.1, sameFs, r.2)
      else
        let step :=
          if sameFs then
            let r := callLink linkCb walSrcDir wf.pathName FileType.wal w
            if r.1.isNotSupported then (Status.ok, false, r.2) else (r.1, sameFs, r.2)
          else (s, sameFs, w)
        if ¬ step.2.1 then
          let r := callCopy copyCb walSrcDir wf.pathName 0 FileType.wal
            kUnknownFileChecksumFuncName kUnknownFileChecksum step.2.2
          walPass linkCb copyCb walSrcDir flushMemtable minLogNum rest step.2.1 r.1 r.2
        else
          walPass linkCb copyCb walSrcDir flushMemtable minLogNum rest step.2.1 step.1 step.2.2
    else walPass linkCb copyCb walSrcDir flushMemtable minLogNum rest sameFs s w

/-- Lines 330-462 of CreateCustomCheckpoint, from the live-files loop to
the WAL pass, given the authoritative enumeration results.  Returns
(status, world). -/
def customTransferTail (db : DBModel) (linkCb : LinkCb) (copyCb : CopyCb)
    (createCb : CreateCb) (getLiveTableChecksum : Bool) (flushMemtable : Bool)
    (minLogNum : Nat) (liveFiles : List String) (manifestFileSize : Nat)
    (walFiles : List WalFileDesc) (w : World) : Status × World :=
  let lp := liveFilesPass w.parseFileName db.name copyCb manifestFileSize
    liveFiles Status.ok "" "" [] w
  let manifestFname := lp.2.1
  let currentFname := lp.2.2.1
  let ck :=
    if lp.1.isOk ∧ getLiveTableChecksum then
      opGetFileChecksums (db.name ++ manifestFname) manifestFileSize lp.2.2.2.2
    else (lp.1, lp.2.2.2.2)
  let tb := tableBlobPass db.name linkCb copyCb getLiveTableChecksum
    ck.2.checksums lp.2.2.2.1 true ck.1 ck.2
  let cr :=
    if tb.1.isOk ∧ currentFname ≠ "" ∧ manifestFname ≠ "" then
      callCreate createCb currentFname (strDrop manifestFname 1 ++ "\n")
        FileType.current tb.2.2
    else (tb.1, tb.2.2)
  let wp := walPass linkCb copyCb db.walSrcDir flushMemtable minLogNum
    walFiles tb.2.1 cr.1 cr.2
  (wp.1, wp.2.2)

/-- CheckpointImpl::CreateCustomCheckpoint (lines 241-465).  Returns
(status, sequence number read at entry, world). -/
def createCustomCheckpoint (db : DBModel) (linkCb : LinkCb) (copyCb : CopyCb)
    (createCb : CreateCb) (logSizeForFlush : Nat) (getLiveTableChecksum : Bool)
    (w : World) : Status × Nat × World :=
  let seq := db.latestSeq
  -- flush decision; GetSortedWalFiles is consulted only for a positive,
  -- non-sentinel threshold without 2PC, and its failure aborts the call
  let dec :=
    if ¬ db.allow2pc ∧ logSizeForFlush ≠ kMaxUInt64 ∧ 0 < logSizeForFlush then
      let r := opGetSortedWalFiles 1 db.walFilesFlushCheck w
      (r.1, r.2.2)
    else (Status.ok, w)
  if ¬ dec.1.isOk then (dec.1, seq, dec.2)
  else
    let flushMemtable :=
      flushMemtableDecision db.allow2pc logSizeForFlush (totalWalSize db.walFilesFlushCheck)
    -- first GetLiveFiles; its status is overwritten by the second call
    let g1 := opGetLiveFiles 1 flushMemtable db.liveFiles1 db.manifestSize1 dec.2
    match db.minLogNum with
    | none => (Status.invalidArgument "cannot get the min log number to keep.", seq, g1.2.2.2)
    | some minLogNum =>
      let g2 := opGetLiveFiles 2 flushMemtable db.liveFiles2 db.manifestSize2 g1.2.2.2
      let fw := if g2.1.isOk then opFlushWAL g2.2.2.2 else (g2.1, g2.2.2.2)
      let gw :=
        if fw.1.isOk then opGetSortedWalFiles 2 db.walFilesMain fw.2
        else (fw.1, [], fw.2)
      if ¬ gw.1.isOk then (gw.1, seq, gw.2.2)
      else
        let r := customTransferTail db linkCb copyCb createCb getLiveTableChecksum
          flushMemtable minLogNum g2.2.1 g2.2.2.1 gw.2.1 gw.2.2
        (r.1, seq, r.2)

/-- value_log_dir resolution (lines 129-133): the db_log_dir option is
recorded empty when the stripped override equals the source db's own
directory or the normalized checkpoint directory. -/
def resolvedLogDirValue (dbName parsedCheckpointDir parsedLogDir : String) : String :=
  if parsedLogDir = dbName ∨ parsedLogDir = parsedCheckpointDir then "" else parsedLogDir

/-- wal_dir resolution (lines 137-151): returns (value_wal_dir,
new_wal_dir).  An empty override, or one equal to the source db directory
or the checkpoint directory, records the checkpoint directory as the
option value and routes WAL files into the staging directory; otherwise
the override is preserved as the option value and WAL files go directly
there, except that an override nested under the checkpoint directory is
created at the corresponding path inside the staging directory. -/
def resolvedWalInfo (dbName parsedCheckpointDir fullPrivatePath parsedWalDir : String) :
    String × String :=
  if parsedWalDir = "" ∨ parsedWalDir = dbName ∨ parsedWalDir = parsedCheckpointDir then
    (parsedCheckpointDir, fullPrivatePath)
  else
    let pfx := parsedCheckpointDir ++ "/"
    (parsedWalDir,
      if strStartsWith parsedWalDir pfx then
        fullPrivatePath ++ "/" ++ strDrop parsedWalDir (strLen pfx)
      else parsedWalDir)

/-- CheckpointImpl::CopyOptionsFile (lines 649-677): load the source
options file, override db_log_dir and wal_dir, persist at the target. -/
def copyOptionsFile (srcFile targetFile dbLogDir walDir : String) (w : World) :
    Status × World :=
  let r := opLoadOptionsFromFile srcFile w
  if ¬ r.1.isOk then (r.1, r.2)
  else opPersistOptions targetFile dbLogDir walDir r.2

/-- link_file_cb bound in CreateCheckpoint (lines 167-176): WAL files are
linked into new_wal_dir, everything else into the staging directory. -/
def ckptLinkCb (_db : DBModel) (fullPrivatePath newWalDir : String) : LinkCb :=
  fun srcDirname fname t w =>
    opLinkFile (srcDirname ++ fname)
      ((if t = FileType.wal then newWalDir else fullPrivatePath) ++ fname) w

/-- copy_file_cb bound in CreateCheckpoint (lines 177-194): options files
are rewritten via CopyOptionsFile, WAL files are copied into new_wal_dir,
everything else into the staging directory. -/
def ckptCopyCb (_db : DBModel) (fullPrivatePath newWalDir valueLogDir valueWalDir : String) :
    CopyCb :=
  fun srcDirname fname sizeLimitBytes t _checksumFuncName _checksumVal w =>
    if t = FileType.options then
      copyOptionsFile (srcDirname ++ fname) (fullPrivatePath ++ fname)
        valueLogDir valueWalDir w
    else
      opCopyFile (srcDirname ++ fname)
        ((if t = FileType.wal then newWalDir else fullPrivatePath) ++ fname)
        sizeLimitBytes w

/-- create_file_cb bound in CreateCheckpoint (lines 195-199). -/
def ckptCreateCb (fullPrivatePath : String) : CreateCb :=
  fun fname contents _t w => opCreateFile (fullPrivatePath ++ fname) contents w

/-- Lines 159-209: disable file deletions, run the custom checkpoint when
the disable succeeded or was unsupported, and re-enable deletions exactly
when the disable succeeded (the enable status is discarded). -/
def checkpointTransferPhase (db : DBModel) (fullPrivatePath newWalDir valueLogDir
    valueWalDir : String) (logSizeForFlush : Nat) (w : World) : Status × Nat × World :=
  let d := opDisableFileDeletions w
  let disabledFileDeletions := d.1.isOk
  if d.1.isOk ∨ d.1.isNotSupported then
    let c := createCustomCheckpoint db (ckptLinkCb db fullPrivatePath newWalDir)
      (ckptCopyCb db fullPrivatePath newWalDir valueLogDir valueWalDir)
      (ckptCreateCb fullPrivatePath) logSizeForFlush false d.2
    let w1 := if disabledFileDeletions then (opEnableFileDeletions c.2.2).2 else c.2.2
    (c.1, c.2.1, w1)
  else (d.1, 0, d.2)

/-- Lines 211-238: on success rename staging to the target, open and fsync
the target directory and report the sequence number; on failure purge the
staging directory. -/
def checkpointFinish (parsedCheckpointDir fullPrivatePath : String) (s : Status)
    (seq : Nat) (w : World) : Status × Option Nat × World :=
  let r1 := if s.isOk then opRenameFile fullPrivatePath parsedCheckpointDir w else (s, w)
  let r2 :=
    if r1.1.isOk then
      let n := opNewDirectory parsedCheckpointDir r1.2
      if n.1.isOk then opFsyncDir parsedCheckpointDir n.2 else (n.1, n.2)
    else (r1.1, r1.2)
  if r2.1.isOk then (r2.1, some seq, r2.2)
  else (r2.1, none, cleanStagingDirectory fullPrivatePath r2.2)

/-- CheckpointImpl::CreateCheckpoint (lines 81-239).  Returns (status,
sequence number out-parameter written only on success, world). -/
def createCheckpoint (db : DBModel) (checkpointDir : String) (logSizeForFlush : Nat)
    (dbLogDir walDirArg : String) (w : World) : Status × Option Nat × World :=
  let e := opFileExists checkpointDir w
  if e.1.isOk then (Status.invalidArgument "Directory exists", none, e.2)
  else if ¬ e.1.isNotFound then (e.1, none, e.2)
  else
    let parsedCheckpointDir := stripTrailingSlashes checkpointDir
    if parsedCheckpointDir = "" then
      (Status.invalidArgument "invalid checkpoint directory name", none, e.2)
    else
      let fullPrivatePath := parsedCheckpointDir ++ ".tmp"
      let w1 := cleanStagingDirectory fullPrivatePath e.2
      let c := opCreateDir fullPrivatePath w1
      let parsedLogDir := stripTrailingSlashes dbLogDir
      let parsedWalDir := stripTrailingSlashes walDirArg
      let valueLogDir := resolvedLogDirValue db.name parsedCheckpointDir parsedLogDir
      let wi := resolvedWalInfo db.name parsedCheckpointDir fullPrivatePath parsedWalDir
      -- lines 152-155: in the external branch s is overwritten by the
      -- existence probe / creation of new_wal_dir
      let pre :=
        if parsedWalDir = "" ∨ parsedWalDir = db.name ∨ parsedWalDir = parsedCheckpointDir then
          (c.1, c.2)
        else
          let f := opFileExists wi.2 c.2
          if f.1.isNotFound then opCreateDir wi.2 f.2 else (f.1, f.2)
      if ¬ pre.1.isOk then
        checkpointFinish parsedCheckpointDir fullPrivatePath pre.1 0 pre.2
      else
        let t := checkpointTransferPhase db fullPrivatePath wi.2 valueLogDir wi.1
          logSizeForFlush pre.2
        checkpointFinish parsedCheckpointDir fullPrivatePath t.1 t.2.1 t.2.2

/-- link_file_cb bound in ExportColumnFamily (lines 512-517). -/
def exportLinkCb (_db : DBModel) (tmpExportDir : String) : ExportCb :=
  fun srcDirname fname w => opLinkFile (srcDirname ++ fname) (tmpExportDir ++ fname) w

/-- copy_file_cb bound in ExportColumnFamily (lines 518-523). -/
def exportCopyCb (_db : DBModel) (tmpExportDir : String) : ExportCb :=
  fun srcDirname fname w => opCopyFile (srcDirname ++ fname) (tmpExportDir ++ fname) 0 w

/-- Inner loop of ExportFilesInMetaData over one level's files (lines
612-641).  State is (status, hardlink_file, num_files, world); a parse
failure or a transfer error breaks out of this level only.  The fallback
to copy on a NotSupported link fires only when num_files == 1, i.e. for
the very first file overall. -/
def exportInner (dbName : String) (parse : String → Option (Nat × FileType))
    (linkCb copyCb : ExportCb) :
    List SstFileMetaData → Bool → Status → Nat → World → Status × Bool × Nat × World
  | [], hardlinkFile, s, numFiles, w => (s, hardlinkFile, numFiles, w)
  | fm :: rest, hardlinkFile, s, numFiles, w =>
    match parse fm.name with
    | none => (Status.corruption "Could not parse file name", hardlinkFile, numFiles, w)
    | some _ =>
      let numFiles1 := numFiles + 1
      let step :=
        if hardlinkFile then
          let r := callLink2 linkCb dbName fm.name w
          if numFiles1 = 1 ∧ r.1.isNotSupported then (Status.ok, false, r.2)
          else (r.1, hardlinkFile, r.2)
        else (s, hardlinkFile, w)
      let after :=
        if ¬ step.2.1 then
          let r := callCopy2 copyCb dbName fm.name step.2.2
          (r.1, r.2)
        else (step.1, step.2.2)
      if ¬ after.1.isOk then (after.1, step.2.1, numFiles1, after.2)
      else exportInner dbName parse linkCb copyCb rest step.2.1 after.1 numFiles1 after.2

/-- CheckpointImpl::ExportFilesInMetaData (lines 598-647): the outer loop
over levels does not re-check the status, so it continues into the next
level even after an inner break. -/
def exportFilesInMetaData (db : DBModel) (linkCb copyCb : ExportCb)
    (metadata : ColumnFamilyMetaData) (w : World) : Status × World :=
  let r := metadata.levels.foldl
    (fun (acc : Status × Bool × Nat × World) lvl =>
      exportInner db.name acc.2.2.2.parseFileName linkCb copyCb lvl.files
        acc.2.1 acc.1 acc.2.2.1 acc.2.2.2)
    (Status.ok, true, 0, w)
  (r.1, r.2.2.2)

/-- The metadata built on export success (lines 549-570): the out-parameter
is assigned inside the loop over levels, so it is written iff at least one
level exists; the record accumulates one entry per table file. -/
def buildExportMetadata (comparatorName exportDir : String)
    (metadata : ColumnFamilyMetaData) : Bool × ExportImportFilesMetaData :=
  metadata.levels.foldl
    (fun (acc : Bool × ExportImportFilesMetaData) lvl =>
      (true,
        { acc.2 with
          files := acc.2.files ++ lvl.files.map (fun fm =>
            { size := fm.size
              name := fm.name
              fileNumber := fm.fileNumber
              dbPath := exportDir
              smallestSeqno := fm.smallestSeqno
              largestSeqno := fm.largestSeqno
              smallestkey := fm.smallestkey
              largestkey := fm.largestkey
              oldestBlobFileNumber := fm.oldestBlobFileNumber
              level := lvl.level }) }))
    (false, { dbComparatorName := comparatorName, files := [] })

/-- CheckpointImpl::ExportColumnFamily (lines 469-596).  Returns (status,
metadata out-parameter, world). -/
def exportColumnFamily (db : DBModel) (exportDir : String) (w : World) :
    Status × Option ExportImportFilesMetaData × World :=
  let e := opFileExists exportDir w
  if e.1.isOk then (Status.invalidArgument "Specified export_dir exists", none, e.2)
  else if ¬ e.1.isNotFound then (e.1, none, e.2)
  else
    if stripTrailingSlashes exportDir = "" then
      (Status.invalidArgument "Specified export_dir invalid", none, e.2)
    else
      let tmpExportDir := stripTrailingSlashes exportDir ++ ".tmp"
      let c := opCreateDir tmpExportDir e.2
      let fl := if c.1.isOk then opFlushCF db.cfName c.2 else (c.1, c.2)
      -- export with file deletions disabled; EnableFileDeletions runs iff
      -- the disable succeeded, and its status is propagated only when the
      -- export itself succeeded
      let ex :=
        if fl.1.isOk then
          let d := opDisableFileDeletions fl.2
          if d.1.isOk then
            let s1 := exportFilesInMetaData db (exportLinkCb db tmpExportDir)
              (exportCopyCb db tmpExportDir) db.cfMeta d.2
            let en := opEnableFileDeletions s1.2
            (if s1.1.isOk then en.1 else s1.1, en.2)
          else (d.1, d.2)
        else (fl.1, fl.2)
      let mv :=
        if ex.1.isOk then
          let r := opRenameFile tmpExportDir exportDir ex.2
          if r.1.isOk then
            let n := opNewDirectory exportDir r.2
            let f := if n.1.isOk then opFsyncDir exportDir n.2 else (n.1, n.2)
            (f.1, true, f.2)
          else (r.1, false, r.2)
        else (ex.1, false, ex.2)
      if mv.1.isOk then
        let bm := buildExportMetadata db.comparatorName exportDir db.cfMeta
        (mv.1, if bm.1 then some bm.2 else none, mv.2.2)
      else
        let cleanupDir := if mv.2.1 then exportDir else tmpExportDir
        let g := opGetChildren cleanupDir mv.2.2
        let w1 := g.2.1.foldl (fun w c => (opDeleteFile (cleanupDir ++ "/" ++ c) w).2) g.2.2
        (mv.1, none, (opDeleteDir cleanupDir w1).2)

/-! Trace observables used by the theorems. -/

def isPrimEv : Ev → Bool
  | Ev.prim _ _ => true
  | _ => false

def isLinkReqEv : Ev → Bool
  | Ev.linkReq _ _ _ _ => true
  | _ => false

/-- Checkpoint transfer-callback invocations (link / copy / create). -/
def isTransferEv : Ev → Bool
  | Ev.linkReq _ _ _ _ => true
  | Ev.copyReq _ _ _ _ _ _ _ => true
  | Ev.createReq _ _ _ _ => true
  | _ => false

def transferEvs (es : List Ev) : List Ev := es.filter isTransferEv

/-- A link_file_cb invocation that returned NotSupported. -/
def isNSLinkEv : Ev → Bool
  | Ev.linkReq _ _ _ st => st.isNotSupported
  | _ => false

def noLinkEvs (es : List Ev) : Bool := es.all (fun e => ¬ isLinkReqEv e)

def hasNSLinkEv (es : List Ev) : Bool := es.any isNSLinkEv

/-- After the first NotSupported link invocation, no further link
invocation occurs. -/
def linkTailOk : List Ev → Bool
  | [] => true
  | e :: rest => if isNSLinkEv e then noLinkEvs rest else linkTailOk rest

/-- The next event is a copy invocation of the given source file. -/
def copyFollows (srcDirname fname : String) : List Ev → Bool
  | Ev.copyReq d f _ _ _ _ _ :: _ => decide (d = srcDirname ∧ f = fname)
  | _ => false

/-- Every NotSupported link invocation is immediately followed (in the
transfer sub-trace) by a copy invocation of the same file. -/
def linkFallbackOk : List Ev → Bool
  | [] => true
  | Ev.linkReq d f _ st :: rest =>
    if st.isNotSupported then copyFollows d f rest && linkFallbackOk rest
    else linkFallbackOk rest
  | _ :: rest => linkFallbackOk rest

def isEnableEv : Ev → Bool
  | Ev.prim Op.enableFileDeletions _ => true
  | _ => false

def isDisableOkEv : Ev → Bool
  | Ev.prim Op.disableFileDeletions st => st.isOk
  | _ => false

/-- An enable- or disable-file-deletions event. -/
def isDFDEv : Ev → Bool
  | Ev.prim Op.enableFileDeletions _ => true
  | Ev.prim Op.disableFileDeletions _ => true
  | _ => false

def countEnable (es : List Ev) : Nat := (es.filter isEnableEv).length

def hasDisableOk (es : List Ev) : Bool := es.any isDisableOkEv

def isCreateReqEv : Ev → Bool
  | Ev.createReq _ _ _ _ => true
  | _ => false

/-- A link invocation of the given file name. -/
def isLinkOfFname (fname : String) : Ev → Bool
  | Ev.linkReq _ f _ _ => decide (f = fname)
  | _ => false

/-- A copy invocation of the given file name. -/
def isCopyOfFname (fname : String) : Ev → Bool
  | Ev.copyReq _ f _ _ _ _ _ => decide (f = fname)
  | _ => false

/-- An export copy invocation of the given file name. -/
def isCopyReq2OfFname (fname : String) : Ev → Bool
  | Ev.copyReq2 _ f _ => decide (f = fname)
  | _ => false

def isLinkReq2Ev : Ev → Bool
  | Ev.linkReq2 _ _ _ => true
  | _ => false

/-- The copy invocations a fault-free run of the first live-files loop
performs: every non-table, non-blob, non-current live file in order, the
manifest with the manifest size as limit and everything else with limit
0. -/
def expectedLiveCopyEvs (parse : String → Option (Nat × FileType)) (dbName : String)
    (msize : Nat) : List String → List Ev
  | [] => []
  | f :: rest =>
    match parse f with
    | none => []
    | some (_, t) =>
      if t = FileType.current then expectedLiveCopyEvs parse dbName msize rest
      else if t ≠ FileType.table ∧ t ≠ FileType.blob then
        Ev.copyReq dbName f (if t = FileType.descriptor then msize else 0) t
          kUnknownFileChecksumFuncName kUnknownFileChecksum Status.ok
          :: expectedLiveCopyEvs parse dbName msize rest
      else expectedLiveCopyEvs parse dbName msize rest

/-- The last live file of the given type (the value current_fname or
manifest_fname holds after the first loop), stopping at a parse failure
exactly as the loop does. -/
def lastOfType (parse : String → Option (Nat × FileType)) (t : FileType) :
    List String → String → String
  | [], acc => acc
  | f :: rest, acc =>
    match parse f with
    | some (_, t') => lastOfType parse t rest (if t' = t then f else acc)
    | none => acc

/-- Spec-side description of one exported file record. -/
def specExportRecord (exportDir : String) (level : Nat) (fm : SstFileMetaData) :
    LiveFileMetaData :=
  { size := fm.size
    name := fm.name
    fileNumber := fm.fileNumber
    dbPath := exportDir
    smallestSeqno := fm.smallestSeqno
    largestSeqno := fm.largestSeqno
    smallestkey := fm.smallestkey
    largestkey := fm.largestkey
    oldestBlobFileNumber := fm.oldestBlobFileNumber
    level := level }

/-- Spec-side description of the export metadata: one record per table
file across all levels, in order. -/
def specExportRecords (exportDir : String) (levels : List LevelMetaData) :
    List LiveFileMetaData :=
  (levels.map (fun lvl => lvl.files.map (specExportRecord exportDir lvl.level))).flatten

/-- The callback appends only primitive events to the trace (true of all
callbacks the checkpoint code binds). -/
def PrimOnlyLink (cb : LinkCb) : Prop :=
  ∀ d f t w, ∃ ts, (cb d f t w).2.events = w.events ++ ts ∧ ts.all isPrimEv = true

def PrimOnlyCopy (cb : CopyCb) : Prop :=
  ∀ d f l t cn cv w, ∃ ts,
    (cb d f l t cn cv w).2.events = w.events ++ ts ∧ ts.all isPrimEv = true

def PrimOnlyCreate (cb : CreateCb) : Prop :=
  ∀ f c t w, ∃ ts, (cb f c t w).2.events = w.events ++ ts ∧ ts.all isPrimEv = true

def PrimOnlyExport (cb : ExportCb) : Prop :=
  ∀ d f w, ∃ ts, (cb d f w).2.events = w.events ++ ts ∧ ts.all isPrimEv = true

/-- One step of world evolution without deletions or renames: oracles are
unchanged, existing paths survive, every new path satisfies `Q`, and the
trace grows by a suffix all of whose events satisfy `P`. -/
def EvolvesP (Q : String → Prop) (P : Ev → Bool) (w w' : World) : Prop :=
  w'.faults = w.faults ∧
  w'.parseFileName = w.parseFileName ∧
  w'.checksums = w.checksums ∧
  (∀ p, p ∈ w.fs → p ∈ w'.fs) ∧
  (∀ p, p ∈ w'.fs → p ∈ w.fs ∨ Q p) ∧
  (∃ ts, w'.events = w.events ++ ts ∧ ts.all P = true)

def countLink2 (es : List Ev) : Nat := (es.filter isLinkReq2Ev).length

/-- All table files listed in the captured column-family metadata, across
levels in order. -/
def allExportFiles (levels : List LevelMetaData) : List SstFileMetaData :=
  (levels.map (fun lvl => lvl.files)).flatten

/-- The fault oracle never interferes with the probes and deletions used
by the cleanup paths. -/
def CleanupBenign (w : World) : Prop :=
  (∀ p, w.faults (Op.fileExists p) = none) ∧
  (∀ p, w.faults (Op.getChildren p) = none) ∧
  (∀ p, w.faults (Op.deleteFile p) = none) ∧
  (∀ p, w.faults (Op.deleteDir p) = none)

/-- The fault oracle is completely silent: every primitive takes its
default result. -/
def NoFaults (w : World) : Prop := ∀ op, w.faults op = none

/-- World evolution of a cleanup path: oracles unchanged, the filesystem
only shrinks, paths outside the purged directory survive, and the trace
grows by primitive events that are not enable/disable-file-deletions. -/
def ShrinkKeep (delBase : String) (w w' : World) : Prop :=
  w'.faults = w.faults ∧
  w'.parseFileName = w.parseFileName ∧
  w'.checksums = w.checksums ∧
  (∀ q, q ∈ w'.fs → q ∈ w.fs) ∧
  (∀ q, q ∈ w.fs → q ≠ delBase → strStartsWith q (delBase ++ "/") = false → q ∈ w'.fs) ∧
  (∃ ts, w'.events = w.events ++ ts ∧ ts.all (fun e => isPrimEv e && ¬ isDFDEv e) = true)

/-- The link-then-copy-fallback discipline of one trace segment, relative
to the incoming same-filesystem flag: every NotSupported link invocation
is immediately followed by the copy of the same file, no link invocation
follows a NotSupported one, a false incoming flag precludes link
invocations entirely, and the outgoing flag is the incoming one cleared
by any NotSupported link. -/
def TraceGood (b : Bool) (ts : List Ev) (bOut : Bool) : Prop :=
  linkFallbackOk ts = true ∧ linkTailOk ts = true ∧
  (b = false → noLinkEvs ts = true) ∧ bOut = (b && !hasNSLinkEv ts)

/-- The second world extends the first by primitive events only. -/
def PrimTail (w w2 : World) : Prop :=
  ∃ ts, w2.events = w.events ++ ts ∧ ts.all isPrimEv = true

def TraceTail (b : Bool) (w w2 : World) (bOut : Bool) : Prop :=
  ∃ ts, w2.events = w.events ++ ts ∧ TraceGood b (transferEvs ts) bOut


def NoDFDTail (w w2 : World) : Prop :=
  ∃ ts, w2.events = w.events ++ ts ∧ ts.all (fun e => !isDFDEv e) = true

def DfdOkTail (w w2 : World) : Prop :=
  ∃ ts, w2.events = w.events ++ ts ∧
    countEnable ts = (if hasDisableOk ts = true then 1 else 0)


/-- Events whose options-rewrite values are exactly the given pair. -/
def persistVals (vld vwd : String) : Ev → Bool := fun e =>
  match e with
  | Ev.prim (Op.persistOptions _ ld wd) _ => decide (ld = vld ∧ wd = vwd)
  | _ => true

def EvTailP (P : Ev → Bool) (w w2 : World) : Prop :=
  ∃ ts, w2.events = w.events ++ ts ∧ ts.all P = true


/-! Concrete instances used by witnesses and counterexamples. -/

/-- A file-name parser covering the file names of the concrete scenarios. -/
def parseStd : String → Option (Nat × FileType) := fun f =>
  if f = "/MANIFEST-7" then some (7, FileType.descriptor)
  else if f = "/CURRENT" then some (0, FileType.current)
  else if f = "/OPTIONS-5" then some (5, FileType.options)
  else if f = "/1.sst" then some (1, FileType.table)
  else if f = "/2.sst" then some (2, FileType.table)
  else if f = "/3.sst" then some (3, FileType.table)
  else if f = "/4.sst" then some (4, FileType.table)
  else none

/-- A fault-free world over an empty filesystem. -/
def wBenign : World :=
  { fs := [], events := [], faults := fun _ => none,
    parseFileName := parseStd, checksums := fun _ => none }

def sstOne : SstFileMetaData :=
  { size := 10, name := "/1.sst", fileNumber := 1, smallestSeqno := 1,
    largestSeqno := 2, smallestkey := "a", largestkey := "b",
    oldestBlobFileNumber := 0 }

def sstTwo : SstFileMetaData :=
  { size := 20, name := "/2.sst", fileNumber := 2, smallestSeqno := 3,
    largestSeqno := 4, smallestkey := "c", largestkey := "d",
    oldestBlobFileNumber := 0 }

/-- A small database model with live files of every kind, two WAL files
and one column family holding two table files. -/
def dbStd : DBModel :=
  { name := "/db", allow2pc := false, useFsync := false, walSrcDir := "/db",
    latestSeq := 7, liveFiles1 := [], manifestSize1 := 3,
    liveFiles2 := ["/MANIFEST-7", "/CURRENT", "/OPTIONS-5", "/3.sst", "/4.sst"],
    manifestSize2 := 42, minLogNum := some 0,
    walFilesFlushCheck := [],
    walFilesMain := [⟨5, "/000005.log", 100, WalFileType.alive⟩,
                     ⟨6, "/000006.log", 50, WalFileType.alive⟩],
    cfMeta := { levels := [{ level := 0, files := [sstOne, sstTwo] }] },
    comparatorName := "leveldb.BytewiseComparator", cfName := "cf1" }

/-- dbStd without any live files, WAL files or table files. -/
def dbMini : DBModel :=
  { dbStd with
    liveFiles2 := []
    walFilesMain := []
    cfMeta := { levels := [] } }

/-- The world of the C1 counterexample: the directory fsync after the
rename fails, and EnableFileDeletions fails with a distinct earlier
error. -/
def wFsyncFails : World :=
  { wBenign with faults := fun op =>
      match op with
      | Op.fsyncDir _ => some (Status.ioError "fsync failed")
      | Op.enableFileDeletions => some (Status.ioError "enable failed")
      | _ => none }

/-- dbStd where the WAL list ends in an archived log. -/
def dbArchivedLast : DBModel :=
  { dbStd with
    liveFiles2 := []
    walFilesMain := [⟨5, "/000005.log", 100, WalFileType.alive⟩,
                     ⟨6, "/000006.log", 50, WalFileType.archived⟩] }

/-- dbStd with only an options file among the live files. -/
def dbOptionsOnly : DBModel :=
  { dbStd with liveFiles2 := ["/OPTIONS-5"], walFilesMain := [] }

/-- A world where the hard link of the second exported table file fails as
unsupported. -/
def wLinkTwoNS : World :=
  { wBenign with faults := fun op =>
      match op with
      | Op.linkFile "/db/2.sst" "/exp.tmp/2.sst" => some (Status.notSupported "")
      | _ => none }

/-- A world where the hard link of table file 3 into the staging directory
fails as unsupported. -/
def wLinkSstNS : World :=
  { wBenign with faults := fun op =>
      match op with
      | Op.linkFile "/db/3.sst" "/snap.tmp/3.sst" => some (Status.notSupported "")
      | _ => none }

/-- A world where every hard-link attempt fails as unsupported (a genuine
cross-device setup). -/
def wAllLinksNS : World :=
  { wBenign with faults := fun op =>
      match op with
      | Op.linkFile _ _ => some (Status.notSupported "")
      | _ => none }

/-- A world whose filesystem already holds the path "/x". -/
def wTargetExists : World := { wBenign with fs := ["/x"] }

/-! Basic facts about the string and path helpers. -/

theorem strLen_append (a b : String) : strLen (a ++ b) = strLen a + strLen b := by
  cases a
  cases b
  exact List.length_append _ _

theorem mem_insertPath {q p : String} {fs : List String} :
    q ∈ insertPath p fs ↔ q = p ∨ q ∈ fs := by
  unfold insertPath
  split
  · constructor
    · exact fun h => Or.inr h
    · rintro (rfl | h)
      · assumption
      · exact h
  · exact List.mem_cons

theorem mem_removePath {q p : String} {fs : List String} :
    q ∈ removePath p fs ↔ q ∈ fs ∧ q ≠ p := by
  unfold removePath
  simp [List.mem_filter]

theorem strStartsWith_append (a b : String) : strStartsWith (a ++ b) a = true := by
  cases a
  cases b
  unfold strStartsWith
  rw [List.isPrefixOf_iff_prefix]
  exact List.prefix_append _ _

theorem strLen_le_of_startsWith {s p : String} (h : strStartsWith s p = true) :
    strLen p ≤ strLen s := by
  unfold strStartsWith at h
  rw [List.isPrefixOf_iff_prefix] at h
  exact h.length_le

/-! The world-evolution relation. -/

theorem evolvesP_refl (Q : String → Prop) (P : Ev → Bool) (w : World) : EvolvesP Q P w w :=
  ⟨rfl, rfl, rfl, fun _ h => h, fun _ h => Or.inl h, ⟨[], by simp, rfl⟩⟩

theorem evolvesP_trans {Q P w1 w2 w3} (h12 : EvolvesP Q P w1 w2)
    (h23 : EvolvesP Q P w2 w3) : EvolvesP Q P w1 w3 := by
  obtain ⟨f12, p12, c12, up12, dn12, ts1, e12, a12⟩ := h12
  obtain ⟨f23, p23, c23, up23, dn23, ts2, e23, a23⟩ := h23
  refine ⟨f23.trans f12, p23.trans p12, c23.trans c12,
    fun q hq => up23 q (up12 q hq),
    fun q hq => (dn23 q hq).elim (fun h => dn12 q h) Or.inr,
    ts1 ++ ts2, ?_, ?_⟩
  · rw [e23, e12, List.append_assoc]
  · simp only [List.all_append, a12, a23, Bool.and_self]

theorem evolvesP_logEv {Q P w} {e : Ev} (h : P e = true) : EvolvesP Q P w (w.logEv e) :=
  ⟨rfl, rfl, rfl, fun _ h => h, fun _ h => Or.inl h, ⟨[e], rfl, by simp [h]⟩⟩

theorem evolvesP_fsInsert {Q P w p} (h : Q p) :
    EvolvesP Q P w { w with fs := insertPath p w.fs } :=
  ⟨rfl, rfl, rfl, fun q hq => mem_insertPath.mpr (Or.inr hq),
    fun q hq => (mem_insertPath.mp hq).elim (fun e => Or.inr (e ▸ h)) Or.inl,
    ⟨[], by simp, rfl⟩⟩

theorem evolvesP_mem_events {Q P w w'} (h : EvolvesP Q P w w') {e : Ev}
    (he : e ∈ w.events) : e ∈ w'.events := by
  obtain ⟨_, _, _, _, _, ts, hts, _⟩ := h
  rw [hts]
  exact List.mem_append_left _ he

/-! Evolution facts for the primitives. -/

theorem opFileExists_evolvesP {Q P} (p : String) (w : World)
    (hp : ∀ st, P (Ev.prim (Op.fileExists p) st) = true) :
    EvolvesP Q P w (opFileExists p w).2 := by
  unfold opFileExists
  exact evolvesP_logEv (hp _)

theorem opCreateDir_evolvesP {Q P} (p : String) (w : World) (hq : Q p)
    (hp : ∀ st, P (Ev.prim (Op.createDir p) st) = true) :
    EvolvesP Q P w (opCreateDir p w).2 := by
  unfold opCreateDir
  refine evolvesP_trans ?_ (evolvesP_logEv (hp _))
  split
  · exact evolvesP_fsInsert hq
  · exact evolvesP_refl _ _ _

theorem opNewDirectory_evolvesP {Q P} (p : String) (w : World)
    (hp : ∀ st, P (Ev.prim (Op.newDirectory p) st) = true) :
    EvolvesP Q P w (opNewDirectory p w).2 := by
  unfold opNewDirectory
  exact evolvesP_logEv (hp _)

theorem opFsyncDir_evolvesP {Q P} (p : String) (w : World)
    (hp : ∀ st, P (Ev.prim (Op.fsyncDir p) st) = true) :
    EvolvesP Q P w (opFsyncDir p w).2 := by
  unfold opFsyncDir
  exact evolvesP_logEv (hp _)

theorem opDisableFileDeletions_evolvesP {Q P} (w : World)
    (hp : ∀ st, P (Ev.prim Op.disableFileDeletions st) = true) :
    EvolvesP Q P w (opDisableFileDeletions w).2 := by
  unfold opDisableFileDeletions
  exact evolvesP_logEv (hp _)

theorem opEnableFileDeletions_evolvesP {Q P} (w : World)
    (hp : ∀ st, P (Ev.prim Op.enableFileDeletions st) = true) :
    EvolvesP Q P w (opEnableFileDeletions w).2 := by
  unfold opEnableFileDeletions
  exact evolvesP_logEv (hp _)

theorem opGetSortedWalFiles_evolvesP {Q P} (i : Nat) (wals : List WalFileDesc) (w : World)
    (hp : ∀ st, P (Ev.prim (Op.getSortedWalFiles i) st) = true) :
    EvolvesP Q P w (opGetSortedWalFiles i wals w).2.2 := by
  unfold opGetSortedWalFiles
  exact evolvesP_logEv (hp _)

theorem opGetLiveFiles_evolvesP {Q P} (i : Nat) (fl : Bool) (files : List String)
    (ms : Nat) (w : World)
    (hp : ∀ st, P (Ev.prim (Op.getLiveFiles i fl) st) = true) :
    EvolvesP Q P w (opGetLiveFiles i fl files ms w).2.2.2 := by
  unfold opGetLiveFiles
  exact evolvesP_logEv (hp _)

theorem opFlushWAL_evolvesP {Q P} (w : World)
    (hp : ∀ st, P (Ev.prim Op.flushWAL st) = true) :
    EvolvesP Q P w (opFlushWAL w).2 := by
  unfold opFlushWAL
  exact evolvesP_logEv (hp _)

theorem opFlushCF_evolvesP {Q P} (n : String) (w : World)
    (hp : ∀ st, P (Ev.prim (Op.flushCF n) st) = true) :
    EvolvesP Q P w (opFlushCF n w).2 := by
  unfold opFlushCF
  exact evolvesP_logEv (hp _)

theorem opLinkFile_evolvesP {Q P} (a b : String) (w : World) (hq : Q b)
    (hp : ∀ st, P (Ev.prim (Op.linkFile a b) st) = true) :
    EvolvesP Q P w (opLinkFile a b w).2 := by
  unfold opLinkFile
  refine evolvesP_trans ?_ (evolvesP_logEv (hp _))
  split
  · exact evolvesP_fsInsert hq
  · exact evolvesP_refl _ _ _

theorem opCopyFile_evolvesP {Q P} (a b : String) (l : Nat) (w : World) (hq : Q b)
    (hp : ∀ st, P (Ev.prim (Op.copyFile a b l) st) = true) :
    EvolvesP Q P w (opCopyFile a b l w).2 := by
  unfold opCopyFile
  refine evolvesP_trans ?_ (evolvesP_logEv (hp _))
  split
  · exact evolvesP_fsInsert hq
  · exact evolvesP_refl _ _ _

theorem opCreateFile_evolvesP {Q P} (b c : String) (w : World) (hq : Q b)
    (hp : ∀ st, P (Ev.prim (Op.createFile b c) st) = true) :
    EvolvesP Q P w (opCreateFile b c w).2 := by
  unfold opCreateFile
  refine evolvesP_trans ?_ (evolvesP_logEv (hp _))
  split
  · exact evolvesP_fsInsert hq
  · exact evolvesP_refl _ _ _

theorem opLoadOptionsFromFile_evolvesP {Q P} (p : String) (w : World)
    (hp : ∀ st, P (Ev.prim (Op.loadOptionsFromFile p) st) = true) :
    EvolvesP Q P w (opLoadOptionsFromFile p w).2 := by
  unfold opLoadOptionsFromFile
  exact evolvesP_logEv (hp _)

theorem opPersistOptions_evolvesP {Q P} (p ld wd : String) (w : World) (hq : Q p)
    (hp : ∀ st, P (Ev.prim (Op.persistOptions p ld wd) st) = true) :
    EvolvesP Q P w (opPersistOptions p ld wd w).2 := by
  unfold opPersistOptions
  refine evolvesP_trans ?_ (evolvesP_logEv (hp _))
  split
  · exact evolvesP_fsInsert hq
  · exact evolvesP_refl _ _ _

theorem opGetFileChecksums_evolvesP {Q P} (p : String) (n : Nat) (w : World)
    (hp : ∀ st, P (Ev.prim (Op.getFileChecksums p n) st) = true) :
    EvolvesP Q P w (opGetFileChecksums p n w).2 := by
  unfold opGetFileChecksums
  exact evolvesP_logEv (hp _)

/-! Evolution facts for the callback call sites. -/

theorem callLink_evolvesP {Q P cb d f t w} (hcb : EvolvesP Q P w (cb d f t w).2)
    (hp : ∀ st, P (Ev.linkReq d f t st) = true) :
    EvolvesP Q P w (callLink cb d f t w).2 := by
  unfold callLink
  exact evolvesP_trans hcb (evolvesP_logEv (hp _))

theorem callCopy_evolvesP {Q P cb d f l t cn cv w}
    (hcb : EvolvesP Q P w (cb d f l t cn cv w).2)
    (hp : ∀ st, P (Ev.copyReq d f l t cn cv st) = true) :
    EvolvesP Q P w (callCopy cb d f l t cn cv w).2 := by
  unfold callCopy
  exact evolvesP_trans hcb (evolvesP_logEv (hp _))

theorem callCreate_evolvesP {Q P cb f c t w} (hcb : EvolvesP Q P w (cb f c t w).2)
    (hp : ∀ st, P (Ev.createReq f c t st) = true) :
    EvolvesP Q P w (callCreate cb f c t w).2 := by
  unfold callCreate
  exact evolvesP_trans hcb (evolvesP_logEv (hp _))

theorem callLink2_evolvesP {Q P cb d f w} (hcb : EvolvesP Q P w (cb d f w).2)
    (hp : ∀ st, P (Ev.linkReq2 d f st) = true) :
    EvolvesP Q P w (callLink2 cb d f w).2 := by
  unfold callLink2
  exact evolvesP_trans hcb (evolvesP_logEv (hp _))

theorem callCopy2_evolvesP {Q P cb d f w} (hcb : EvolvesP Q P w (cb d f w).2)
    (hp : ∀ st, P (Ev.copyReq2 d f st) = true) :
    EvolvesP Q P w (callCopy2 cb d f w).2 := by
  unfold callCopy2
  exact evolvesP_trans hcb (evolvesP_logEv (hp _))

/-! Evolution facts for the callbacks the checkpoint code binds. -/

theorem copyOptionsFile_evolvesP {Q P} (src tgt ld wd : String) (w : World) (hq : Q tgt)
    (hp1 : ∀ st, P (Ev.prim (Op.loadOptionsFromFile src) st) = true)
    (hp2 : ∀ st, P (Ev.prim (Op.persistOptions tgt ld wd) st) = true) :
    EvolvesP Q P w (copyOptionsFile src tgt ld wd w).2 := by
  simp only [copyOptionsFile]
  split
  · exact opLoadOptionsFromFile_evolvesP _ _ hp1
  · exact evolvesP_trans (opLoadOptionsFromFile_evolvesP _ _ hp1)
      (opPersistOptions_evolvesP _ _ _ _ hq hp2)

theorem ckptLinkCb_evolvesP {Q P} (db : DBModel) (full nwd : String)
    (hqf : ∀ f, Q (full ++ f)) (hqn : ∀ f, Q (nwd ++ f))
    (hp : ∀ a b st, P (Ev.prim (Op.linkFile a b) st) = true) :
    ∀ d f t w, EvolvesP Q P w (ckptLinkCb db full nwd d f t w).2 := by
  intro d f t w
  unfold ckptLinkCb
  refine opLinkFile_evolvesP _ _ _ ?_ (hp _ _)
  split
  · exact hqn f
  · exact hqf f

theorem ckptCopyCb_evolvesP {Q P} (db : DBModel) (full nwd vl vw : String)
    (hqf : ∀ f, Q (full ++ f)) (hqn : ∀ f, Q (nwd ++ f))
    (hpc : ∀ a b l st, P (Ev.prim (Op.copyFile a b l) st) = true)
    (hpl : ∀ p st, P (Ev.prim (Op.loadOptionsFromFile p) st) = true)
    (hpp : ∀ p st, P (Ev.prim (Op.persistOptions p vl vw) st) = true) :
    ∀ d f l t cn cv w, EvolvesP Q P w (ckptCopyCb db full nwd vl vw d f l t cn cv w).2 := by
  intro d f l t cn cv w
  unfold ckptCopyCb
  split
  · exact copyOptionsFile_evolvesP _ _ _ _ _ (hqf f) (hpl _) (hpp _)
  · refine opCopyFile_evolvesP _ _ _ _ ?_ (hpc _ _ _)
    split
    · exact hqn f
    · exact hqf f

theorem ckptCreateCb_evolvesP {Q P} (full : String) (hqf : ∀ f, Q (full ++ f))
    (hp : ∀ b c st, P (Ev.prim (Op.createFile b c) st) = true) :
    ∀ f c t w, EvolvesP Q P w (ckptCreateCb full f c t w).2 := by
  intro f c t w
  unfold ckptCreateCb
  exact opCreateFile_evolvesP _ _ _ (hqf f) (hp _ _)

theorem exportLinkCb_evolvesP {Q P} (db : DBModel) (tmp : String)
    (hq : ∀ f, Q (tmp ++ f))
    (hp : ∀ a b st, P (Ev.prim (Op.linkFile a b) st) = true) :
    ∀ d f w, EvolvesP Q P w (exportLinkCb db tmp d f w).2 := by
  intro d f w
  unfold exportLinkCb
  exact opLinkFile_evolvesP _ _ _ (hq f) (hp _ _)

theorem exportCopyCb_evolvesP {Q P} (db : DBModel) (tmp : String)
    (hq : ∀ f, Q (tmp ++ f))
    (hp : ∀ a b l st, P (Ev.prim (Op.copyFile a b l) st) = true) :
    ∀ d f w, EvolvesP Q P w (exportCopyCb db tmp d f w).2 := by
  intro d f w
  unfold exportCopyCb
  exact opCopyFile_evolvesP _ _ _ _ (hq f) (hp _ _ _)

/-! Evolution facts for the passes. -/

theorem liveFilesPass_evolvesP {Q P} (parse : String → Option (Nat × FileType))
    (dbName : String) (copyCb : CopyCb) (msize : Nat)
    (hcb : ∀ d f l t cn cv w, EvolvesP Q P w (copyCb d f l t cn cv w).2)
    (hPc : ∀ d f l t cn cv st, P (Ev.copyReq d f l t cn cv st) = true) :
    ∀ files s mf cf acc w,
      EvolvesP Q P w (liveFilesPass parse dbName copyCb msize files s mf cf acc w).2.2.2.2 := by
  intro files
  induction files with
  | nil =>
    intro s mf cf acc w
    exact evolvesP_refl _ _ _
  | cons f rest ih =>
    intro s mf cf acc w
    simp only [liveFilesPass]
    split
    · exact evolvesP_refl _ _ _
    · split
      · exact evolvesP_refl _ _ _
      · split
        · exact ih _ _ _ _ _
        · split
          · exact evolvesP_trans (callCopy_evolvesP (hcb _ _ _ _ _ _ _) (hPc _ _ _ _ _ _))
              (ih _ _ _ _ _)
          · exact ih _ _ _ _ _

theorem tableBlobPass_evolvesP {Q P} (dbName : String) (linkCb : LinkCb) (copyCb : CopyCb)
    (gc : Bool) (cks : Nat → Option (String × String))
    (hl : ∀ d f t w, EvolvesP Q P w (linkCb d f t w).2)
    (hc : ∀ d f l t cn cv w, EvolvesP Q P w (copyCb d f l t cn cv w).2)
    (hPl : ∀ d f t st, P (Ev.linkReq d f t st) = true)
    (hPc : ∀ d f l t cn cv st, P (Ev.copyReq d f l t cn cv st) = true) :
    ∀ files b s w,
      EvolvesP Q P w (tableBlobPass dbName linkCb copyCb gc cks files b s w).2.2 := by
  intro files
  induction files with
  | nil =>
    intro b s w
    exact evolvesP_refl _ _ _
  | cons f rest ih =>
    obtain ⟨fname, number, t⟩ := f
    intro b s w
    simp only [tableBlobPass]
    split
    · exact evolvesP_refl _ _ _
    · have hstep : ∀ (st : Status × Bool × World), EvolvesP Q P w st.2.2 →
          EvolvesP Q P w (if ¬ st.2.1 = true then
            (tableBlobPass dbName linkCb copyCb gc cks rest st.2.1
              (callCopy copyCb dbName fname 0 t
                (if gc = true then
                  match cks number with
                  | some p => p
                  | none => (kUnknownFileChecksumFuncName, kUnknownFileChecksum)
                else (kUnknownFileChecksumFuncName, kUnknownFileChecksum)).1
                (if gc = true then
                  match cks number with
                  | some p => p
                  | none => (kUnknownFileChecksumFuncName, kUnknownFileChecksum)
                else (kUnknownFileChecksumFuncName, kUnknownFileChecksum)).2 st.2.2).1
              (callCopy copyCb dbName fname 0 t
                (if gc = true then
                  match cks number with
                  | some p => p
                  | none => (kUnknownFileChecksumFuncName, kUnknownFileChecksum)
                else (kUnknownFileChecksumFuncName, kUnknownFileChecksum)).1
                (if gc = true then
                  match cks number with
                  | some p => p
                  | none => (kUnknownFileChecksumFuncName, kUnknownFileChecksum)
                else (kUnknownFileChecksumFuncName, kUnknownFileChecksum)).2 st.2.2).2)
          else
            tableBlobPass dbName linkCb copyCb gc cks rest st.2.1 st.1 st.2.2).2.2 := by
        intro st hst
        split
        · exact evolvesP_trans
            (evolvesP_trans hst (callCopy_evolvesP (hc _ _ _ _ _ _ _) (hPc _ _ _ _ _ _)))
            (ih _ _ _)
        · exact evolvesP_trans hst (ih _ _ _)
      apply hstep
      split
      · split
        · exact callLink_evolvesP (hl _ _ _ _) (hPl _ _ _)
        · exact callLink_evolvesP (hl _ _ _ _) (hPl _ _ _)
      · exact evolvesP_refl _ _ _

theorem walPass_evolvesP {Q P} (linkCb : LinkCb) (copyCb : CopyCb) (wdir : String)
    (flush : Bool) (minLog : Nat)
    (hl : ∀ d f t w, EvolvesP Q P w (linkCb d f t w).2)
    (hc : ∀ d f l t cn cv w, EvolvesP Q P w (copyCb d f l t cn cv w).2)
    (hPl : ∀ d f t st, P (Ev.linkReq d f t st) = true)
    (hPc : ∀ d f l t cn cv st, P (Ev.copyReq d f l t cn cv st) = true) :
    ∀ wals b s w, EvolvesP Q P w (walPass linkCb copyCb wdir flush minLog wals b s w).2.2 := by
  intro wals
  induction wals with
  | nil =>
    intro b s w
    exact evolvesP_refl _ _ _
  | cons wf rest ih =>
    intro b s w
    simp only [walPass]
    split
    · exact evolvesP_refl _ _ _
    · split
      · split
        · exact callCopy_evolvesP (hc _ _ _ _ _ _ _) (hPc _ _ _ _ _ _)
        · have hstep : ∀ (st : Status × Bool × World), EvolvesP Q P w st.2.2 →
              EvolvesP Q P w (if ¬ st.2.1 = true then
                (walPass linkCb copyCb wdir flush minLog rest st.2.1
                  (callCopy copyCb wdir wf.pathName 0 FileType.wal
                    kUnknownFileChecksumFuncName kUnknownFileChecksum st.2.2).1
                  (callCopy copyCb wdir wf.pathName 0 FileType.wal
                    kUnknownFileChecksumFuncName kUnknownFileChecksum st.2.2).2)
              else
                walPass linkCb copyCb wdir flush minLog rest st.2.1 st.1 st.2.2).2.2 := by
            intro st hst
            split
            · exact evolvesP_trans
                (evolvesP_trans hst (callCopy_evolvesP (hc _ _ _ _ _ _ _) (hPc _ _ _ _ _ _)))
                (ih _ _ _)
            · exact evolvesP_trans hst (ih _ _ _)
          apply hstep
          split
          · split
            · exact callLink_evolvesP (hl _ _ _ _) (hPl _ _ _)
            · exact callLink_evolvesP (hl _ _ _ _) (hPl _ _ _)
          · exact evolvesP_refl _ _ _
      · exact ih _ _ _

theorem customTransferTail_evolvesP {Q P} (db : DBModel) (linkCb : LinkCb)
    (copyCb : CopyCb) (createCb : CreateCb) (gltc flush : Bool) (minLog : Nat)
    (hl : ∀ d f t w, EvolvesP Q P w (linkCb d f t w).2)
    (hc : ∀ d f l t cn cv w, EvolvesP Q P w (copyCb d f l t cn cv w).2)
    (hcr : ∀ f c t w, EvolvesP Q P w (createCb f c t w).2)
    (hPl : ∀ d f t st, P (Ev.linkReq d f t st) = true)
    (hPc : ∀ d f l t cn cv st, P (Ev.copyReq d f l t cn cv st) = true)
    (hPcr : ∀ f c t st, P (Ev.createReq f c t st) = true)
    (hp4 : ∀ p n st, P (Ev.prim (Op.getFileChecksums p n) st) = true) :
    ∀ liveFiles msize walFiles w,
      EvolvesP Q P w (customTransferTail db linkCb copyCb createCb gltc flush minLog
        liveFiles msize walFiles w).2 := by
  intro liveFiles msize walFiles w
  have L : EvolvesP Q P w (liveFilesPass w.parseFileName db.name copyCb msize liveFiles
      Status.ok "" "" [] w).2.2.2.2 :=
    liveFilesPass_evolvesP _ _ _ _ hc hPc _ _ _ _ _ _
  simp only [customTransferTail]
  split
  · split
    · exact evolvesP_trans (evolvesP_trans (evolvesP_trans
        (evolvesP_trans L (opGetFileChecksums_evolvesP _ _ _ (hp4 _ _)))
        (tableBlobPass_evolvesP _ _ _ _ _ hl hc hPl hPc _ _ _ _))
        (callCreate_evolvesP (hcr _ _ _ _) (hPcr _ _ _)))
        (walPass_evolvesP _ _ _ _ _ hl hc hPl hPc _ _ _ _)
    · exact evolvesP_trans (evolvesP_trans
        (evolvesP_trans L (opGetFileChecksums_evolvesP _ _ _ (hp4 _ _)))
        (tableBlobPass_evolvesP _ _ _ _ _ hl hc hPl hPc _ _ _ _))
        (walPass_evolvesP _ _ _ _ _ hl hc hPl hPc _ _ _ _)
  · split
    · exact evolvesP_trans (evolvesP_trans (evolvesP_trans L
        (tableBlobPass_evolvesP _ _ _ _ _ hl hc hPl hPc _ _ _ _))
        (callCreate_evolvesP (hcr _ _ _ _) (hPcr _ _ _)))
        (walPass_evolvesP _ _ _ _ _ hl hc hPl hPc _ _ _ _)
    · exact evolvesP_trans (evolvesP_trans L
        (tableBlobPass_evolvesP _ _ _ _ _ hl hc hPl hPc _ _ _ _))
        (walPass_evolvesP _ _ _ _ _ hl hc hPl hPc _ _ _ _)

theorem createCustomCheckpoint_evolvesP {Q P} (db : DBModel) (linkCb : LinkCb)
    (copyCb : CopyCb) (createCb : CreateCb) (lsz : Nat) (gltc : Bool)
    (hl : ∀ d f t w, EvolvesP Q P w (linkCb d f t w).2)
    (hc : ∀ d f l t cn cv w, EvolvesP Q P w (copyCb d f l t cn cv w).2)
    (hcr : ∀ f c t w, EvolvesP Q P w (createCb f c t w).2)
    (hPl : ∀ d f t st, P (Ev.linkReq d f t st) = true)
    (hPc : ∀ d f l t cn cv st, P (Ev.copyReq d f l t cn cv st) = true)
    (hPcr : ∀ f c t st, P (Ev.createReq f c t st) = true)
    (hp1 : ∀ i st, P (Ev.prim (Op.getSortedWalFiles i) st) = true)
    (hp2 : ∀ i fl st, P (Ev.prim (Op.getLiveFiles i fl) st) = true)
    (hp3 : ∀ st, P (Ev.prim Op.flushWAL st) = true)
    (hp4 : ∀ p n st, P (Ev.prim (Op.getFileChecksums p n) st) = true) :
    ∀ w, EvolvesP Q P w
      (createCustomCheckpoint db linkCb copyCb createCb lsz gltc w).2.2 := by
  intro w
  have T := @customTransferTail_evolvesP Q P db linkCb copyCb createCb gltc
  simp only [createCustomCheckpoint]
  have hdec : ∀ w2 : World, EvolvesP Q P w w2 →
      EvolvesP Q P w ((match db.minLogNum with
        | none => (Status.invalidArgument "cannot get the min log number to keep.",
            db.latestSeq,
            (opGetLiveFiles 1 (flushMemtableDecision db.allow2pc lsz
              (totalWalSize db.walFilesFlushCheck)) db.liveFiles1 db.manifestSize1
              w2).2.2.2)
        | some minLogNum =>
          let g2 := opGetLiveFiles 2 (flushMemtableDecision db.allow2pc lsz
            (totalWalSize db.walFilesFlushCheck)) db.liveFiles2 db.manifestSize2
            (opGetLiveFiles 1 (flushMemtableDecision db.allow2pc lsz
              (totalWalSize db.walFilesFlushCheck)) db.liveFiles1 db.manifestSize1
              w2).2.2.2
          let fw := if g2.1.isOk then opFlushWAL g2.2.2.2 else (g2.1, g2.2.2.2)
          let gw := if fw.1.isOk then opGetSortedWalFiles 2 db.walFilesMain fw.2
            else (fw.1, [], fw.2)
          if ¬ gw.1.isOk = true then (gw.1, db.latestSeq, gw.2.2)
          else
            let r := customTransferTail db linkCb copyCb createCb gltc
              (flushMemtableDecision db.allow2pc lsz (totalWalSize db.walFilesFlushCheck))
              minLogNum g2.2.1 g2.2.2.1 gw.2.1 gw.2.2
            (r.1, db.latestSeq, r.2)
        : Status × Nat × World)).2.2 := by
    intro w2 hw2
    have E1 : EvolvesP Q P w (opGetLiveFiles 1 (flushMemtableDecision db.allow2pc lsz
        (totalWalSize db.walFilesFlushCheck)) db.liveFiles1 db.manifestSize1 w2).2.2.2 :=
      evolvesP_trans hw2 (opGetLiveFiles_evolvesP _ _ _ _ _ (hp2 _ _))
    cases db.minLogNum with
    | none => exact E1
    | some minLogNum =>
      have E2 : EvolvesP Q P w (opGetLiveFiles 2 (flushMemtableDecision db.allow2pc lsz
          (totalWalSize db.walFilesFlushCheck)) db.liveFiles2 db.manifestSize2
          (opGetLiveFiles 1 (flushMemtableDecision db.allow2pc lsz
            (totalWalSize db.walFilesFlushCheck)) db.liveFiles1 db.manifestSize1
            w2).2.2.2).2.2.2 :=
        evolvesP_trans E1 (opGetLiveFiles_evolvesP _ _ _ _ _ (hp2 _ _))
      simp only []
      have hfw : ∀ g2v : Status × List String × Nat × World, EvolvesP Q P w g2v.2.2.2 →
          EvolvesP Q P w ((if g2v.1.isOk = true then opFlushWAL g2v.2.2.2
            else (g2v.1, g2v.2.2.2)) : Status × World).2 := by
        intro g2v hg2
        split
        · exact evolvesP_trans hg2 (opFlushWAL_evolvesP _ hp3)
        · exact hg2
      have hgw : ∀ fwv : Status × World, EvolvesP Q P w fwv.2 →
          EvolvesP Q P w ((if fwv.1.isOk = true
            then opGetSortedWalFiles 2 db.walFilesMain fwv.2
            else (fwv.1, [], fwv.2)) : Status × List WalFileDesc × World).2.2 := by
        intro fwv hfwv
        split
        · exact evolvesP_trans hfwv (opGetSortedWalFiles_evolvesP _ _ _ (hp1 _))
        · exact hfwv
      have htail : ∀ (g2v : Status × List String × Nat × World)
          (gwv : Status × List WalFileDesc × World), EvolvesP Q P w gwv.2.2 →
          EvolvesP Q P w ((if ¬ gwv.1.isOk = true then (gwv.1, db.latestSeq, gwv.2.2)
            else
              ((customTransferTail db linkCb copyCb createCb gltc
                (flushMemtableDecision db.allow2pc lsz (totalWalSize db.walFilesFlushCheck))
                minLogNum g2v.2.1 g2v.2.2.1 gwv.2.1 gwv.2.2).1,
              db.latestSeq,
              (customTransferTail db linkCb copyCb createCb gltc
                (flushMemtableDecision db.allow2pc lsz (totalWalSize db.walFilesFlushCheck))
                minLogNum g2v.2.1 g2v.2.2.1 gwv.2.1 gwv.2.2).2)) : Status × Nat × World).2.2 := by
        intro g2v gwv hgwv
        split
        · exact hgwv
        · exact evolvesP_trans hgwv (T _ _ hl hc hcr hPl hPc hPcr hp4 _ _ _ _)
      exact htail _ _ (hgw _ (hfw _ E2))
  split
  · split
    · exact opGetSortedWalFiles_evolvesP 1 db.walFilesFlushCheck w (hp1 1)
    · exact hdec _ (opGetSortedWalFiles_evolvesP 1 db.walFilesFlushCheck w (hp1 1))
  · split
    · exact evolvesP_refl _ _ _
    · exact hdec _ (evolvesP_refl _ _ _)

/-! Facts about the cleanup paths. -/

theorem shrinkKeep_refl (p : String) (w : World) : ShrinkKeep p w w :=
  ⟨rfl, rfl, rfl, fun _ h => h, fun _ h _ _ => h, ⟨[], by simp, rfl⟩⟩

theorem shrinkKeep_trans {p w1 w2 w3} (h12 : ShrinkKeep p w1 w2)
    (h23 : ShrinkKeep p w2 w3) : ShrinkKeep p w1 w3 := by
  obtain ⟨f12, p12, c12, dn12, kp12, ts1, e12, a12⟩ := h12
  obtain ⟨f23, p23, c23, dn23, kp23, ts2, e23, a23⟩ := h23
  refine ⟨f23.trans f12, p23.trans p12, c23.trans c12,
    fun q hq => dn12 q (dn23 q hq),
    fun q hq h1 h2 => kp23 q (kp12 q hq h1 h2) h1 h2,
    ts1 ++ ts2, ?_, ?_⟩
  · rw [e23, e12, List.append_assoc]
  · simp only [List.all_append, a12, a23, Bool.and_self]

theorem shrinkKeep_logPrim (p : String) (w : World) (op : Op) (st : Status)
    (h : isDFDEv (Ev.prim op st) = false) :
    ShrinkKeep p w (w.logEv (Ev.prim op st)) :=
  ⟨rfl, rfl, rfl, fun _ h => h, fun _ h _ _ => h,
    ⟨[Ev.prim op st], rfl, by simp [isPrimEv, h]⟩⟩

theorem opDeleteFile_shrinkKeep (p b : String) (w : World)
    (hne : b ≠ p) (hpre : strStartsWith b (p ++ "/") = false → False) :
    ShrinkKeep p w (opDeleteFile b w).2 := by
  unfold opDeleteFile
  refine shrinkKeep_trans ?_ (shrinkKeep_logPrim _ _ _ _ (by simp [isDFDEv]))
  split
  · refine ⟨rfl, rfl, rfl, fun q hq => (mem_removePath.mp hq).1, ?_, ⟨[], by simp, rfl⟩⟩
    intro q hq h1 h2
    refine mem_removePath.mpr ⟨hq, ?_⟩
    intro hqb
    subst hqb
    cases hpre h2
  · exact shrinkKeep_refl _ _

theorem opDeleteDir_shrinkKeep (p b : String) (w : World)
    (hne : b ≠ p → False) (hpre : strStartsWith b (p ++ "/") = false → b = p) :
    ShrinkKeep p w (opDeleteDir b w).2 := by
  unfold opDeleteDir
  refine shrinkKeep_trans ?_ (shrinkKeep_logPrim _ _ _ _ (by simp [isDFDEv]))
  split
  · refine ⟨rfl, rfl, rfl, fun q hq => (mem_removePath.mp hq).1, ?_, ⟨[], by simp, rfl⟩⟩
    intro q hq h1 h2
    refine mem_removePath.mpr ⟨hq, ?_⟩
    intro hqb
    subst hqb
    exact h1 (by by_contra hne2; exact hne2 (hpre h2) )
  · exact shrinkKeep_refl _ _

theorem deleteFold_shrinkKeep (p : String) :
    ∀ (cs : List String) (w : World),
      ShrinkKeep p w (cs.foldl (fun w c => (opDeleteFile (p ++ "/" ++ c) w).2) w) := by
  intro cs
  induction cs with
  | nil => intro w; exact shrinkKeep_refl _ _
  | cons c rest ih =>
    intro w
    refine shrinkKeep_trans (opDeleteFile_shrinkKeep p (p ++ "/" ++ c) w ?_ ?_) (ih _)
    · intro h
      have : strLen p + 1 + strLen c = strLen p := by
        have := congrArg strLen h
        rwa [strLen_append, strLen_append] at this
      omega
    · intro h
      rw [show p ++ "/" ++ c = (p ++ "/") ++ c from rfl, strStartsWith_append] at h
      cases h

theorem cleanStaging_shrinkKeep (p : String) (w : World) :
    ShrinkKeep p w (cleanStagingDirectory p w) := by
  simp only [cleanStagingDirectory]
  split
  · exact shrinkKeep_logPrim _ _ _ _ (by simp [isDFDEv])
  · have h1 : ShrinkKeep p w (opFileExists p w).2 :=
      shrinkKeep_logPrim _ _ _ _ (by simp [isDFDEv])
    have h2 : ∀ w2, ShrinkKeep p w w2 →
        ShrinkKeep p w ((opGetChildren p w2).2.2) := fun w2 hw2 =>
      shrinkKeep_trans hw2 (shrinkKeep_logPrim _ _ _ _ (by simp [isDFDEv]))
    have h3 : ∀ w2, ShrinkKeep p w w2 →
        ShrinkKeep p w (opDeleteDir p w2).2 := fun w2 hw2 =>
      shrinkKeep_trans hw2
        (opDeleteDir_shrinkKeep p p w2 (fun h => h rfl) (fun _ => rfl))
    apply h3
    split
    · exact shrinkKeep_trans (h2 _ h1) (deleteFold_shrinkKeep _ _ _)
    · exact h2 _ h1

theorem cleanStaging_removes (p : String) (w : World)
    (hfe : w.faults (Op.fileExists p) = none)
    (hdd : w.faults (Op.deleteDir p) = none) :
    p ∉ (cleanStagingDirectory p w).fs := by
  simp only [cleanStagingDirectory]
  by_cases hp : p ∈ w.fs
  · have hcond : (opFileExists p w).1.isNotFound = false := by
      simp [opFileExists, faultOr, hfe, hp, Status.isNotFound]
    simp only [hcond, Bool.false_eq_true, if_false]
    have hfold := deleteFold_shrinkKeep p (opGetChildren p (opFileExists p w).2).2.1
      (opGetChildren p (opFileExists p w).2).2.2
    set w1 := (if (opGetChildren p (opFileExists p w).2).1.isOk = true
        then List.foldl (fun w c => (opDeleteFile (p ++ "/" ++ c) w).2)
          (opGetChildren p (opFileExists p w).2).2.2
          (opGetChildren p (opFileExists p w).2).2.1
        else (opGetChildren p (opFileExists p w).2).2.2) with hw1def
    have hw1 : w1.faults = w.faults := by
      rw [hw1def]
      split
      · rw [hfold.1]
        rfl
      · rfl
    show p ∉ (opDeleteDir p w1).2.fs
    simp [opDeleteDir, faultOr, hw1, hdd, mem_removePath, World.logEv, Status.isOk]
  · have hcond : (opFileExists p w).1.isNotFound = true := by
      simp [opFileExists, faultOr, hfe, hp, Status.isNotFound]
    simp only [hcond, if_true]
    simpa [opFileExists, World.logEv] using hp

theorem Status.eq_ok {s : Status} (h : s.isOk = true) : s = Status.ok := by
  cases s <;> simp [Status.isOk] at h ⊢

theorem ckptLinkCb_primOnly (db : DBModel) (full nwd : String) :
    PrimOnlyLink (ckptLinkCb db full nwd) := by
  intro d f t w
  obtain ⟨_, _, _, _, _, ts, hts, hall⟩ :=
    ckptLinkCb_evolvesP (Q := fun _ => True) (P := isPrimEv) db full nwd
      (fun _ => trivial) (fun _ => trivial) (fun _ _ _ => rfl) d f t w
  exact ⟨ts, hts, hall⟩

theorem ckptCopyCb_primOnly (db : DBModel) (full nwd vl vw : String) :
    PrimOnlyCopy (ckptCopyCb db full nwd vl vw) := by
  intro d f l t cn cv w
  obtain ⟨_, _, _, _, _, ts, hts, hall⟩ :=
    ckptCopyCb_evolvesP (Q := fun _ => True) (P := isPrimEv) db full nwd vl vw
      (fun _ => trivial) (fun _ => trivial) (fun _ _ _ _ => rfl) (fun _ _ => rfl)
      (fun _ _ => rfl) d f l t cn cv w
  exact ⟨ts, hts, hall⟩

theorem ckptCreateCb_primOnly (full : String) : PrimOnlyCreate (ckptCreateCb full) := by
  intro f c t w
  obtain ⟨_, _, _, _, _, ts, hts, hall⟩ :=
    ckptCreateCb_evolvesP (Q := fun _ => True) (P := isPrimEv) full
      (fun _ => trivial) (fun _ _ _ => rfl) f c t w
  exact ⟨ts, hts, hall⟩

theorem exportLinkCb_primOnly (db : DBModel) (tmp : String) :
    PrimOnlyExport (exportLinkCb db tmp) := by
  intro d f w
  obtain ⟨_, _, _, _, _, ts, hts, hall⟩ :=
    exportLinkCb_evolvesP (Q := fun _ => True) (P := isPrimEv) db tmp
      (fun _ => trivial) (fun _ _ _ => rfl) d f w
  exact ⟨ts, hts, hall⟩

theorem exportCopyCb_primOnly (db : DBModel) (tmp : String) :
    PrimOnlyExport (exportCopyCb db tmp) := by
  intro d f w
  obtain ⟨_, _, _, _, _, ts, hts, hall⟩ :=
    exportCopyCb_evolvesP (Q := fun _ => True) (P := isPrimEv) db tmp
      (fun _ => trivial) (fun _ _ _ _ => rfl) d f w
  exact ⟨ts, hts, hall⟩

/-- In the WAL pass, when the final descriptor of the whole list is alive
and passes the retention filter, a successful pass always performed the
exact-size copy of that descriptor. -/
theorem walPass_copies_last (linkCb : LinkCb) (copyCb : CopyCb) (wdir : String)
    (flush : Bool) (minLog : Nat) (last : WalFileDesc)
    (hal : last.walType = WalFileType.alive)
    (hfil : flush = false ∨ last.logNumber ≥ minLog) :
    ∀ ws b s w,
      (walPass linkCb copyCb wdir flush minLog (ws ++ [last]) b s w).1.isOk = true →
      Ev.copyReq wdir last.pathName last.sizeFileBytes FileType.wal
        kUnknownFileChecksumFuncName kUnknownFileChecksum Status.ok ∈
        (walPass linkCb copyCb wdir flush minLog (ws ++ [last]) b s w).2.2.events := by
  have hcond : last.walType = WalFileType.alive ∧
      (¬ flush = true ∨ last.logNumber ≥ minLog) := by
    refine ⟨hal, ?_⟩
    rcases hfil with h | h
    · exact Or.inl (by simp [h])
    · exact Or.inr h
  intro ws
  induction ws with
  | nil =>
    intro b s w
    simp only [List.nil_append, walPass]
    split
    · intro hok
      rename_i hns
      exact absurd hok hns
    · simp only [if_true]
      intro hok
      have hst : (copyCb wdir last.pathName last.sizeFileBytes FileType.wal
          kUnknownFileChecksumFuncName kUnknownFileChecksum w).1 = Status.ok := by
        apply Status.eq_ok
        simpa [callCopy] using hok
      simp [callCopy, World.logEv, hst]
  | cons x ws' ih =>
    intro b s w
    rw [List.cons_append]
    simp only [walPass]
    split
    · intro hok
      rename_i hns
      exact absurd hok hns
    · split
      · split
        · rename_i hnil
          exact absurd hnil (by simp)
        · repeat' split
          all_goals exact ih _ _ _
      · exact ih _ _ _

theorem isLinkOfFname_false_of_prim {p : String} {e : Ev} (h : isPrimEv e = true) :
    isLinkOfFname p e = false := by
  cases e <;> simp [isPrimEv, isLinkOfFname] at h ⊢

/-- A copy invocation preserves the absence of link invocations of `p`. -/
theorem noLinkP_callCopy {copyCb : CopyCb} (hPrimC : PrimOnlyCopy copyCb)
    (p d f : String) (l : Nat) (t : FileType) (cn cv : String) (w : World)
    (hw : ∀ e ∈ w.events, isLinkOfFname p e = false) :
    ∀ e ∈ (callCopy copyCb d f l t cn cv w).2.events, isLinkOfFname p e = false := by
  intro e he
  obtain ⟨ts, hts, hall⟩ := hPrimC d f l t cn cv w
  simp only [callCopy, World.logEv, hts] at he
  rw [List.append_assoc, List.mem_append] at he
  rcases he with h | h
  · exact hw e h
  · rcases List.mem_append.mp h with h2 | h2
    · exact isLinkOfFname_false_of_prim (List.all_eq_true.mp hall e h2)
    · simp only [List.mem_singleton] at h2
      subst h2
      simp [isLinkOfFname]

/-- A link invocation of a file other than `p` preserves the absence of
link invocations of `p`. -/
theorem noLinkP_callLink {linkCb : LinkCb} (hPrimL : PrimOnlyLink linkCb)
    (p d f : String) (t : FileType) (w : World) (hne : f ≠ p)
    (hw : ∀ e ∈ w.events, isLinkOfFname p e = false) :
    ∀ e ∈ (callLink linkCb d f t w).2.events, isLinkOfFname p e = false := by
  intro e he
  obtain ⟨ts, hts, hall⟩ := hPrimL d f t w
  simp only [callLink, World.logEv, hts] at he
  rw [List.append_assoc, List.mem_append] at he
  rcases he with h | h
  · exact hw e h
  · rcases List.mem_append.mp h with h2 | h2
    · exact isLinkOfFname_false_of_prim (List.all_eq_true.mp hall e h2)
    · simp only [List.mem_singleton] at h2
      subst h2
      simp [isLinkOfFname, hne]

/-- The WAL pass never issues a link invocation of a file name that is not
among the non-final descriptors of its input list, provided the callbacks
only append primitive events. -/
theorem walPass_links_subset (linkCb : LinkCb) (copyCb : CopyCb) (wdir : String)
    (flush : Bool) (minLog : Nat) (p : String)
    (hPrimL : PrimOnlyLink linkCb) (hPrimC : PrimOnlyCopy copyCb) :
    ∀ list b s w,
      (∀ e ∈ w.events, isLinkOfFname p e = false) →
      (∀ wf ∈ list.dropLast, wf.pathName ≠ p) →
      ∀ e ∈ (walPass linkCb copyCb wdir flush minLog list b s w).2.2.events,
        isLinkOfFname p e = false := by
  intro list
  induction list with
  | nil =>
    intro b s w hstart _ e he
    exact hstart e he
  | cons wf rest ih =>
    intro b s w hstart hlist
    have hrest : ∀ wf2 ∈ rest.dropLast, wf2.pathName ≠ p := by
      intro wf2 h2
      apply hlist
      cases rest with
      | nil => cases h2
      | cons y ys =>
        simp only [List.dropLast] at h2 ⊢
        exact List.mem_cons_of_mem _ h2
    simp only [walPass]
    split
    · exact hstart
    · split
      · split
        · -- final element: only a copy invocation
          exact noLinkP_callCopy hPrimC p _ _ _ _ _ _ _ hstart
        · -- non-final element: wf is in dropLast, so wf.pathName ≠ p
          rename_i hne2
          have hwf : wf.pathName ≠ p := by
            apply hlist
            cases rest with
            | nil => exact absurd rfl hne2
            | cons y ys => exact List.mem_cons_self _ _
          repeat' split
          all_goals refine ih _ _ _ ?_ hrest
          all_goals first
            | exact hstart
            | exact noLinkP_callLink hPrimL p _ _ _ _ hwf hstart
            | exact noLinkP_callCopy hPrimC p _ _ _ _ _ _ _ hstart
            | exact noLinkP_callCopy hPrimC p _ _ _ _ _ _ _
                (noLinkP_callLink hPrimL p _ _ _ _ hwf hstart)
      · exact ih _ _ _ hstart hrest

/-- C5 (amended): in the WAL pass the exact-size copy applies to the final
descriptor of the whole sorted WAL list: when the last element of the list
is alive and passes the retention filter, a pass that returns OK performed
a copy of that descriptor with a size limit equal to its recorded byte
size, and no link invocation of that descriptor's path ever occurs,
regardless of the same-filesystem flag.  (A filtered-set-final descriptor
that is not list-final instead follows the link-then-copy discipline; see
the counterexample.) -/
theorem walPass_last_entry_copy (linkCb : LinkCb) (copyCb : CopyCb) (wdir : String)
    (flush : Bool) (minLog : Nat) (ws : List WalFileDesc) (last : WalFileDesc)
    (b : Bool) (s : Status) (w : World)
    (hPrimL : PrimOnlyLink linkCb) (hPrimC : PrimOnlyCopy copyCb)
    (hal : last.walType = WalFileType.alive)
    (hfil : flush = false ∨ last.logNumber ≥ minLog)
    (hw : w.events = [])
    (hdist : ∀ wf ∈ ws, wf.pathName ≠ last.pathName) :
    ((walPass linkCb copyCb wdir flush minLog (ws ++ [last]) b s w).1.isOk = true →
      Ev.copyReq wdir last.pathName last.sizeFileBytes FileType.wal
        kUnknownFileChecksumFuncName kUnknownFileChecksum Status.ok ∈
        (walPass linkCb copyCb wdir flush minLog (ws ++ [last]) b s w).2.2.events) ∧
    (∀ e ∈ (walPass linkCb copyCb wdir flush minLog (ws ++ [last]) b s w).2.2.events,
      isLinkOfFname last.pathName e = false) := by
  constructor
  · exact walPass_copies_last linkCb copyCb wdir flush minLog last hal hfil ws b s w
  · apply walPass_links_subset linkCb copyCb wdir flush minLog last.pathName hPrimL hPrimC
    · intro e he
      rw [hw] at he
      cases he
    · intro wf hwf
      apply hdist
      rwa [List.dropLast_concat] at hwf

/-- C5 counterexample: with a WAL list whose final element is archived,
the final descriptor of the filtered set ("/000005.log", the only alive
retained log) is hard-linked, never copied, and the checkpoint succeeds —
refuting the claim that the final filtered descriptor is always copied
with its exact size and never linked. -/
theorem walPass_last_filtered_counterexample :
    ((dbArchivedLast.walFilesMain.filter
        (fun wf => wf.walType = WalFileType.alive)).map WalFileDesc.pathName =
      ["/000005.log"]) ∧
    (createCheckpoint dbArchivedLast "/snap" kMaxUInt64 "" "" wBenign).1 = Status.ok ∧
    ((createCheckpoint dbArchivedLast "/snap" kMaxUInt64 "" "" wBenign).2.2.events.any
      (fun e => e = Ev.linkReq "/db" "/000005.log" FileType.wal Status.ok)) = true ∧
    ((createCheckpoint dbArchivedLast "/snap" kMaxUInt64 "" "" wBenign).2.2.events.all
      (fun e => ¬ isCopyOfFname "/000005.log" e)) = true := by decide

/-- Witness for C5 at a concrete input: the list-final alive descriptor is
copied with its exact byte size. -/
theorem walPass_last_entry_copy_witness :
    Ev.copyReq "/db" "/000006.log" 50 FileType.wal kUnknownFileChecksumFuncName
      kUnknownFileChecksum Status.ok ∈
      (walPass (ckptLinkCb dbStd "/snap.tmp" "/snap.tmp")
        (ckptCopyCb dbStd "/snap.tmp" "/snap.tmp" "" "/snap") "/db" false 0
        ([⟨5, "/000005.log", 100, WalFileType.alive⟩] ++
          [⟨6, "/000006.log", 50, WalFileType.alive⟩])
        true Status.ok wBenign).2.2.events :=
  (walPass_last_entry_copy _ _ "/db" false 0 _ _ true Status.ok wBenign
    (ckptLinkCb_primOnly _ _ _) (ckptCopyCb_primOnly _ _ _ _ _) rfl (Or.inl rfl)
    rfl (by decide)).1 (by decide)

theorem noFaults_of_evolvesP {Q P w w'} (h : EvolvesP Q P w w') (hn : NoFaults w) :
    NoFaults w' := fun op => by
  rw [h.1]
  exact hn op

/-- A fault-free run of the export inner loop with hardlink_file still
true links every file and keeps linking enabled. -/
theorem exportInner_benign (db : DBModel) (tmp : String)
    (parse : String → Option (Nat × FileType)) :
    ∀ (files : List SstFileMetaData) (n : Nat) (w : World),
      (∀ fm ∈ files, ∃ nt, parse fm.name = some nt) →
      NoFaults w →
      (exportInner db.name parse (exportLinkCb db tmp) (exportCopyCb db tmp)
        files true Status.ok n w).1 = Status.ok ∧
      (exportInner db.name parse (exportLinkCb db tmp) (exportCopyCb db tmp)
        files true Status.ok n w).2.1 = true ∧
      EvolvesP (fun _ => True) (fun _ => true) w
        (exportInner db.name parse (exportLinkCb db tmp) (exportCopyCb db tmp)
          files true Status.ok n w).2.2.2 := by
  intro files
  induction files with
  | nil =>
    intro n w _ _
    exact ⟨rfl, rfl, evolvesP_refl _ _ _⟩
  | cons fm rest ih =>
    intro n w hparse hnf
    obtain ⟨nt, hp⟩ := hparse fm (List.mem_cons_self _ _)
    have hev : EvolvesP (fun _ => True) (fun _ => true) w
        (callLink2 (exportLinkCb db tmp) db.name fm.name w).2 :=
      callLink2_evolvesP (exportLinkCb_evolvesP (Q := fun _ => True)
        (P := fun _ => true) db tmp (fun _ => trivial) (fun _ _ _ => rfl) _ _ _)
        (fun _ => rfl)
    have hlink : (callLink2 (exportLinkCb db tmp) db.name fm.name w).1 = Status.ok := by
      simp [callLink2, exportLinkCb, opLinkFile, faultOr, hnf _]
    simp only [exportInner, hp, if_true]
    simp only [hlink, Status.isNotSupported, Bool.false_eq_true, and_false, if_false]
    simp only [Status.isOk, not_true, Bool.false_eq_true, if_false, not_false_iff, if_true]
    obtain ⟨h1, h2, h3⟩ := ih (n + 1) (callLink2 (exportLinkCb db tmp) db.name fm.name w).2
      (fun fm2 h => hparse fm2 (List.mem_cons_of_mem _ h))
      (noFaults_of_evolvesP hev hnf)
    exact ⟨h1, h2, evolvesP_trans hev h3⟩

/-- With hardlink_file already false and fault-free copies, the export
inner loop copies every file and succeeds. -/
theorem exportInner_copyAll (db : DBModel) (tmp : String)
    (parse : String → Option (Nat × FileType)) :
    ∀ (files : List SstFileMetaData) (n : Nat) (w : World),
      (∀ fm ∈ files, ∃ nt, parse fm.name = some nt) →
      (∀ src dst l, w.faults (Op.copyFile src dst l) = none) →
      (exportInner db.name parse (exportLinkCb db tmp) (exportCopyCb db tmp)
        files false Status.ok n w).1 = Status.ok ∧
      (exportInner db.name parse (exportLinkCb db tmp) (exportCopyCb db tmp)
        files false Status.ok n w).2.1 = false ∧
      EvolvesP (fun _ => True) (fun _ => true) w
        (exportInner db.name parse (exportLinkCb db tmp) (exportCopyCb db tmp)
          files false Status.ok n w).2.2.2 ∧
      (∀ fm ∈ files, Ev.copyReq2 db.name fm.name Status.ok ∈
        (exportInner db.name parse (exportLinkCb db tmp) (exportCopyCb db tmp)
          files false Status.ok n w).2.2.2.events) := by
  intro files
  induction files with
  | nil =>
    intro n w _ _
    exact ⟨rfl, rfl, evolvesP_refl _ _ _, fun fm h => absurd h (List.not_mem_nil _)⟩
  | cons fm rest ih =>
    intro n w hparse hcopy
    obtain ⟨nt, hp⟩ := hparse fm (List.mem_cons_self _ _)
    have hev : EvolvesP (fun _ => True) (fun _ => true) w
        (callCopy2 (exportCopyCb db tmp) db.name fm.name w).2 :=
      callCopy2_evolvesP (exportCopyCb_evolvesP (Q := fun _ => True)
        (P := fun _ => true) db tmp (fun _ => trivial) (fun _ _ _ _ => rfl) _ _ _)
        (fun _ => rfl)
    have hcp : (callCopy2 (exportCopyCb db tmp) db.name fm.name w).1 = Status.ok := by
      simp [callCopy2, exportCopyCb, opCopyFile, faultOr, hcopy]
    have hmem : Ev.copyReq2 db.name fm.name Status.ok ∈
        (callCopy2 (exportCopyCb db tmp) db.name fm.name w).2.events := by
      have hcp2 : (exportCopyCb db tmp db.name fm.name w).1 = Status.ok := by
        simpa [callCopy2] using hcp
      simp [callCopy2, World.logEv, hcp2]
    simp only [exportInner, hp]
    simp only [Bool.false_eq_true, if_false, not_false_iff, if_true, hcp,
      Status.isOk, not_true]
    obtain ⟨h1, h2, h3, h4⟩ := ih (n + 1) (callCopy2 (exportCopyCb db tmp) db.name fm.name w).2
      (fun fm2 h => hparse fm2 (List.mem_cons_of_mem _ h))
      (fun src dst l => by rw [hev.1]; exact hcopy src dst l)
    refine ⟨h1, h2, evolvesP_trans hev h3, ?_⟩
    intro fm2 h
    rcases List.mem_cons.mp h with h | h
    · subst h
      exact evolvesP_mem_events h3 hmem
    · exact h4 fm2 h

/-- When every link attempt reports NotSupported and copies are
fault-free, the export inner loop starting at the very first file falls
back to copy for that file and all subsequent files and succeeds. -/
theorem exportInner_firstNS (db : DBModel) (tmp : String)
    (parse : String → Option (Nat × FileType)) :
    ∀ (files : List SstFileMetaData) (w : World),
      (∀ fm ∈ files, ∃ nt, parse fm.name = some nt) →
      (∀ src dst, w.faults (Op.linkFile src dst) = some (Status.notSupported "")) →
      (∀ src dst l, w.faults (Op.copyFile src dst l) = none) →
      (exportInner db.name parse (exportLinkCb db tmp) (exportCopyCb db tmp)
        files true Status.ok 0 w).1 = Status.ok ∧
      ((exportInner db.name parse (exportLinkCb db tmp) (exportCopyCb db tmp)
        files true Status.ok 0 w).2.1 = (files = [])) ∧
      EvolvesP (fun _ => True) (fun _ => true) w
        (exportInner db.name parse (exportLinkCb db tmp) (exportCopyCb db tmp)
          files true Status.ok 0 w).2.2.2 ∧
      (∀ fm ∈ files, Ev.copyReq2 db.name fm.name Status.ok ∈
        (exportInner db.name parse (exportLinkCb db tmp) (exportCopyCb db tmp)
          files true Status.ok 0 w).2.2.2.events) := by
  intro files w hparse hlinkNS hcopy
  cases files with
  | nil =>
    exact ⟨rfl, by simp [exportInner], evolvesP_refl _ _ _,
      fun fm h => absurd h (List.not_mem_nil _)⟩
  | cons fm rest =>
    obtain ⟨nt, hp⟩ := hparse fm (List.mem_cons_self _ _)
    have hev : EvolvesP (fun _ => True) (fun _ => true) w
        (callLink2 (exportLinkCb db tmp) db.name fm.name w).2 :=
      callLink2_evolvesP (exportLinkCb_evolvesP (Q := fun _ => True)
        (P := fun _ => true) db tmp (fun _ => trivial) (fun _ _ _ => rfl) _ _ _)
        (fun _ => rfl)
    have hlink : (callLink2 (exportLinkCb db tmp) db.name fm.name w).1 =
        Status.notSupported "" := by
      simp [callLink2, exportLinkCb, opLinkFile, faultOr, hlinkNS]
    have hev2 : EvolvesP (fun _ => True) (fun _ => true)
        (callLink2 (exportLinkCb db tmp) db.name fm.name w).2
        (callCopy2 (exportCopyCb db tmp) db.name fm.name
          (callLink2 (exportLinkCb db tmp) db.name fm.name w).2).2 :=
      callCopy2_evolvesP (exportCopyCb_evolvesP (Q := fun _ => True)
        (P := fun _ => true) db tmp (fun _ => trivial) (fun _ _ _ _ => rfl) _ _ _)
        (fun _ => rfl)
    have hcp : (callCopy2 (exportCopyCb db tmp) db.name fm.name
        (callLink2 (exportLinkCb db tmp) db.name fm.name w).2).1 = Status.ok := by
      have := hev.1
      simp [callCopy2, exportCopyCb, opCopyFile, faultOr, this, hcopy]
    have hmem : Ev.copyReq2 db.name fm.name Status.ok ∈
        (callCopy2 (exportCopyCb db tmp) db.name fm.name
          (callLink2 (exportLinkCb db tmp) db.name fm.name w).2).2.events := by
      have hcp2 : (exportCopyCb db tmp db.name fm.name
          (callLink2 (exportLinkCb db tmp) db.name fm.name w).2).1 = Status.ok := by
        simpa [callCopy2] using hcp
      simp [callCopy2, World.logEv, hcp2]
    simp only [exportInner, hp, if_true]
    simp only [hlink, Status.isNotSupported]
    simp only [and_self, if_true]
    simp only [Bool.false_eq_true, if_false, not_false_iff, if_true, hcp,
      Status.isOk, not_true]
    obtain ⟨h1, h2, h3, h4⟩ := exportInner_copyAll db tmp parse rest 1
      (callCopy2 (exportCopyCb db tmp) db.name fm.name
        (callLink2 (exportLinkCb db tmp) db.name fm.name w).2).2
      (fun fm2 h => hparse fm2 (List.mem_cons_of_mem _ h))
      (fun src dst l => by rw [hev2.1, hev.1]; exact hcopy src dst l)
    refine ⟨h1, by simp [h2], evolvesP_trans hev (evolvesP_trans hev2 h3), ?_⟩
    intro fm2 h
    rcases List.mem_cons.mp h with h | h
    · subst h
      exact evolvesP_mem_events h3 hmem
    · exact h4 fm2 h

theorem allExportFiles_cons (lvl : LevelMetaData) (rest : List LevelMetaData) :
    allExportFiles (lvl :: rest) = lvl.files ++ allExportFiles rest := by
  simp [allExportFiles]

/-- A fault-free run of ExportFilesInMetaData links every file and
succeeds. -/
theorem exportFilesInMetaData_benign (db : DBModel) (tmp : String)
    (meta : ColumnFamilyMetaData) (w : World)
    (hparse : ∀ fm ∈ allExportFiles meta.levels, ∃ nt, w.parseFileName fm.name = some nt)
    (hnf : NoFaults w) :
    (exportFilesInMetaData db (exportLinkCb db tmp) (exportCopyCb db tmp) meta w).1 =
      Status.ok ∧
    EvolvesP (fun _ => True) (fun _ => true) w
      (exportFilesInMetaData db (exportLinkCb db tmp) (exportCopyCb db tmp) meta w).2 := by
  have key : ∀ (lvls : List LevelMetaData) (acc : Status × Bool × Nat × World),
      acc.1 = Status.ok → acc.2.1 = true → NoFaults acc.2.2.2 →
      (∀ fm ∈ allExportFiles lvls, ∃ nt, acc.2.2.2.parseFileName fm.name = some nt) →
      (lvls.foldl (fun (acc : Status × Bool × Nat × World) lvl =>
        exportInner db.name acc.2.2.2.parseFileName (exportLinkCb db tmp)
          (exportCopyCb db tmp) lvl.files acc.2.1 acc.1 acc.2.2.1 acc.2.2.2) acc).1 =
        Status.ok ∧
      (lvls.foldl (fun (acc : Status × Bool × Nat × World) lvl =>
        exportInner db.name acc.2.2.2.parseFileName (exportLinkCb db tmp)
          (exportCopyCb db tmp) lvl.files acc.2.1 acc.1 acc.2.2.1 acc.2.2.2) acc).2.1 =
        true ∧
      EvolvesP (fun _ => True) (fun _ => true) acc.2.2.2
        (lvls.foldl (fun (acc : Status × Bool × Nat × World) lvl =>
          exportInner db.name acc.2.2.2.parseFileName (exportLinkCb db tmp)
            (exportCopyCb db tmp) lvl.files acc.2.1 acc.1 acc.2.2.1 acc.2.2.2)
          acc).2.2.2 := by
    intro lvls
    induction lvls with
    | nil =>
      intro acc h1 h2 _ _
      exact ⟨h1, h2, evolvesP_refl _ _ _⟩
    | cons lvl rest ih =>
      intro acc h1 h2 hnf2 hparse2
      rw [List.foldl_cons, h1, h2]
      obtain ⟨g1, g2, g3⟩ := exportInner_benign db tmp acc.2.2.2.parseFileName
        lvl.files acc.2.2.1 acc.2.2.2
        (fun fm h => hparse2 fm (by rw [allExportFiles_cons]; exact List.mem_append_left _ h))
        hnf2
      obtain ⟨k1, k2, k3⟩ := ih _ g1 g2 (noFaults_of_evolvesP g3 hnf2)
        (fun fm h => by
          rw [g3.2.1]
          exact hparse2 fm (by rw [allExportFiles_cons]; exact List.mem_append_right _ h))
      exact ⟨k1, k2, evolvesP_trans g3 k3⟩
  obtain ⟨k1, k2, k3⟩ := key meta.levels (Status.ok, true, 0, w) rfl rfl hnf hparse
  exact ⟨k1, k3⟩

/-- With every link attempt reporting NotSupported and fault-free copies,
ExportFilesInMetaData falls back to copy for every file and succeeds, one
copy invocation per listed file. -/
theorem exportFilesInMetaData_NS (db : DBModel) (tmp : String)
    (meta : ColumnFamilyMetaData) (w : World)
    (hparse : ∀ fm ∈ allExportFiles meta.levels, ∃ nt, w.parseFileName fm.name = some nt)
    (hlinkNS : ∀ src dst, w.faults (Op.linkFile src dst) = some (Status.notSupported ""))
    (hcopy : ∀ src dst l, w.faults (Op.copyFile src dst l) = none) :
    (exportFilesInMetaData db (exportLinkCb db tmp) (exportCopyCb db tmp) meta w).1 =
      Status.ok ∧
    EvolvesP (fun _ => True) (fun _ => true) w
      (exportFilesInMetaData db (exportLinkCb db tmp) (exportCopyCb db tmp) meta w).2 ∧
    (∀ fm ∈ allExportFiles meta.levels, Ev.copyReq2 db.name fm.name Status.ok ∈
      (exportFilesInMetaData db (exportLinkCb db tmp) (exportCopyCb db tmp) meta w).2.events) := by
  have key : ∀ (lvls : List LevelMetaData) (acc : Status × Bool × Nat × World),
      acc.1 = Status.ok →
      ((acc.2.1 = true ∧ acc.2.2.1 = 0) ∨ acc.2.1 = false) →
      (∀ src dst, acc.2.2.2.faults (Op.linkFile src dst) = some (Status.notSupported "")) →
      (∀ src dst l, acc.2.2.2.faults (Op.copyFile src dst l) = none) →
      (∀ fm ∈ allExportFiles lvls, ∃ nt, acc.2.2.2.parseFileName fm.name = some nt) →
      (lvls.foldl (fun (acc : Status × Bool × Nat × World) lvl =>
        exportInner db.name acc.2.2.2.parseFileName (exportLinkCb db tmp)
          (exportCopyCb db tmp) lvl.files acc.2.1 acc.1 acc.2.2.1 acc.2.2.2) acc).1 =
        Status.ok ∧
      EvolvesP (fun _ => True) (fun _ => true) acc.2.2.2
        (lvls.foldl (fun (acc : Status × Bool × Nat × World) lvl =>
          exportInner db.name acc.2.2.2.parseFileName (exportLinkCb db tmp)
            (exportCopyCb db tmp) lvl.files acc.2.1 acc.1 acc.2.2.1 acc.2.2.2)
          acc).2.2.2 ∧
      (∀ fm ∈ allExportFiles lvls, Ev.copyReq2 db.name fm.name Status.ok ∈
        (lvls.foldl (fun (acc : Status × Bool × Nat × World) lvl =>
          exportInner db.name acc.2.2.2.parseFileName (exportLinkCb db tmp)
            (exportCopyCb db tmp) lvl.files acc.2.1 acc.1 acc.2.2.1 acc.2.2.2)
          acc).2.2.2.events) := by
    intro lvls
    induction lvls with
    | nil =>
      intro acc h1 _ _ _ _
      exact ⟨h1, evolvesP_refl _ _ _, fun fm h => absurd h (List.not_mem_nil _)⟩
    | cons lvl rest ih =>
      intro acc h1 hinv hNS2 hcopy2 hparse2
      rw [List.foldl_cons, h1]
      have hparseHead : ∀ fm ∈ lvl.files, ∃ nt, acc.2.2.2.parseFileName fm.name = some nt :=
        fun fm h => hparse2 fm (by rw [allExportFiles_cons]; exact List.mem_append_left _ h)
      have hstep : (exportInner db.name acc.2.2.2.parseFileName (exportLinkCb db tmp)
            (exportCopyCb db tmp) lvl.files acc.2.1 Status.ok acc.2.2.1 acc.2.2.2).1 =
            Status.ok ∧
          ((exportInner db.name acc.2.2.2.parseFileName (exportLinkCb db tmp)
            (exportCopyCb db tmp) lvl.files acc.2.1 Status.ok acc.2.2.1 acc.2.2.2).2.1 = true ∧
           (exportInner db.name acc.2.2.2.parseFileName (exportLinkCb db tmp)
            (exportCopyCb db tmp) lvl.files acc.2.1 Status.ok acc.2.2.1 acc.2.2.2).2.2.1 = 0 ∨
           (exportInner db.name acc.2.2.2.parseFileName (exportLinkCb db tmp)
            (exportCopyCb db tmp) lvl.files acc.2.1 Status.ok acc.2.2.1 acc.2.2.2).2.1 = false) ∧
          EvolvesP (fun _ => True) (fun _ => true) acc.2.2.2
            (exportInner db.name acc.2.2.2.parseFileName (exportLinkCb db tmp)
              (exportCopyCb db tmp) lvl.files acc.2.1 Status.ok acc.2.2.1 acc.2.2.2).2.2.2 ∧
          (∀ fm ∈ lvl.files, Ev.copyReq2 db.name fm.name Status.ok ∈
            (exportInner db.name acc.2.2.2.parseFileName (exportLinkCb db tmp)
              (exportCopyCb db tmp) lvl.files acc.2.1 Status.ok acc.2.2.1
              acc.2.2.2).2.2.2.events) := by
        rcases hinv with ⟨ht, hn⟩ | hf
        · rw [ht, hn]
          cases hfiles : lvl.files with
          | nil =>
            simp only [exportInner]
            refine ⟨by trivial, Or.inl ⟨by trivial, by trivial⟩, evolvesP_refl _ _ _, ?_⟩
            intro fm h
            exact absurd h (List.not_mem_nil _)
          | cons f fs =>
            obtain ⟨g1, g2, g3, g4⟩ := exportInner_firstNS db tmp
              acc.2.2.2.parseFileName (f :: fs) acc.2.2.2
              (by rw [← hfiles]; exact hparseHead) hNS2 hcopy2
            refine ⟨g1, Or.inr ?_, g3, g4⟩
            have hne : ¬ ((exportInner db.name acc.2.2.2.parseFileName (exportLinkCb db tmp)
                (exportCopyCb db tmp) (f :: fs) true Status.ok 0 acc.2.2.2).2.1 = true) := by
              rw [g2]
              simp
            simpa using hne
        · rw [hf]
          obtain ⟨g1, g2, g3, g4⟩ := exportInner_copyAll db tmp
            acc.2.2.2.parseFileName lvl.files acc.2.2.1 acc.2.2.2 hparseHead hcopy2
          exact ⟨g1, Or.inr g2, g3, g4⟩
      obtain ⟨g1, ginv, g3, g4⟩ := hstep
      obtain ⟨k1, k3, k4⟩ := ih _ g1 (by
          rcases ginv with ⟨a, b⟩ | c
          · exact Or.inl ⟨a, b⟩
          · exact Or.inr c)
        (fun src dst => by rw [g3.1]; exact hNS2 src dst)
        (fun src dst l => by rw [g3.1]; exact hcopy2 src dst l)
        (fun fm h => by
          rw [g3.2.1]
          exact hparse2 fm (by rw [allExportFiles_cons]; exact List.mem_append_right _ h))
      refine ⟨k1, evolvesP_trans g3 k3, ?_⟩
      intro fm h
      rw [allExportFiles_cons, List.mem_append] at h
      rcases h with h | h
      · exact evolvesP_mem_events k3 (g4 fm h)
      · exact k4 fm h
  obtain ⟨k1, k3, k4⟩ := key meta.levels (Status.ok, true, 0, w) rfl (Or.inl ⟨rfl, rfl⟩)
    hlinkNS hcopy hparse
  exact ⟨k1, k3, k4⟩

theorem opRenameFile_faults (a b : String) (w : World) :
    (opRenameFile a b w).2.faults = w.faults := by
  simp only [opRenameFile, World.logEv]
  split <;> rfl

theorem opNewDirectory_faults (p : String) (w : World) :
    (opNewDirectory p w).2.faults = w.faults := rfl

theorem opRenameFile_events (a b : String) (w : World) :
    (opRenameFile a b w).2.events = w.events ++
      [Ev.prim (Op.renameFile a b) (faultOr w (Op.renameFile a b) Status.ok)] := by
  simp only [opRenameFile, World.logEv]
  split <;> rfl

theorem opNewDirectory_events (p : String) (w : World) :
    (opNewDirectory p w).2.events = w.events ++
      [Ev.prim (Op.newDirectory p) (faultOr w (Op.newDirectory p) Status.ok)] := rfl

theorem opFsyncDir_events (p : String) (w : World) :
    (opFsyncDir p w).2.events = w.events ++
      [Ev.prim (Op.fsyncDir p) (faultOr w (Op.fsyncDir p) Status.ok)] := rfl

theorem opEnableFileDeletions_events (w : World) :
    (opEnableFileDeletions w).2.events = w.events ++
      [Ev.prim Op.enableFileDeletions (faultOr w Op.enableFileDeletions Status.ok)] := rfl

theorem buildExportMetadata_fold (cn dir : String) :
    ∀ (lvls : List LevelMetaData) (b : Bool) (fs0 : List LiveFileMetaData),
      lvls.foldl
        (fun (acc : Bool × ExportImportFilesMetaData) lvl =>
          (true,
            { acc.2 with
              files := acc.2.files ++ lvl.files.map (fun fm =>
                { size := fm.size
                  name := fm.name
                  fileNumber := fm.fileNumber
                  dbPath := dir
                  smallestSeqno := fm.smallestSeqno
                  largestSeqno := fm.largestSeqno
                  smallestkey := fm.smallestkey
                  largestkey := fm.largestkey
                  oldestBlobFileNumber := fm.oldestBlobFileNumber
                  level := lvl.level }) }))
        (b, { dbComparatorName := cn, files := fs0 }) =
      (b || !lvls.isEmpty,
        { dbComparatorName := cn, files := fs0 ++ specExportRecords dir lvls }) := by
  intro lvls
  induction lvls with
  | nil => intro b fs0; simp [specExportRecords]
  | cons lvl rest ih =>
    intro b fs0
    rw [List.foldl_cons, ih]
    simp [specExportRecords, specExportRecord]

theorem buildExportMetadata_eq (cn dir : String) (meta : ColumnFamilyMetaData) :
    buildExportMetadata cn dir meta =
      (!meta.levels.isEmpty,
        { dbComparatorName := cn, files := specExportRecords dir meta.levels }) := by
  unfold buildExportMetadata
  rw [buildExportMetadata_fold cn dir meta.levels false []]
  simp

theorem exportColumnFamily_run (db : DBModel) (exportDir : String) (w : World)
    (hfs : exportDir ∉ w.fs)
    (hstrip : ¬ stripTrailingSlashes exportDir = "")
    (hfe : w.faults (Op.fileExists exportDir) = none)
    (hcd : w.faults (Op.createDir (stripTrailingSlashes exportDir ++ ".tmp")) = none)
    (hflc : w.faults (Op.flushCF db.cfName) = none)
    (hdis : w.faults Op.disableFileDeletions = none)
    (hen : w.faults Op.enableFileDeletions = none)
    (hrn : w.faults (Op.renameFile (stripTrailingSlashes exportDir ++ ".tmp") exportDir) = none)
    (hnd : w.faults (Op.newDirectory exportDir) = none)
    (hfsy : w.faults (Op.fsyncDir exportDir) = none)
    (hexp : ∀ w2, w2.faults = w.faults → w2.parseFileName = w.parseFileName →
      (exportFilesInMetaData db (exportLinkCb db (stripTrailingSlashes exportDir ++ ".tmp"))
          (exportCopyCb db (stripTrailingSlashes exportDir ++ ".tmp")) db.cfMeta w2).1 =
        Status.ok ∧
      EvolvesP (fun _ => True) (fun _ => true) w2
        (exportFilesInMetaData db (exportLinkCb db (stripTrailingSlashes exportDir ++ ".tmp"))
          (exportCopyCb db (stripTrailingSlashes exportDir ++ ".tmp")) db.cfMeta w2).2) :
    ∃ w1, w1.faults = w.faults ∧ w1.parseFileName = w.parseFileName ∧
      (exportColumnFamily db exportDir w).1 = Status.ok ∧
      (exportColumnFamily db exportDir w).2.1 =
        (if db.cfMeta.levels.isEmpty then none else
          some { dbComparatorName := db.comparatorName,
                 files := specExportRecords exportDir db.cfMeta.levels }) ∧
      List.IsPrefix
        (exportFilesInMetaData db (exportLinkCb db (stripTrailingSlashes exportDir ++ ".tmp"))
          (exportCopyCb db (stripTrailingSlashes exportDir ++ ".tmp")) db.cfMeta
          w1).2.events
        (exportColumnFamily db exportDir w).2.2.events := by
  have hsfe : (opFileExists exportDir w).1 = Status.notFound "" := by
    simp [opFileExists, faultOr, hfe, hfs]
  have E_e : EvolvesP (fun _ => True) (fun _ => true) w (opFileExists exportDir w).2 :=
    opFileExists_evolvesP _ _ (fun _ => rfl)
  have E_c : EvolvesP (fun _ => True) (fun _ => true) w
      (opCreateDir (stripTrailingSlashes exportDir ++ ".tmp")
        (opFileExists exportDir w).2).2 :=
    evolvesP_trans E_e (opCreateDir_evolvesP _ _ trivial (fun _ => rfl))
  have E_f : EvolvesP (fun _ => True) (fun _ => true) w
      (opFlushCF db.cfName (opCreateDir (stripTrailingSlashes exportDir ++ ".tmp")
        (opFileExists exportDir w).2).2).2 :=
    evolvesP_trans E_c (opFlushCF_evolvesP _ _ (fun _ => rfl))
  have E_d : EvolvesP (fun _ => True) (fun _ => true) w
      (opDisableFileDeletions (opFlushCF db.cfName
        (opCreateDir (stripTrailingSlashes exportDir ++ ".tmp")
          (opFileExists exportDir w).2).2).2).2 :=
    evolvesP_trans E_f (opDisableFileDeletions_evolvesP _ (fun _ => rfl))
  have hc1 : (opCreateDir (stripTrailingSlashes exportDir ++ ".tmp")
      (opFileExists exportDir w).2).1 = Status.ok := by
    simp [opCreateDir, faultOr, E_e.1, hcd]
  have hf1 : (opFlushCF db.cfName (opCreateDir (stripTrailingSlashes exportDir ++ ".tmp")
      (opFileExists exportDir w).2).2).1 = Status.ok := by
    simp [opFlushCF, faultOr, E_c.1, hflc]
  have hd1 : (opDisableFileDeletions (opFlushCF db.cfName
      (opCreateDir (stripTrailingSlashes exportDir ++ ".tmp")
        (opFileExists exportDir w).2).2).2).1 = Status.ok := by
    simp [opDisableFileDeletions, faultOr, E_f.1, hdis]
  obtain ⟨hs1, hevS⟩ := hexp _ E_d.1 E_d.2.1
  have E_s : EvolvesP (fun _ => True) (fun _ => true) w
      (exportFilesInMetaData db (exportLinkCb db (stripTrailingSlashes exportDir ++ ".tmp"))
        (exportCopyCb db (stripTrailingSlashes exportDir ++ ".tmp")) db.cfMeta
        (opDisableFileDeletions (opFlushCF db.cfName
          (opCreateDir (stripTrailingSlashes exportDir ++ ".tmp")
            (opFileExists exportDir w).2).2).2).2).2 :=
    evolvesP_trans E_d hevS
  have hen1 : (opEnableFileDeletions
      (exportFilesInMetaData db (exportLinkCb db (stripTrailingSlashes exportDir ++ ".tmp"))
        (exportCopyCb db (stripTrailingSlashes exportDir ++ ".tmp")) db.cfMeta
        (opDisableFileDeletions (opFlushCF db.cfName
          (opCreateDir (stripTrailingSlashes exportDir ++ ".tmp")
            (opFileExists exportDir w).2).2).2).2).2).1 = Status.ok := by
    simp [opEnableFileDeletions, faultOr, E_s.1, hen]
  have E_en : EvolvesP (fun _ => True) (fun _ => true) w
      (opEnableFileDeletions
        (exportFilesInMetaData db (exportLinkCb db (stripTrailingSlashes exportDir ++ ".tmp"))
          (exportCopyCb db (stripTrailingSlashes exportDir ++ ".tmp")) db.cfMeta
          (opDisableFileDeletions (opFlushCF db.cfName
            (opCreateDir (stripTrailingSlashes exportDir ++ ".tmp")
              (opFileExists exportDir w).2).2).2).2).2).2 :=
    evolvesP_trans E_s (opEnableFileDeletions_evolvesP _ (fun _ => rfl))
  have hr1 : (opRenameFile (stripTrailingSlashes exportDir ++ ".tmp") exportDir
      (opEnableFileDeletions
        (exportFilesInMetaData db (exportLinkCb db (stripTrailingSlashes exportDir ++ ".tmp"))
          (exportCopyCb db (stripTrailingSlashes exportDir ++ ".tmp")) db.cfMeta
          (opDisableFileDeletions (opFlushCF db.cfName
            (opCreateDir (stripTrailingSlashes exportDir ++ ".tmp")
              (opFileExists exportDir w).2).2).2).2).2).2).1 = Status.ok := by
    simp [opRenameFile, faultOr, E_en.1, hrn]
  have hn1 : (opNewDirectory exportDir
      (opRenameFile (stripTrailingSlashes exportDir ++ ".tmp") exportDir
        (opEnableFileDeletions
          (exportFilesInMetaData db (exportLinkCb db (stripTrailingSlashes exportDir ++ ".tmp"))
            (exportCopyCb db (stripTrailingSlashes exportDir ++ ".tmp")) db.cfMeta
            (opDisableFileDeletions (opFlushCF db.cfName
              (opCreateDir (stripTrailingSlashes exportDir ++ ".tmp")
                (opFileExists exportDir w).2).2).2).2).2).2).2).1 = Status.ok := by
    simp [opNewDirectory, faultOr, opRenameFile_faults, E_en.1, hnd]
  have hfy1 : (opFsyncDir exportDir (opNewDirectory exportDir
      (opRenameFile (stripTrailingSlashes exportDir ++ ".tmp") exportDir
        (opEnableFileDeletions
          (exportFilesInMetaData db (exportLinkCb db (stripTrailingSlashes exportDir ++ ".tmp"))
            (exportCopyCb db (stripTrailingSlashes exportDir ++ ".tmp")) db.cfMeta
            (opDisableFileDeletions (opFlushCF db.cfName
              (opCreateDir (stripTrailingSlashes exportDir ++ ".tmp")
                (opFileExists exportDir w).2).2).2).2).2).2).2).2).1 = Status.ok := by
    simp [opFsyncDir, faultOr, opNewDirectory_faults, opRenameFile_faults, E_en.1, hfsy]
  refine ⟨_, E_d.1, E_d.2.1, ?_⟩
  simp only [exportColumnFamily, hsfe, hc1, hf1, hd1, hs1, hen1, hr1, hn1, hfy1,
    Status.isOk, Status.isNotFound, Bool.not_true, Bool.not_false, hstrip,
    buildExportMetadata_eq, Bool.false_eq_true, Bool.true_eq_false, if_false, if_true,
    ite_false, ite_true, not_false_iff, not_true, eq_self_iff_true]
  refine ⟨trivial, ?_, ?_⟩
  · cases hlv : db.cfMeta.levels.isEmpty <;> simp [hlv]
  · rw [opFsyncDir_events, opNewDirectory_events, opRenameFile_events,
      opEnableFileDeletions_events, List.append_assoc, List.append_assoc,
      List.append_assoc]
    exact List.prefix_append _ _

/-- C7: CreateCheckpoint and ExportColumnFamily reject their target
directory argument before any mutation: if the target path already exists
the call returns InvalidArgument, and if the path is empty or consists
only of slashes the call returns InvalidArgument; in both cases the
filesystem is unchanged (no directory created, no file transferred) and no
metadata is produced. -/
theorem targetDir_precondition_checks (db : DBModel) (w : World) (dir : String)
    (lsz : Nat) (ldir wdir : String)
    (hfe : w.faults (Op.fileExists dir) = none) :
    (dir ∈ w.fs →
      (createCheckpoint db dir lsz ldir wdir w).1 = Status.invalidArgument "Directory exists" ∧
      (createCheckpoint db dir lsz ldir wdir w).2.1 = none ∧
      (createCheckpoint db dir lsz ldir wdir w).2.2.fs = w.fs ∧
      (exportColumnFamily db dir w).1 = Status.invalidArgument "Specified export_dir exists" ∧
      (exportColumnFamily db dir w).2.1 = none ∧
      (exportColumnFamily db dir w).2.2.fs = w.fs) ∧
    (dir ∉ w.fs → stripTrailingSlashes dir = "" →
      (createCheckpoint db dir lsz ldir wdir w).1 =
        Status.invalidArgument "invalid checkpoint directory name" ∧
      (createCheckpoint db dir lsz ldir wdir w).2.1 = none ∧
      (createCheckpoint db dir lsz ldir wdir w).2.2.fs = w.fs ∧
      (exportColumnFamily db dir w).1 = Status.invalidArgument "Specified export_dir invalid" ∧
      (exportColumnFamily db dir w).2.1 = none ∧
      (exportColumnFamily db dir w).2.2.fs = w.fs) := by
  constructor
  · intro h
    have he : (opFileExists dir w).1 = Status.ok := by
      simp [opFileExists, faultOr, hfe, h]
    simp [createCheckpoint, exportColumnFamily, he, Status.isOk, opFileExists,
      World.logEv, faultOr, hfe, h]
  · intro h hstrip
    have he : (opFileExists dir w).1 = Status.notFound "" := by
      simp [opFileExists, faultOr, hfe, h]
    simp [createCheckpoint, exportColumnFamily, he, hstrip, Status.isOk,
      Status.isNotFound, opFileExists, World.logEv, faultOr, hfe, h]

/-- The checkpoint-bound callbacks evolve any world (trivial predicates). -/
theorem ckptLinkCb_extends (db : DBModel) (full nwd : String) :
    ∀ d f t w, EvolvesP (fun _ => True) (fun _ => true) w
      (ckptLinkCb db full nwd d f t w).2 :=
  ckptLinkCb_evolvesP db full nwd (fun _ => trivial) (fun _ => trivial)
    (fun _ _ _ => rfl)

theorem ckptCopyCb_extends (db : DBModel) (full nwd vl vw : String) :
    ∀ d f l t cn cv w, EvolvesP (fun _ => True) (fun _ => true) w
      (ckptCopyCb db full nwd vl vw d f l t cn cv w).2 :=
  ckptCopyCb_evolvesP db full nwd vl vw (fun _ => trivial) (fun _ => trivial)
    (fun _ _ _ _ => rfl) (fun _ _ => rfl) (fun _ _ => rfl)

theorem ckptCreateCb_extends (full : String) :
    ∀ f c t w, EvolvesP (fun _ => True) (fun _ => true) w
      (ckptCreateCb full f c t w).2 :=
  ckptCreateCb_evolvesP full (fun _ => trivial) (fun _ _ _ => rfl)

/-- Any run of CreateCustomCheckpoint with the checkpoint-bound callbacks
extends the world (trivial predicates). -/
theorem createCustomCheckpoint_extends (db : DBModel) (full nwd vl vw : String)
    (lsz : Nat) (gltc : Bool) :
    ∀ w, EvolvesP (fun _ => True) (fun _ => true) w
      (createCustomCheckpoint db (ckptLinkCb db full nwd)
        (ckptCopyCb db full nwd vl vw) (ckptCreateCb full) lsz gltc w).2.2 :=
  createCustomCheckpoint_evolvesP db _ _ _ lsz gltc
    (ckptLinkCb_extends db full nwd) (ckptCopyCb_extends db full nwd vl vw)
    (ckptCreateCb_extends full)
    (fun _ _ _ _ => rfl) (fun _ _ _ _ _ _ _ => rfl) (fun _ _ _ _ => rfl)
    (fun _ _ => rfl) (fun _ _ _ => rfl) (fun _ => rfl) (fun _ _ _ => rfl)

theorem customTransferTail_extends (db : DBModel) (full nwd vl vw : String)
    (gltc flush : Bool) (minLog : Nat) :
    ∀ liveFiles msize walFiles w, EvolvesP (fun _ => True) (fun _ => true) w
      (customTransferTail db (ckptLinkCb db full nwd)
        (ckptCopyCb db full nwd vl vw) (ckptCreateCb full) gltc flush minLog
        liveFiles msize walFiles w).2 :=
  customTransferTail_evolvesP db _ _ _ gltc flush minLog
    (ckptLinkCb_extends db full nwd) (ckptCopyCb_extends db full nwd vl vw)
    (ckptCreateCb_extends full)
    (fun _ _ _ _ => rfl) (fun _ _ _ _ _ _ _ => rfl) (fun _ _ _ _ => rfl)
    (fun _ _ _ => rfl)

/-- C4: the flush decision of CreateCheckpoint: with two-phase commit
enabled a memtable flush always occurs; otherwise an unset threshold
(port::kMaxUint64) means no flush, and a positive threshold skips the
flush exactly when the summed byte size of the listed WAL files is
strictly below the threshold.  The last conjunct ties the decision to the
live-file enumeration of an actual CreateCustomCheckpoint run with the
checkpoint-bound callbacks: the enumeration is invoked with exactly this
decision as its flush flag. -/
theorem flushMemtableDecision_spec (allow2pc : Bool) (thr : Nat) (wals : List WalFileDesc) :
    (allow2pc = true → flushMemtableDecision allow2pc thr (totalWalSize wals) = true) ∧
    (allow2pc = false → thr = kMaxUInt64 →
      flushMemtableDecision allow2pc thr (totalWalSize wals) = false) ∧
    (allow2pc = false → thr ≠ kMaxUInt64 → 0 < thr →
      (flushMemtableDecision allow2pc thr (totalWalSize wals) = false ↔
        totalWalSize wals < thr)) ∧
    (∀ (db : DBModel) (w : World) (full nwd vl vw : String) (gltc : Bool),
      db.allow2pc = allow2pc → db.walFilesFlushCheck = wals →
      w.faults (Op.getSortedWalFiles 1) = none →
      ∃ st, Ev.prim (Op.getLiveFiles 1
          (flushMemtableDecision allow2pc thr (totalWalSize wals))) st ∈
        (createCustomCheckpoint db (ckptLinkCb db full nwd)
          (ckptCopyCb db full nwd vl vw) (ckptCreateCb full) thr gltc w).2.2.events) := by
  refine ⟨fun h => by simp [flushMemtableDecision, h], fun h1 h2 => by
    simp [flushMemtableDecision, h1, h2], fun h1 h2 h3 => by
    simp only [flushMemtableDecision, h1, Bool.false_eq_true, if_false, h2, h3, if_true]
    constructor
    · intro h4
      by_contra h5
      simp [h5] at h4
    · intro h4
      simp [h4], ?_⟩
  intro db w full nwd vl vw gltc h2pc hwals hfault
  subst h2pc
  subst hwals
  simp only [createCustomCheckpoint]
  have hmem : ∀ w2 : World, (∃ st, Ev.prim (Op.getLiveFiles 1
      (flushMemtableDecision db.allow2pc thr (totalWalSize db.walFilesFlushCheck))) st ∈
        (opGetLiveFiles 1 (flushMemtableDecision db.allow2pc thr
          (totalWalSize db.walFilesFlushCheck)) db.liveFiles1 db.manifestSize1
          w2).2.2.2.events) := by
    intro w2
    exact ⟨faultOr w2 (Op.getLiveFiles 1 (flushMemtableDecision db.allow2pc thr
        (totalWalSize db.walFilesFlushCheck))) Status.ok,
      by simp [opGetLiveFiles, World.logEv]⟩
  have hpost : ∀ w2 : World, (∃ st, Ev.prim (Op.getLiveFiles 1
      (flushMemtableDecision db.allow2pc thr (totalWalSize db.walFilesFlushCheck))) st ∈
        w2.events) →
      ∃ st, Ev.prim (Op.getLiveFiles 1
        (flushMemtableDecision db.allow2pc thr (totalWalSize db.walFilesFlushCheck))) st ∈
        ((match db.minLogNum with
          | none => (Status.invalidArgument "cannot get the min log number to keep.",
              db.latestSeq, w2)
          | some minLogNum =>
            let g2 := opGetLiveFiles 2 (flushMemtableDecision db.allow2pc thr
              (totalWalSize db.walFilesFlushCheck)) db.liveFiles2 db.manifestSize2 w2
            let fw := if g2.1.isOk = true then opFlushWAL g2.2.2.2 else (g2.1, g2.2.2.2)
            let gw := if fw.1.isOk = true then opGetSortedWalFiles 2 db.walFilesMain fw.2
              else (fw.1, [], fw.2)
            if ¬ gw.1.isOk = true then (gw.1, db.latestSeq, gw.2.2)
            else
              let r := customTransferTail db (ckptLinkCb db full nwd)
                (ckptCopyCb db full nwd vl vw) (ckptCreateCb full) gltc
                (flushMemtableDecision db.allow2pc thr (totalWalSize db.walFilesFlushCheck))
                minLogNum g2.2.1 g2.2.2.1 gw.2.1 gw.2.2
              (r.1, db.latestSeq, r.2)
          : Status × Nat × World)).2.2.events := by
    rintro w2 ⟨st, hst⟩
    cases hm : db.minLogNum with
    | none => exact ⟨st, hst⟩
    | some minLogNum =>
      simp only []
      have hg2 : Ev.prim (Op.getLiveFiles 1 (flushMemtableDecision db.allow2pc thr
          (totalWalSize db.walFilesFlushCheck))) st ∈
          (opGetLiveFiles 2 (flushMemtableDecision db.allow2pc thr
            (totalWalSize db.walFilesFlushCheck)) db.liveFiles2 db.manifestSize2
            w2).2.2.2.events :=
        evolvesP_mem_events (opGetLiveFiles_evolvesP (Q := fun _ => True)
          (P := fun _ => true) _ _ _ _ _ (fun _ => rfl)) hst
      have hfwm : ∀ g2v : Status × List String × Nat × World,
          Ev.prim (Op.getLiveFiles 1 (flushMemtableDecision db.allow2pc thr
            (totalWalSize db.walFilesFlushCheck))) st ∈ g2v.2.2.2.events →
          Ev.prim (Op.getLiveFiles 1 (flushMemtableDecision db.allow2pc thr
            (totalWalSize db.walFilesFlushCheck))) st ∈
            ((if g2v.1.isOk = true then opFlushWAL g2v.2.2.2
              else (g2v.1, g2v.2.2.2)) : Status × World).2.events := by
        intro g2v hg
        split
        · exact evolvesP_mem_events (opFlushWAL_evolvesP (Q := fun _ => True)
            (P := fun _ => true) _ (fun _ => rfl)) hg
        · exact hg
      have hgwm : ∀ fwv : Status × World,
          Ev.prim (Op.getLiveFiles 1 (flushMemtableDecision db.allow2pc thr
            (totalWalSize db.walFilesFlushCheck))) st ∈ fwv.2.events →
          Ev.prim (Op.getLiveFiles 1 (flushMemtableDecision db.allow2pc thr
            (totalWalSize db.walFilesFlushCheck))) st ∈
            ((if fwv.1.isOk = true then opGetSortedWalFiles 2 db.walFilesMain fwv.2
              else (fwv.1, [], fwv.2)) : Status × List WalFileDesc × World).2.2.events := by
        intro fwv hg
        split
        · exact evolvesP_mem_events (opGetSortedWalFiles_evolvesP (Q := fun _ => True)
            (P := fun _ => true) _ _ _ (fun _ => rfl)) hg
        · exact hg
      have htailm : ∀ (g2v : Status × List String × Nat × World)
          (gwv : Status × List WalFileDesc × World),
          Ev.prim (Op.getLiveFiles 1 (flushMemtableDecision db.allow2pc thr
            (totalWalSize db.walFilesFlushCheck))) st ∈ gwv.2.2.events →
          Ev.prim (Op.getLiveFiles 1 (flushMemtableDecision db.allow2pc thr
            (totalWalSize db.walFilesFlushCheck))) st ∈
            ((if ¬ gwv.1.isOk = true then (gwv.1, db.latestSeq, gwv.2.2)
              else
                ((customTransferTail db (ckptLinkCb db full nwd)
                  (ckptCopyCb db full nwd vl vw) (ckptCreateCb full) gltc
                  (flushMemtableDecision db.allow2pc thr (totalWalSize db.walFilesFlushCheck))
                  minLogNum g2v.2.1 g2v.2.2.1 gwv.2.1 gwv.2.2).1,
                db.latestSeq,
                (customTransferTail db (ckptLinkCb db full nwd)
                  (ckptCopyCb db full nwd vl vw) (ckptCreateCb full) gltc
                  (flushMemtableDecision db.allow2pc thr (totalWalSize db.walFilesFlushCheck))
                  minLogNum g2v.2.1 g2v.2.2.1 gwv.2.1 gwv.2.2).2)) :
              Status × Nat × World).2.2.events := by
        intro g2v gwv hg
        split
        · exact hg
        · exact evolvesP_mem_events
            (customTransferTail_extends db full nwd vl vw gltc _ _ _ _ _ _) hg
      exact ⟨st, htailm _ _ (hgwm _ (hfwm _ hg2))⟩
  split
  · split
    · rename_i hC hbad
      have : (opGetSortedWalFiles 1 db.walFilesFlushCheck w).1 = Status.ok := by
        simp [opGetSortedWalFiles, faultOr, hfault]
      simp [this, Status.isOk] at hbad
    · exact hpost _ (hmem _)
  · split
    · rename_i hC hbad
      simp [Status.isOk] at hbad
    · exact hpost _ (hmem _)

/-- Witness for C4 at concrete inputs. -/
theorem flushMemtableDecision_spec_witness :
    (flushMemtableDecision false 100 (totalWalSize dbStd.walFilesMain) = false ↔
      totalWalSize dbStd.walFilesMain < 100) ∧
    ∃ st, Ev.prim (Op.getLiveFiles 1
        (flushMemtableDecision false kMaxUInt64 (totalWalSize dbStd.walFilesFlushCheck))) st ∈
      (createCustomCheckpoint dbStd (ckptLinkCb dbStd "/snap.tmp" "/snap.tmp")
        (ckptCopyCb dbStd "/snap.tmp" "/snap.tmp" "" "/snap") (ckptCreateCb "/snap.tmp")
        kMaxUInt64 false wBenign).2.2.events :=
  ⟨((flushMemtableDecision_spec false 100 dbStd.walFilesMain).2.2.1 rfl (by decide)
      (by decide)),
   ((flushMemtableDecision_spec false kMaxUInt64 dbStd.walFilesFlushCheck).2.2.2 dbStd
      wBenign "/snap.tmp" "/snap.tmp" "" "/snap" false rfl rfl rfl)⟩

/-- Witness for C7 at concrete inputs: an existing target and an
all-slashes export directory are both rejected. -/
theorem targetDir_precondition_checks_witness :
    (createCheckpoint dbMini "/x" 0 "" "" wTargetExists).1 =
      Status.invalidArgument "Directory exists" ∧
    (exportColumnFamily dbMini "///" wBenign).1 =
      Status.invalidArgument "Specified export_dir invalid" :=
  ⟨((targetDir_precondition_checks dbMini wTargetExists "/x" 0 "" "" rfl).1 (by decide)).1,
   ((((((targetDir_precondition_checks dbMini wBenign "///" 0 "" "" rfl).2 (by decide)
     (by decide)).2).2).2).1)⟩


theorem transferEvs_append (a b : List Ev) :
    transferEvs (a ++ b) = transferEvs a ++ transferEvs b :=
  List.filter_append _ _

theorem isTransferEv_false_of_prim {e : Ev} (h : isPrimEv e = true) :
    isTransferEv e = false := by
  cases e <;> simp [isPrimEv, isTransferEv] at h ⊢

theorem transferEvs_primOnly {ts : List Ev} (h : ts.all isPrimEv = true) :
    transferEvs ts = [] := by
  unfold transferEvs
  rw [List.filter_eq_nil_iff]
  intro e he
  rw [isTransferEv_false_of_prim (List.all_eq_true.mp h e he)]
  simp

theorem noLinkEvs_append (a b : List Ev) :
    noLinkEvs (a ++ b) = (noLinkEvs a && noLinkEvs b) :=
  List.all_append

theorem hasNSLinkEv_append (a b : List Ev) :
    hasNSLinkEv (a ++ b) = (hasNSLinkEv a || hasNSLinkEv b) :=
  List.any_append

theorem isNSLinkEv_false_of_noLink {e : Ev} (h : isLinkReqEv e = false) :
    isNSLinkEv e = false := by
  cases e <;> simp [isLinkReqEv, isNSLinkEv] at h ⊢

theorem hasNSLinkEv_false_of_noLink {ts : List Ev} (h : noLinkEvs ts = true) :
    hasNSLinkEv ts = false := by
  unfold hasNSLinkEv
  rw [List.any_eq_false]
  intro e he
  have h2 := List.all_eq_true.mp h e he
  have h3 : isLinkReqEv e = false := by simpa using h2
  rw [isNSLinkEv_false_of_noLink h3]
  simp

theorem linkTailOk_of_noLink {ts : List Ev} (h : noLinkEvs ts = true) :
    linkTailOk ts = true := by
  induction ts with
  | nil => rfl
  | cons e rest ih =>
    rw [noLinkEvs, List.all_cons, Bool.and_eq_true] at h
    obtain ⟨h1, h2⟩ := h
    have h1f : isLinkReqEv e = false := by simpa using h1
    rw [linkTailOk, isNSLinkEv_false_of_noLink h1f]
    simpa using ih h2

theorem linkFallbackOk_of_noLink {ts : List Ev} (h : noLinkEvs ts = true) :
    linkFallbackOk ts = true := by
  induction ts with
  | nil => rfl
  | cons e rest ih =>
    rw [noLinkEvs, List.all_cons, Bool.and_eq_true] at h
    obtain ⟨h1, h2⟩ := h
    have h1f : isLinkReqEv e = false := by simpa using h1
    cases e <;> simp [isLinkReqEv] at h1f ⊢ <;> exact ih h2

theorem copyFollows_append {d f : String} {t1 : List Ev} (t2 : List Ev)
    (h : copyFollows d f t1 = true) : copyFollows d f (t1 ++ t2) = true := by
  cases t1 with
  | nil => exact absurd h (by simp [copyFollows])
  | cons e rest =>
    cases e <;> simpa [copyFollows] using h

theorem linkTailOk_append {t1 t2 : List Ev} (h1 : linkTailOk t1 = true)
    (hNS : hasNSLinkEv t1 = true → noLinkEvs t2 = true)
    (hT : hasNSLinkEv t1 = false → linkTailOk t2 = true) :
    linkTailOk (t1 ++ t2) = true := by
  induction t1 with
  | nil => exact hT rfl
  | cons e rest ih =>
    rw [List.cons_append, linkTailOk]
    rw [linkTailOk] at h1
    by_cases hns : isNSLinkEv e = true
    · rw [if_pos hns] at h1 ⊢
      rw [noLinkEvs_append, h1, hNS (by simp [hasNSLinkEv, hns])]
      rfl
    · rw [if_neg hns] at h1 ⊢
      have he : isNSLinkEv e = false := by simpa using hns
      refine ih h1 (fun h => hNS ?_) (fun h => hT ?_)
      · simp [hasNSLinkEv, he] at h ⊢
        exact h
      · simp [hasNSLinkEv, he] at h ⊢
        exact h

theorem linkFallbackOk_append {t1 t2 : List Ev} (h1 : linkFallbackOk t1 = true)
    (h2 : linkFallbackOk t2 = true) : linkFallbackOk (t1 ++ t2) = true := by
  induction t1 with
  | nil => exact h2
  | cons e rest ih =>
    cases e with
    | linkReq d f t st =>
      rw [List.cons_append, linkFallbackOk]
      rw [linkFallbackOk] at h1
      by_cases hns : st.isNotSupported = true
      · rw [if_pos hns] at h1 ⊢
        rw [Bool.and_eq_true] at h1
        obtain ⟨ha, hb⟩ := h1
        rw [copyFollows_append t2 ha, ih hb]
        rfl
      · rw [if_neg hns] at h1 ⊢
        exact ih h1
    | prim op st => exact ih h1
    | copyReq a b c d e f g => exact ih h1
    | createReq a b c d => exact ih h1
    | linkReq2 a b c => exact ih h1
    | copyReq2 a b c => exact ih h1

theorem traceGood_nil (b : Bool) : TraceGood b [] b := by
  refine ⟨rfl, rfl, fun _ => rfl, ?_⟩
  simp [hasNSLinkEv]

theorem traceGood_of_noLink {ts : List Ev} (b : Bool) (h : noLinkEvs ts = true) :
    TraceGood b ts b := by
  refine ⟨linkFallbackOk_of_noLink h, linkTailOk_of_noLink h, fun _ => h, ?_⟩
  rw [hasNSLinkEv_false_of_noLink h]
  simp

theorem traceGood_append {b b1 b2 : Bool} {ts1 ts2 : List Ev}
    (h1 : TraceGood b ts1 b1) (h2 : TraceGood b1 ts2 b2) :
    TraceGood b (ts1 ++ ts2) b2 := by
  obtain ⟨fb1, tl1, nl1, ho1⟩ := h1
  obtain ⟨fb2, tl2, nl2, ho2⟩ := h2
  refine ⟨linkFallbackOk_append fb1 fb2, ?_, ?_, ?_⟩
  · refine linkTailOk_append tl1 (fun h => nl2 ?_) (fun h => ?_)
    · rw [ho1, h]
      simp
    · exact tl2
  · intro hb
    rw [noLinkEvs_append, nl1 hb, nl2 (by rw [ho1, hb]; simp)]
    rfl
  · rw [ho2, ho1, hasNSLinkEv_append]
    cases b <;> cases hasNSLinkEv ts1 <;> cases hasNSLinkEv ts2 <;> rfl

theorem callLink_transfer {linkCb : LinkCb} (hl : PrimOnlyLink linkCb)
    (d f : String) (t : FileType) (w : World) :
    ∃ ts, (callLink linkCb d f t w).2.events = w.events ++ ts ∧
      transferEvs ts = [Ev.linkReq d f t (callLink linkCb d f t w).1] := by
  obtain ⟨pts, hev, hall⟩ := hl d f t w
  refine ⟨pts ++ [Ev.linkReq d f t (linkCb d f t w).1], ?_, ?_⟩
  · simp [callLink, World.logEv, hev]
  · rw [transferEvs_append, transferEvs_primOnly hall]
    simp [transferEvs, List.filter, isTransferEv]
    rfl

theorem callCopy_transfer {copyCb : CopyCb} (hc : PrimOnlyCopy copyCb)
    (d f : String) (l : Nat) (t : FileType) (cn cv : String) (w : World) :
    ∃ ts, (callCopy copyCb d f l t cn cv w).2.events = w.events ++ ts ∧
      transferEvs ts = [Ev.copyReq d f l t cn cv (callCopy copyCb d f l t cn cv w).1] := by
  obtain ⟨pts, hev, hall⟩ := hc d f l t cn cv w
  refine ⟨pts ++ [Ev.copyReq d f l t cn cv (copyCb d f l t cn cv w).1], ?_, ?_⟩
  · simp [callCopy, World.logEv, hev]
  · rw [transferEvs_append, transferEvs_primOnly hall]
    simp [transferEvs, List.filter, isTransferEv]
    rfl

theorem callCreate_transfer {createCb : CreateCb} (hcr : PrimOnlyCreate createCb)
    (f c : String) (t : FileType) (w : World) :
    ∃ ts, (callCreate createCb f c t w).2.events = w.events ++ ts ∧
      transferEvs ts = [Ev.createReq f c t (callCreate createCb f c t w).1] := by
  obtain ⟨pts, hev, hall⟩ := hcr f c t w
  refine ⟨pts ++ [Ev.createReq f c t (createCb f c t w).1], ?_, ?_⟩
  · simp [callCreate, World.logEv, hev]
  · rw [transferEvs_append, transferEvs_primOnly hall]
    simp [transferEvs, List.filter, isTransferEv]
    rfl

/-- The first live-files loop appends no link invocation to the trace. -/
theorem liveFilesPass_trace {copyCb : CopyCb} (hc : PrimOnlyCopy copyCb)
    (parse : String → Option (Nat × FileType)) (dbName : String) (msize : Nat) :
    ∀ files s mf cf acc w, ∃ ts,
      (liveFilesPass parse dbName copyCb msize files s mf cf acc w).2.2.2.2.events =
        w.events ++ ts ∧
      noLinkEvs (transferEvs ts) = true := by
  intro files
  induction files with
  | nil =>
    intro s mf cf acc w
    exact ⟨[], by simp [liveFilesPass], rfl⟩
  | cons f rest ih =>
    intro s mf cf acc w
    simp only [liveFilesPass]
    split
    · exact ⟨[], by simp, rfl⟩
    · split
      · exact ⟨[], by simp, rfl⟩
      · split
        · exact ih _ _ _ _ _
        · split
          · obtain ⟨ts1, hev1, htr1⟩ := callCopy_transfer hc dbName f
              (if _ = FileType.descriptor then msize else 0) _
              kUnknownFileChecksumFuncName kUnknownFileChecksum w
            obtain ⟨ts2, hev2, hnl2⟩ := ih _ _ _ _ _
            refine ⟨ts1 ++ ts2, ?_, ?_⟩
            · rw [hev2, hev1, List.append_assoc]
            · rw [transferEvs_append, noLinkEvs_append, hnl2, htr1]
              simp [noLinkEvs, isLinkReqEv]
          · exact ih _ _ _ _ _

theorem tableBlobPass_trace {linkCb : LinkCb} {copyCb : CopyCb}
    (hl : PrimOnlyLink linkCb) (hc : PrimOnlyCopy copyCb)
    (dbName : String) (gc : Bool) (cks : Nat → Option (String × String)) :
    ∀ files b s w, ∃ ts,
      (tableBlobPass dbName linkCb copyCb gc cks files b s w).2.2.events =
        w.events ++ ts ∧
      TraceGood b (transferEvs ts)
        (tableBlobPass dbName linkCb copyCb gc cks files b s w).2.1 := by
  intro files
  induction files with
  | nil =>
    intro b s w
    exact ⟨[], by simp [tableBlobPass], traceGood_nil b⟩
  | cons f rest ih =>
    obtain ⟨fname, number, t⟩ := f
    intro b s w
    simp only [tableBlobPass]
    split
    · exact ⟨[], by simp, traceGood_nil b⟩
    · have hstep : ∀ (cs : String × String) (st : Status × Bool × World),
          (∃ ts0, st.2.2.events = w.events ++ ts0 ∧
            ((transferEvs ts0 = [] ∧ st.2.1 = b) ∨
             (∃ st1, transferEvs ts0 = [Ev.linkReq dbName fname t st1] ∧
               st1.isNotSupported = false ∧ st.2.1 = b ∧ b = true) ∨
             (∃ st1, transferEvs ts0 = [Ev.linkReq dbName fname t st1] ∧
               st1.isNotSupported = true ∧ st.2.1 = false ∧ b = true))) →
          ∃ ts,
            (if ¬ st.2.1 = true then
              (tableBlobPass dbName linkCb copyCb gc cks rest st.2.1
                (callCopy copyCb dbName fname 0 t cs.1 cs.2 st.2.2).1
                (callCopy copyCb dbName fname 0 t cs.1 cs.2 st.2.2).2)
            else
              tableBlobPass dbName linkCb copyCb gc cks rest st.2.1 st.1
                st.2.2).2.2.events = w.events ++ ts ∧
            TraceGood b (transferEvs ts)
              (if ¬ st.2.1 = true then
                (tableBlobPass dbName linkCb copyCb gc cks rest st.2.1
                  (callCopy copyCb dbName fname 0 t cs.1 cs.2 st.2.2).1
                  (callCopy copyCb dbName fname 0 t cs.1 cs.2 st.2.2).2)
              else
                tableBlobPass dbName linkCb copyCb gc cks rest st.2.1 st.1
                  st.2.2).2.1 := by
        intro cs st hinv
        obtain ⟨ts0, hev0, hcase⟩ := hinv
        split
        · rename_i hflag
          have hflag0 : st.2.1 = false := by simpa using hflag
          rw [hflag0]
          obtain ⟨tsc, hevc, htrc⟩ := callCopy_transfer hc dbName fname 0 t cs.1 cs.2 st.2.2
          obtain ⟨tsr, hevr, hgr⟩ := ih false
            (callCopy copyCb dbName fname 0 t cs.1 cs.2 st.2.2).1
            (callCopy copyCb dbName fname 0 t cs.1 cs.2 st.2.2).2
          refine ⟨ts0 ++ (tsc ++ tsr), ?_, ?_⟩
          · rw [hevr, hevc, hev0]
            simp [List.append_assoc]
          · rw [transferEvs_append, transferEvs_append, htrc]
            rcases hcase with ⟨htr0, hb⟩ | ⟨st1, _, _, hsb, hb⟩ | ⟨st1, htr0, hns1, _, hb⟩
            · rw [htr0]
              have hb0 : b = false := by rw [← hb, hflag0]
              subst hb0
              rw [List.nil_append]
              exact traceGood_append
                (traceGood_of_noLink false (by simp [noLinkEvs, isLinkReqEv]))
                hgr
            · exact absurd (hsb.symm.trans hflag0) (by simp [hb])
            · rw [htr0]
              subst hb
              obtain ⟨fb, tl, nl, ho⟩ := hgr
              have hnlr : noLinkEvs (transferEvs tsr) = true := nl rfl
              refine ⟨?_, ?_, ?_, ?_⟩
              · simp [linkFallbackOk, copyFollows, hns1, linkFallbackOk_of_noLink hnlr]
              · have h2 := hnlr
                simp [noLinkEvs] at h2
                simp [linkTailOk, isNSLinkEv, hns1, noLinkEvs, h2]
                exact ⟨rfl, h2⟩
              · intro h
                exact Bool.noConfusion h
              · rw [ho]
                simp [hasNSLinkEv, isNSLinkEv, hns1]
        · rename_i hflag
          have hflag1 : st.2.1 = true := by simpa using hflag
          rw [hflag1]
          obtain ⟨tsr, hevr, hgr⟩ := ih true st.1 st.2.2
          refine ⟨ts0 ++ tsr, ?_, ?_⟩
          · rw [hevr, hev0, List.append_assoc]
          · rw [transferEvs_append]
            rcases hcase with ⟨htr0, hb⟩ | ⟨st1, htr0, hns1, hsb, hb⟩ | ⟨st1, _, _, hsb, hb⟩
            · rw [htr0, List.nil_append]
              have hb1 : b = true := by rw [← hb, hflag1]
              subst hb1
              exact hgr
            · rw [htr0]
              subst hb
              obtain ⟨fb, tl, nl, ho⟩ := hgr
              refine ⟨?_, ?_, ?_, ?_⟩
              · simpa [linkFallbackOk, hns1] using fb
              · simpa [linkTailOk, isNSLinkEv, hns1] using tl
              · intro h
                exact Bool.noConfusion h
              · rw [ho]
                simp [hasNSLinkEv, isNSLinkEv, hns1]
            · exact absurd (hsb.symm.trans hflag1) (by simp)
      apply hstep
      split
      · rename_i hb
        split
        · rename_i hns
          obtain ⟨tsl, hevl, htrl⟩ := callLink_transfer hl dbName fname t w
          exact ⟨tsl, hevl, Or.inr (Or.inr ⟨_, htrl, hns, rfl, hb⟩)⟩
        · rename_i hns
          obtain ⟨tsl, hevl, htrl⟩ := callLink_transfer hl dbName fname t w
          exact ⟨tsl, hevl, Or.inr (Or.inl ⟨_, htrl, by simpa using hns, rfl, hb⟩)⟩
      · exact ⟨[], by simp, Or.inl ⟨rfl, rfl⟩⟩

theorem walPass_trace {linkCb : LinkCb} {copyCb : CopyCb}
    (hl : PrimOnlyLink linkCb) (hc : PrimOnlyCopy copyCb)
    (wdir : String) (flush : Bool) (minLog : Nat) :
    ∀ wals b s w, ∃ ts,
      (walPass linkCb copyCb wdir flush minLog wals b s w).2.2.events =
        w.events ++ ts ∧
      TraceGood b (transferEvs ts)
        (walPass linkCb copyCb wdir flush minLog wals b s w).2.1 := by
  intro wals
  induction wals with
  | nil =>
    intro b s w
    exact ⟨[], by simp [walPass], traceGood_nil b⟩
  | cons wf rest ih =>
    intro b s w
    simp only [walPass]
    split
    · exact ⟨[], by simp, traceGood_nil b⟩
    · split
      · split
        · -- last element of the list: unconditional exact-size copy
          obtain ⟨tsc, hevc, htrc⟩ := callCopy_transfer hc wdir wf.pathName
            wf.sizeFileBytes FileType.wal kUnknownFileChecksumFuncName
            kUnknownFileChecksum w
          refine ⟨tsc, hevc, ?_⟩
          rw [htrc]
          exact traceGood_of_noLink b (by simp [noLinkEvs, isLinkReqEv])
        · have hstep : ∀ (st : Status × Bool × World),
              (∃ ts0, st.2.2.events = w.events ++ ts0 ∧
                ((transferEvs ts0 = [] ∧ st.2.1 = b) ∨
                 (∃ st1, transferEvs ts0 = [Ev.linkReq wdir wf.pathName FileType.wal st1] ∧
                   st1.isNotSupported = false ∧ st.2.1 = b ∧ b = true) ∨
                 (∃ st1, transferEvs ts0 = [Ev.linkReq wdir wf.pathName FileType.wal st1] ∧
                   st1.isNotSupported = true ∧ st.2.1 = false ∧ b = true))) →
              ∃ ts,
                (if ¬ st.2.1 = true then
                  walPass linkCb copyCb wdir flush minLog rest st.2.1
                    (callCopy copyCb wdir wf.pathName 0 FileType.wal
                      kUnknownFileChecksumFuncName kUnknownFileChecksum st.2.2).1
                    (callCopy copyCb wdir wf.pathName 0 FileType.wal
                      kUnknownFileChecksumFuncName kUnknownFileChecksum st.2.2).2
                else
                  walPass linkCb copyCb wdir flush minLog rest st.2.1 st.1
                    st.2.2).2.2.events = w.events ++ ts ∧
                TraceGood b (transferEvs ts)
                  (if ¬ st.2.1 = true then
                    walPass linkCb copyCb wdir flush minLog rest st.2.1
                      (callCopy copyCb wdir wf.pathName 0 FileType.wal
                        kUnknownFileChecksumFuncName kUnknownFileChecksum st.2.2).1
                      (callCopy copyCb wdir wf.pathName 0 FileType.wal
                        kUnknownFileChecksumFuncName kUnknownFileChecksum st.2.2).2
                  else
                    walPass linkCb copyCb wdir flush minLog rest st.2.1 st.1
                      st.2.2).2.1 := by
            intro st hinv
            obtain ⟨ts0, hev0, hcase⟩ := hinv
            split
            · rename_i hflag
              have hflag0 : st.2.1 = false := by simpa using hflag
              rw [hflag0]
              obtain ⟨tsc, hevc, htrc⟩ := callCopy_transfer hc wdir wf.pathName 0
                FileType.wal kUnknownFileChecksumFuncName kUnknownFileChecksum st.2.2
              obtain ⟨tsr, hevr, hgr⟩ := ih false
                (callCopy copyCb wdir wf.pathName 0 FileType.wal
                  kUnknownFileChecksumFuncName kUnknownFileChecksum st.2.2).1
                (callCopy copyCb wdir wf.pathName 0 FileType.wal
                  kUnknownFileChecksumFuncName kUnknownFileChecksum st.2.2).2
              refine ⟨ts0 ++ (tsc ++ tsr), ?_, ?_⟩
              · rw [hevr, hevc, hev0]
                simp [List.append_assoc]
              · rw [transferEvs_append, transferEvs_append, htrc]
                rcases hcase with ⟨htr0, hb⟩ | ⟨st1, _, _, hsb, hb⟩ | ⟨st1, htr0, hns1, _, hb⟩
                · rw [htr0]
                  have hb0 : b = false := by rw [← hb, hflag0]
                  subst hb0
                  rw [List.nil_append]
                  exact traceGood_append
                    (traceGood_of_noLink false (by simp [noLinkEvs, isLinkReqEv]))
                    hgr
                · exact absurd (hsb.symm.trans hflag0) (by simp [hb])
                · rw [htr0]
                  subst hb
                  obtain ⟨fb, tl, nl, ho⟩ := hgr
                  have hnlr : noLinkEvs (transferEvs tsr) = true := nl rfl
                  refine ⟨?_, ?_, ?_, ?_⟩
                  · simp [linkFallbackOk, copyFollows, hns1, linkFallbackOk_of_noLink hnlr]
                  · have h2 := hnlr
                    simp [noLinkEvs] at h2
                    simp [linkTailOk, isNSLinkEv, hns1, noLinkEvs, h2]
                    exact ⟨rfl, h2⟩
                  · intro h
                    exact Bool.noConfusion h
                  · rw [ho]
                    simp [hasNSLinkEv, isNSLinkEv, hns1]
            · rename_i hflag
              have hflag1 : st.2.1 = true := by simpa using hflag
              rw [hflag1]
              obtain ⟨tsr, hevr, hgr⟩ := ih true st.1 st.2.2
              refine ⟨ts0 ++ tsr, ?_, ?_⟩
              · rw [hevr, hev0, List.append_assoc]
              · rw [transferEvs_append]
                rcases hcase with ⟨htr0, hb⟩ | ⟨st1, htr0, hns1, hsb, hb⟩ | ⟨st1, _, _, hsb, hb⟩
                · rw [htr0, List.nil_append]
                  have hb1 : b = true := by rw [← hb, hflag1]
                  subst hb1
                  exact hgr
                · rw [htr0]
                  subst hb
                  obtain ⟨fb, tl, nl, ho⟩ := hgr
                  refine ⟨?_, ?_, ?_, ?_⟩
                  · simpa [linkFallbackOk, hns1] using fb
                  · simpa [linkTailOk, isNSLinkEv, hns1] using tl
                  · intro h
                    exact Bool.noConfusion h
                  · rw [ho]
                    simp [hasNSLinkEv, isNSLinkEv, hns1]
                · exact absurd (hsb.symm.trans hflag1) (by simp)
          apply hstep
          split
          · rename_i hb
            split
            · rename_i hns
              obtain ⟨tsl, hevl, htrl⟩ := callLink_transfer hl wdir wf.pathName
                FileType.wal w
              exact ⟨tsl, hevl, Or.inr (Or.inr ⟨_, htrl, hns, rfl, hb⟩)⟩
            · rename_i hns
              obtain ⟨tsl, hevl, htrl⟩ := callLink_transfer hl wdir wf.pathName
                FileType.wal w
              exact ⟨tsl, hevl, Or.inr (Or.inl ⟨_, htrl, by simpa using hns, rfl, hb⟩)⟩
          · exact ⟨[], by simp, Or.inl ⟨rfl, rfl⟩⟩
      · exact ih b s w

theorem traceTail_trans {b b1 b2 : Bool} {w w1 w2 : World}
    (h1 : TraceTail b w w1 b1) (h2 : TraceTail b1 w1 w2 b2) : TraceTail b w w2 b2 := by
  obtain ⟨ts1, hev1, hg1⟩ := h1
  obtain ⟨ts2, hev2, hg2⟩ := h2
  refine ⟨ts1 ++ ts2, ?_, ?_⟩
  · rw [hev2, hev1, List.append_assoc]
  · rw [transferEvs_append]
    exact traceGood_append hg1 hg2

theorem primTail_of_evolvesP {Q : String → Prop} {w w2 : World}
    (h : EvolvesP Q isPrimEv w w2) : PrimTail w w2 := by
  obtain ⟨_, _, _, _, _, ts, hts, hall⟩ := h
  exact ⟨ts, hts, hall⟩

theorem primTail_of_shrinkKeep {p : String} {w w2 : World}
    (h : ShrinkKeep p w w2) : PrimTail w w2 := by
  obtain ⟨_, _, _, _, _, ts, hts, hall⟩ := h
  refine ⟨ts, hts, ?_⟩
  rw [List.all_eq_true] at hall ⊢
  intro e he
  have h2 := hall e he
  rw [Bool.and_eq_true] at h2
  exact h2.1

theorem traceTail_of_primTail {w w2 : World} (b : Bool) (h : PrimTail w w2) :
    TraceTail b w w2 b := by
  obtain ⟨ts, hts, hall⟩ := h
  refine ⟨ts, hts, ?_⟩
  rw [transferEvs_primOnly hall]
  exact traceGood_nil b

theorem primTail_trans {w w1 w2 : World} (h1 : PrimTail w w1) (h2 : PrimTail w1 w2) :
    PrimTail w w2 := by
  obtain ⟨ts1, hev1, ha1⟩ := h1
  obtain ⟨ts2, hev2, ha2⟩ := h2
  refine ⟨ts1 ++ ts2, ?_, ?_⟩
  · rw [hev2, hev1, List.append_assoc]
  · simp only [List.all_append, ha1, ha2, Bool.and_self]

theorem primTail_refl (w : World) : PrimTail w w := ⟨[], by simp, rfl⟩

/-- The whole transfer body of CreateCustomCheckpoint follows the
link-then-copy trace discipline. -/
theorem customTransferTail_trace (db : DBModel) {linkCb : LinkCb} {copyCb : CopyCb}
    {createCb : CreateCb} (hl : PrimOnlyLink linkCb) (hc : PrimOnlyCopy copyCb)
    (hcr : PrimOnlyCreate createCb) (gltc flush : Bool) (minLog : Nat) :
    ∀ liveFiles msize walFiles w, ∃ bOut,
      TraceTail true w (customTransferTail db linkCb copyCb createCb gltc flush minLog
        liveFiles msize walFiles w).2 bOut := by
  intro liveFiles msize walFiles w
  obtain ⟨ts1, hev1, hnl1⟩ := liveFilesPass_trace hc w.parseFileName db.name msize
    liveFiles Status.ok "" "" [] w
  have T1 : TraceTail true w
      (liveFilesPass w.parseFileName db.name copyCb msize liveFiles
        Status.ok "" "" [] w).2.2.2.2 true :=
    ⟨ts1, hev1, traceGood_of_noLink true hnl1⟩
  simp only [customTransferTail]
  have hck : ∀ (lpv : Status × String × String × List (String × Nat × FileType) × World),
      TraceTail true w lpv.2.2.2.2 true →
      TraceTail true w ((if lpv.1.isOk = true ∧ gltc = true then
        opGetFileChecksums (db.name ++ lpv.2.1) msize lpv.2.2.2.2
      else (lpv.1, lpv.2.2.2.2)) : Status × World).2 true := by
    intro lpv hlp
    split
    · exact traceTail_trans hlp (traceTail_of_primTail _ (primTail_of_evolvesP
        (opGetFileChecksums_evolvesP (Q := fun _ => True) _ _ _ (fun _ => rfl))))
    · exact hlp
  have htb : ∀ (acc : List (String × Nat × FileType)) (ckv : Status × World),
      TraceTail true w ckv.2 true →
      TraceTail true w
        (tableBlobPass db.name linkCb copyCb gltc ckv.2.checksums acc true ckv.1 ckv.2).2.2
        (tableBlobPass db.name linkCb copyCb gltc ckv.2.checksums acc true ckv.1 ckv.2).2.1 := by
    intro acc ckv hck2
    obtain ⟨ts3, hev3, hg3⟩ := tableBlobPass_trace hl hc db.name gltc ckv.2.checksums
      acc true ckv.1 ckv.2
    exact traceTail_trans hck2 ⟨ts3, hev3, hg3⟩
  have hcr2 : ∀ (b1 : Bool) (cf mf : String) (tbv : Status × Bool × World),
      TraceTail true w tbv.2.2 b1 →
      TraceTail true w ((if tbv.1.isOk = true ∧ ¬ cf = "" ∧ ¬ mf = "" then
          callCreate createCb cf (strDrop mf 1 ++ "\n") FileType.current tbv.2.2
        else (tbv.1, tbv.2.2)) : Status × World).2 b1 := by
    intro b1 cf mf tbv htb2
    split
    · obtain ⟨ts4, hev4, htr4⟩ := callCreate_transfer hcr cf (strDrop mf 1 ++ "\n")
        FileType.current tbv.2.2
      refine traceTail_trans htb2 ⟨ts4, hev4, ?_⟩
      rw [htr4]
      exact traceGood_of_noLink b1 (by simp [noLinkEvs, isLinkReqEv])
    · exact htb2
  have hwp : ∀ (b1 : Bool) (crv : Status × World),
      TraceTail true w crv.2 b1 → ∃ bOut,
      TraceTail true w
        (walPass linkCb copyCb db.walSrcDir flush minLog walFiles b1 crv.1 crv.2).2.2 bOut := by
    intro b1 crv hcr3
    obtain ⟨ts5, hev5, hg5⟩ := walPass_trace hl hc db.walSrcDir flush minLog walFiles
      b1 crv.1 crv.2
    exact ⟨_, traceTail_trans hcr3 ⟨ts5, hev5, hg5⟩⟩
  exact hwp _ _ (hcr2 _ _ _ _ (htb _ _ (hck _ T1)))

theorem createCustomCheckpoint_trace (db : DBModel) {linkCb : LinkCb} {copyCb : CopyCb}
    {createCb : CreateCb} (hl : PrimOnlyLink linkCb) (hc : PrimOnlyCopy copyCb)
    (hcr : PrimOnlyCreate createCb) (lsz : Nat) (gltc : Bool) :
    ∀ w, ∃ bOut, TraceTail true w
      (createCustomCheckpoint db linkCb copyCb createCb lsz gltc w).2.2 bOut := by
  intro w
  simp only [createCustomCheckpoint]
  have hdec : ∀ w2 : World, TraceTail true w w2 true →
      ∃ bOut, TraceTail true w ((match db.minLogNum with
        | none => (Status.invalidArgument "cannot get the min log number to keep.",
            db.latestSeq,
            (opGetLiveFiles 1 (flushMemtableDecision db.allow2pc lsz
              (totalWalSize db.walFilesFlushCheck)) db.liveFiles1 db.manifestSize1
              w2).2.2.2)
        | some minLogNum =>
          let g2 := opGetLiveFiles 2 (flushMemtableDecision db.allow2pc lsz
            (totalWalSize db.walFilesFlushCheck)) db.liveFiles2 db.manifestSize2
            (opGetLiveFiles 1 (flushMemtableDecision db.allow2pc lsz
              (totalWalSize db.walFilesFlushCheck)) db.liveFiles1 db.manifestSize1
              w2).2.2.2
          let fw := if g2.1.isOk then opFlushWAL g2.2.2.2 else (g2.1, g2.2.2.2)
          let gw := if fw.1.isOk then opGetSortedWalFiles 2 db.walFilesMain fw.2
            else (fw.1, [], fw.2)
          if ¬ gw.1.isOk = true then (gw.1, db.latestSeq, gw.2.2)
          else
            let r := customTransferTail db linkCb copyCb createCb gltc
              (flushMemtableDecision db.allow2pc lsz (totalWalSize db.walFilesFlushCheck))
              minLogNum g2.2.1 g2.2.2.1 gw.2.1 gw.2.2
            (r.1, db.latestSeq, r.2)
        : Status × Nat × World)).2.2 bOut := by
    intro w2 hw2
    have E1 : TraceTail true w (opGetLiveFiles 1 (flushMemtableDecision db.allow2pc lsz
        (totalWalSize db.walFilesFlushCheck)) db.liveFiles1 db.manifestSize1 w2).2.2.2
        true :=
      traceTail_trans hw2 (traceTail_of_primTail _ (primTail_of_evolvesP
        (opGetLiveFiles_evolvesP (Q := fun _ => True) _ _ _ _ _ (fun _ => rfl))))
    cases db.minLogNum with
    | none => exact ⟨true, E1⟩
    | some minLogNum =>
      have E2 : TraceTail true w (opGetLiveFiles 2 (flushMemtableDecision db.allow2pc lsz
          (totalWalSize db.walFilesFlushCheck)) db.liveFiles2 db.manifestSize2
          (opGetLiveFiles 1 (flushMemtableDecision db.allow2pc lsz
            (totalWalSize db.walFilesFlushCheck)) db.liveFiles1 db.manifestSize1
            w2).2.2.2).2.2.2 true :=
        traceTail_trans E1 (traceTail_of_primTail _ (primTail_of_evolvesP
          (opGetLiveFiles_evolvesP (Q := fun _ => True) _ _ _ _ _ (fun _ => rfl))))
      simp only []
      have hfw : ∀ g2v : Status × List String × Nat × World, TraceTail true w g2v.2.2.2 true →
          TraceTail true w ((if g2v.1.isOk = true then opFlushWAL g2v.2.2.2
            else (g2v.1, g2v.2.2.2)) : Status × World).2 true := by
        intro g2v hg2
        split
        · exact traceTail_trans hg2 (traceTail_of_primTail _ (primTail_of_evolvesP
            (opFlushWAL_evolvesP (Q := fun _ => True) _ (fun _ => rfl))))
        · exact hg2
      have hgw : ∀ fwv : Status × World, TraceTail true w fwv.2 true →
          TraceTail true w ((if fwv.1.isOk = true
            then opGetSortedWalFiles 2 db.walFilesMain fwv.2
            else (fwv.1, [], fwv.2)) : Status × List WalFileDesc × World).2.2 true := by
        intro fwv hfwv
        split
        · exact traceTail_trans hfwv (traceTail_of_primTail _ (primTail_of_evolvesP
            (opGetSortedWalFiles_evolvesP (Q := fun _ => True) _ _ _ (fun _ => rfl))))
        · exact hfwv
      have htail : ∀ (g2v : Status × List String × Nat × World)
          (gwv : Status × List WalFileDesc × World), TraceTail true w gwv.2.2 true →
          ∃ bOut, TraceTail true w
            ((if ¬ gwv.1.isOk = true then (gwv.1, db.latestSeq, gwv.2.2)
            else
              ((customTransferTail db linkCb copyCb createCb gltc
                (flushMemtableDecision db.allow2pc lsz (totalWalSize db.walFilesFlushCheck))
                minLogNum g2v.2.1 g2v.2.2.1 gwv.2.1 gwv.2.2).1,
              db.latestSeq,
              (customTransferTail db linkCb copyCb createCb gltc
                (flushMemtableDecision db.allow2pc lsz (totalWalSize db.walFilesFlushCheck))
                minLogNum g2v.2.1 g2v.2.2.1 gwv.2.1 gwv.2.2).2)) : Status × Nat × World).2.2
            bOut := by
        intro g2v gwv hgwv
        split
        · exact ⟨true, hgwv⟩
        · obtain ⟨bo, Tt⟩ := customTransferTail_trace db hl hc hcr gltc
            (flushMemtableDecision db.allow2pc lsz (totalWalSize db.walFilesFlushCheck))
            minLogNum g2v.2.1 g2v.2.2.1 gwv.2.1 gwv.2.2
          exact ⟨bo, traceTail_trans hgwv Tt⟩
      exact htail _ _ (hgw _ (hfw _ E2))
  split
  · split
    · exact ⟨true, traceTail_of_primTail _ (primTail_of_evolvesP
        (opGetSortedWalFiles_evolvesP (Q := fun _ => True) 1 db.walFilesFlushCheck w
          (fun _ => rfl)))⟩
    · exact hdec _ (traceTail_of_primTail _ (primTail_of_evolvesP
        (opGetSortedWalFiles_evolvesP (Q := fun _ => True) 1 db.walFilesFlushCheck w
          (fun _ => rfl))))
  · split
    · exact ⟨true, traceTail_of_primTail _ (primTail_refl w)⟩
    · exact hdec _ (traceTail_of_primTail _ (primTail_refl w))

theorem checkpointTransferPhase_trace (db : DBModel)
    (fpp nwd vld vwd : String) (lsz : Nat) :
    ∀ w, ∃ bOut, TraceTail true w
      (checkpointTransferPhase db fpp nwd vld vwd lsz w).2.2 bOut := by
  intro w
  simp only [checkpointTransferPhase]
  have hd : TraceTail true w (opDisableFileDeletions w).2 true :=
    traceTail_of_primTail _ (primTail_of_evolvesP
      (opDisableFileDeletions_evolvesP (Q := fun _ => True) _ (fun _ => rfl)))
  split
  · obtain ⟨bo, Tc⟩ := createCustomCheckpoint_trace db
      (ckptLinkCb_primOnly db fpp nwd) (ckptCopyCb_primOnly db fpp nwd vld vwd)
      (ckptCreateCb_primOnly fpp) lsz false (opDisableFileDeletions w).2
    have Tcc : TraceTail true w
        (createCustomCheckpoint db (ckptLinkCb db fpp nwd)
          (ckptCopyCb db fpp nwd vld vwd) (ckptCreateCb fpp) lsz false
          (opDisableFileDeletions w).2).2.2 bo :=
      traceTail_trans hd Tc
    split
    · exact ⟨bo, traceTail_trans Tcc (traceTail_of_primTail _ (primTail_of_evolvesP
        (opEnableFileDeletions_evolvesP (Q := fun _ => True) _ (fun _ => rfl))))⟩
    · exact ⟨bo, Tcc⟩
  · exact ⟨true, hd⟩

theorem checkpointFinish_primTail (pcd fpp : String) (s : Status) (seq : Nat) (w : World) :
    PrimTail w (checkpointFinish pcd fpp s seq w).2.2 := by
  simp only [checkpointFinish]
  have h1 : ∀ (r1v : Status × World), PrimTail w r1v.2 →
      PrimTail w ((if r1v.1.isOk = true then
          (if (opNewDirectory pcd r1v.2).1.isOk = true then
            opFsyncDir pcd (opNewDirectory pcd r1v.2).2
          else ((opNewDirectory pcd r1v.2).1, (opNewDirectory pcd r1v.2).2))
        else (r1v.1, r1v.2)) : Status × World).2 := by
    intro r1v hr1
    split
    · split
      · refine primTail_trans hr1 (primTail_trans ⟨_, opNewDirectory_events pcd r1v.2, rfl⟩
          ⟨_, opFsyncDir_events pcd _, rfl⟩)
      · exact primTail_trans hr1 ⟨_, opNewDirectory_events pcd r1v.2, rfl⟩
    · exact hr1
  have h2 : ∀ (r2v : Status × World), PrimTail w r2v.2 →
      PrimTail w ((if r2v.1.isOk = true then (r2v.1, some seq, r2v.2)
        else (r2v.1, none, cleanStagingDirectory fpp r2v.2)) :
          Status × Option Nat × World).2.2 := by
    intro r2v hr2
    split
    · exact hr2
    · exact primTail_trans hr2 (primTail_of_shrinkKeep (cleanStaging_shrinkKeep fpp r2v.2))
  apply h2
  apply h1
  split
  · exact ⟨_, opRenameFile_events fpp pcd w, rfl⟩
  · exact primTail_refl w

theorem createCheckpoint_traceTail (db : DBModel) (dir : String) (lsz : Nat)
    (ldir wdir : String) :
    ∀ w, ∃ bOut, TraceTail true w (createCheckpoint db dir lsz ldir wdir w).2.2 bOut := by
  intro w
  simp only [createCheckpoint]
  have he : TraceTail true w (opFileExists dir w).2 true :=
    traceTail_of_primTail _ (primTail_of_evolvesP
      (opFileExists_evolvesP (Q := fun _ => True) _ _ (fun _ => rfl)))
  split
  · exact ⟨true, he⟩
  · split
    · exact ⟨true, he⟩
    · split
      · exact ⟨true, he⟩
      · have hclean : TraceTail true w
            (cleanStagingDirectory (stripTrailingSlashes dir ++ ".tmp")
              (opFileExists dir w).2) true :=
          traceTail_trans he (traceTail_of_primTail _ (primTail_of_shrinkKeep
            (cleanStaging_shrinkKeep _ _)))
        have hcd : TraceTail true w
            (opCreateDir (stripTrailingSlashes dir ++ ".tmp")
              (cleanStagingDirectory (stripTrailingSlashes dir ++ ".tmp")
                (opFileExists dir w).2)).2 true :=
          traceTail_trans hclean (traceTail_of_primTail _ (primTail_of_evolvesP
            (opCreateDir_evolvesP (Q := fun _ => True) _ _ trivial (fun _ => rfl))))
        have hgb : ∀ (p : String) (cv : Status × World), TraceTail true w cv.2 true →
            TraceTail true w (opFileExists p cv.2).2 true := by
          intro p cv hcv
          exact traceTail_trans hcv (traceTail_of_primTail _ (primTail_of_evolvesP
            (opFileExists_evolvesP (Q := fun _ => True) _ _ (fun _ => rfl))))
        have hga : ∀ (p : String) (cv : Status × World), TraceTail true w cv.2 true →
            TraceTail true w (opCreateDir p (opFileExists p cv.2).2).2 true := by
          intro p cv hcv
          exact traceTail_trans (hgb p cv hcv) (traceTail_of_primTail _ (primTail_of_evolvesP
            (opCreateDir_evolvesP (Q := fun _ => True) _ _ trivial (fun _ => rfl))))
        have hfin : ∀ (s : Status) (seq : Nat) (w2 : World) (bo : Bool),
            TraceTail true w w2 bo →
            ∃ bOut, TraceTail true w
              (checkpointFinish (stripTrailingSlashes dir)
                (stripTrailingSlashes dir ++ ".tmp") s seq w2).2.2 bOut := by
          intro s seq w2 bo T
          exact ⟨bo, traceTail_trans T (traceTail_of_primTail _
            (checkpointFinish_primTail _ _ s seq w2))⟩
        have hphase : ∀ (pv : Status × World), TraceTail true w pv.2 true →
            ∃ bOut, TraceTail true w
              (checkpointFinish (stripTrailingSlashes dir)
                (stripTrailingSlashes dir ++ ".tmp")
                (checkpointTransferPhase db (stripTrailingSlashes dir ++ ".tmp")
                  (resolvedWalInfo db.name (stripTrailingSlashes dir)
                    (stripTrailingSlashes dir ++ ".tmp") (stripTrailingSlashes wdir)).2
                  (resolvedLogDirValue db.name (stripTrailingSlashes dir)
                    (stripTrailingSlashes ldir))
                  (resolvedWalInfo db.name (stripTrailingSlashes dir)
                    (stripTrailingSlashes dir ++ ".tmp") (stripTrailingSlashes wdir)).1
                  lsz pv.2).1
                (checkpointTransferPhase db (stripTrailingSlashes dir ++ ".tmp")
                  (resolvedWalInfo db.name (stripTrailingSlashes dir)
                    (stripTrailingSlashes dir ++ ".tmp") (stripTrailingSlashes wdir)).2
                  (resolvedLogDirValue db.name (stripTrailingSlashes dir)
                    (stripTrailingSlashes ldir))
                  (resolvedWalInfo db.name (stripTrailingSlashes dir)
                    (stripTrailingSlashes dir ++ ".tmp") (stripTrailingSlashes wdir)).1
                  lsz pv.2).2.1
                (checkpointTransferPhase db (stripTrailingSlashes dir ++ ".tmp")
                  (resolvedWalInfo db.name (stripTrailingSlashes dir)
                    (stripTrailingSlashes dir ++ ".tmp") (stripTrailingSlashes wdir)).2
                  (resolvedLogDirValue db.name (stripTrailingSlashes dir)
                    (stripTrailingSlashes ldir))
                  (resolvedWalInfo db.name (stripTrailingSlashes dir)
                    (stripTrailingSlashes dir ++ ".tmp") (stripTrailingSlashes wdir)).1
                  lsz pv.2).2.2).2.2 bOut := by
          intro pv hpv
          obtain ⟨bo, Tph⟩ := checkpointTransferPhase_trace db
            (stripTrailingSlashes dir ++ ".tmp")
            (resolvedWalInfo db.name (stripTrailingSlashes dir)
              (stripTrailingSlashes dir ++ ".tmp") (stripTrailingSlashes wdir)).2
            (resolvedLogDirValue db.name (stripTrailingSlashes dir)
              (stripTrailingSlashes ldir))
            (resolvedWalInfo db.name (stripTrailingSlashes dir)
              (stripTrailingSlashes dir ++ ".tmp") (stripTrailingSlashes wdir)).1
            lsz pv.2
          exact hfin _ _ _ bo (traceTail_trans hpv Tph)
        split
        · split
          · exact hfin _ _ _ true hcd
          · exact hphase _ hcd
        · split
          · split
            · exact hfin _ _ _ true (hga _ _ hcd)
            · exact hphase _ (hga _ _ hcd)
          · split
            · exact hfin _ _ _ true (hgb _ _ hcd)
            · exact hphase _ (hgb _ _ hcd)

theorem noDFDTail_refl (w : World) : NoDFDTail w w := ⟨[], by simp, rfl⟩

theorem noDFDTail_trans {w w1 w2 : World} (h1 : NoDFDTail w w1) (h2 : NoDFDTail w1 w2) :
    NoDFDTail w w2 := by
  obtain ⟨ts1, hev1, ha1⟩ := h1
  obtain ⟨ts2, hev2, ha2⟩ := h2
  refine ⟨ts1 ++ ts2, ?_, ?_⟩
  · rw [hev2, hev1, List.append_assoc]
  · simp only [List.all_append, ha1, ha2, Bool.and_self]

theorem noDFDTail_of_evolvesP {Q : String → Prop} {w w2 : World}
    (h : EvolvesP Q (fun e => !isDFDEv e) w w2) : NoDFDTail w w2 := by
  obtain ⟨_, _, _, _, _, ts, hts, hall⟩ := h
  exact ⟨ts, hts, hall⟩

theorem noDFDTail_of_shrinkKeep {p : String} {w w2 : World}
    (h : ShrinkKeep p w w2) : NoDFDTail w w2 := by
  obtain ⟨_, _, _, _, _, ts, hts, hall⟩ := h
  refine ⟨ts, hts, ?_⟩
  rw [List.all_eq_true] at hall ⊢
  intro e he
  have h2 := hall e he
  rw [Bool.and_eq_true] at h2
  simpa using h2.2

theorem countEnable_append (a b : List Ev) :
    countEnable (a ++ b) = countEnable a + countEnable b := by
  unfold countEnable
  rw [List.filter_append, List.length_append]

theorem hasDisableOk_append (a b : List Ev) :
    hasDisableOk (a ++ b) = (hasDisableOk a || hasDisableOk b) :=
  List.any_append

theorem isEnableEv_false_of_noDFD {e : Ev} (h : isDFDEv e = false) :
    isEnableEv e = false := by
  cases e with
  | prim op st => cases op <;> simp [isDFDEv, isEnableEv] at h ⊢
  | linkReq a b c d => rfl
  | copyReq a b c d e f g => rfl
  | createReq a b c d => rfl
  | linkReq2 a b c => rfl
  | copyReq2 a b c => rfl

theorem isDisableOkEv_false_of_noDFD {e : Ev} (h : isDFDEv e = false) :
    isDisableOkEv e = false := by
  cases e with
  | prim op st => cases op <;> simp [isDFDEv, isDisableOkEv] at h ⊢
  | linkReq a b c d => rfl
  | copyReq a b c d e f g => rfl
  | createReq a b c d => rfl
  | linkReq2 a b c => rfl
  | copyReq2 a b c => rfl

theorem countEnable_of_noDFD {ts : List Ev} (h : ts.all (fun e => !isDFDEv e) = true) :
    countEnable ts = 0 ∧ hasDisableOk ts = false := by
  constructor
  · unfold countEnable
    rw [List.filter_eq_nil_iff.mpr, List.length_nil]
    intro e he
    have h2 := List.all_eq_true.mp h e he
    rw [isEnableEv_false_of_noDFD (by simpa using h2)]
    simp
  · unfold hasDisableOk
    rw [List.any_eq_false]
    intro e he
    have h2 := List.all_eq_true.mp h e he
    rw [isDisableOkEv_false_of_noDFD (by simpa using h2)]
    simp

theorem exportInner_evolvesP {Q : String → Prop} {P : Ev → Bool} (dbName : String)
    (parse : String → Option (Nat × FileType)) (linkCb copyCb : ExportCb)
    (hl : ∀ d f w, EvolvesP Q P w (linkCb d f w).2)
    (hc : ∀ d f w, EvolvesP Q P w (copyCb d f w).2)
    (hPl : ∀ d f st, P (Ev.linkReq2 d f st) = true)
    (hPc : ∀ d f st, P (Ev.copyReq2 d f st) = true) :
    ∀ files hlf s n w, EvolvesP Q P w
      (exportInner dbName parse linkCb copyCb files hlf s n w).2.2.2 := by
  intro files
  induction files with
  | nil =>
    intro hlf s n w
    exact evolvesP_refl _ _ _
  | cons fm rest ih =>
    intro hlf s n w
    simp only [exportInner]
    split
    · exact evolvesP_refl _ _ _
    · repeat' split
      all_goals first
        | exact evolvesP_refl _ _ _
        | exact ih _ _ _ _
        | exact callLink2_evolvesP (hl _ _ _) (hPl _ _)
        | exact callCopy2_evolvesP (hc _ _ _) (hPc _ _)
        | exact evolvesP_trans (callLink2_evolvesP (hl _ _ _) (hPl _ _))
            (callCopy2_evolvesP (hc _ _ _) (hPc _ _))
        | exact evolvesP_trans (callLink2_evolvesP (hl _ _ _) (hPl _ _)) (ih _ _ _ _)
        | exact evolvesP_trans (callCopy2_evolvesP (hc _ _ _) (hPc _ _)) (ih _ _ _ _)
        | exact evolvesP_trans (evolvesP_trans (callLink2_evolvesP (hl _ _ _) (hPl _ _))
            (callCopy2_evolvesP (hc _ _ _) (hPc _ _))) (ih _ _ _ _)

theorem exportFilesInMetaData_evolvesP {Q : String → Prop} {P : Ev → Bool}
    (db : DBModel) (linkCb copyCb : ExportCb)
    (hl : ∀ d f w, EvolvesP Q P w (linkCb d f w).2)
    (hc : ∀ d f w, EvolvesP Q P w (copyCb d f w).2)
    (hPl : ∀ d f st, P (Ev.linkReq2 d f st) = true)
    (hPc : ∀ d f st, P (Ev.copyReq2 d f st) = true)
    (meta : ColumnFamilyMetaData) :
    ∀ w, EvolvesP Q P w (exportFilesInMetaData db linkCb copyCb meta w).2 := by
  intro w
  simp only [exportFilesInMetaData]
  have key : ∀ (lvls : List LevelMetaData) (acc : Status × Bool × Nat × World),
      EvolvesP Q P acc.2.2.2
        (lvls.foldl (fun (acc : Status × Bool × Nat × World) lvl =>
          exportInner db.name acc.2.2.2.parseFileName linkCb copyCb lvl.files
            acc.2.1 acc.1 acc.2.2.1 acc.2.2.2) acc).2.2.2 := by
    intro lvls
    induction lvls with
    | nil => intro acc; exact evolvesP_refl _ _ _
    | cons lvl rest ih2 =>
      intro acc
      rw [List.foldl_cons]
      exact evolvesP_trans
        (exportInner_evolvesP db.name acc.2.2.2.parseFileName linkCb copyCb hl hc hPl hPc
          lvl.files acc.2.1 acc.1 acc.2.2.1 acc.2.2.2)
        (ih2 _)
  exact key meta.levels (Status.ok, true, 0, w)

theorem opDisableFileDeletions_events (w : World) :
    (opDisableFileDeletions w).2.events = w.events ++
      [Ev.prim Op.disableFileDeletions (faultOr w Op.disableFileDeletions Status.ok)] := rfl

theorem dfdOk_of_noDFD {w w2 : World} (h : NoDFDTail w w2) : DfdOkTail w w2 := by
  obtain ⟨ts, hev, ha⟩ := h
  obtain ⟨hc, hd⟩ := countEnable_of_noDFD ha
  exact ⟨ts, hev, by rw [hc, hd]; rfl⟩

theorem dfdOk_trans_noDFD_left {w w1 w2 : World} (h1 : NoDFDTail w w1)
    (h2 : DfdOkTail w1 w2) : DfdOkTail w w2 := by
  obtain ⟨ts1, hev1, ha1⟩ := h1
  obtain ⟨ts2, hev2, hc2⟩ := h2
  obtain ⟨hc1, hd1⟩ := countEnable_of_noDFD ha1
  refine ⟨ts1 ++ ts2, ?_, ?_⟩
  · rw [hev2, hev1, List.append_assoc]
  · rw [countEnable_append, hasDisableOk_append, hc1, hd1, hc2]
    simp

theorem dfdOk_trans_noDFD_right {w w1 w2 : World} (h1 : DfdOkTail w w1)
    (h2 : NoDFDTail w1 w2) : DfdOkTail w w2 := by
  obtain ⟨ts1, hev1, hc1⟩ := h1
  obtain ⟨ts2, hev2, ha2⟩ := h2
  obtain ⟨hc2, hd2⟩ := countEnable_of_noDFD ha2
  refine ⟨ts1 ++ ts2, ?_, ?_⟩
  · rw [hev2, hev1, List.append_assoc]
  · rw [countEnable_append, hasDisableOk_append, hc1, hc2, hd2]
    simp

/-- CreateCustomCheckpoint never touches the file-deletion toggles. -/
theorem createCustomCheckpoint_noDFD (db : DBModel) (full nwd vld vwd : String)
    (lsz : Nat) (gltc : Bool) (w : World) :
    NoDFDTail w (createCustomCheckpoint db (ckptLinkCb db full nwd)
      (ckptCopyCb db full nwd vld vwd) (ckptCreateCb full) lsz gltc w).2.2 :=
  noDFDTail_of_evolvesP
    (createCustomCheckpoint_evolvesP (Q := fun _ => True) db _ _ _ lsz gltc
      (ckptLinkCb_evolvesP db full nwd (fun _ => trivial) (fun _ => trivial)
        (fun _ _ _ => rfl))
      (ckptCopyCb_evolvesP db full nwd vld vwd (fun _ => trivial) (fun _ => trivial)
        (fun _ _ _ _ => rfl) (fun _ _ => rfl) (fun _ _ => rfl))
      (ckptCreateCb_evolvesP full (fun _ => trivial) (fun _ _ _ => rfl))
      (fun _ _ _ _ => rfl) (fun _ _ _ _ _ _ _ => rfl) (fun _ _ _ _ => rfl)
      (fun _ _ => rfl) (fun _ _ _ => rfl) (fun _ => rfl) (fun _ _ _ => rfl) w)

theorem checkpointFinish_noDFD (pcd fpp : String) (s : Status) (seq : Nat) (w : World) :
    NoDFDTail w (checkpointFinish pcd fpp s seq w).2.2 := by
  simp only [checkpointFinish]
  have h1 : ∀ (r1v : Status × World), NoDFDTail w r1v.2 →
      NoDFDTail w ((if r1v.1.isOk = true then
          (if (opNewDirectory pcd r1v.2).1.isOk = true then
            opFsyncDir pcd (opNewDirectory pcd r1v.2).2
          else ((opNewDirectory pcd r1v.2).1, (opNewDirectory pcd r1v.2).2))
        else (r1v.1, r1v.2)) : Status × World).2 := by
    intro r1v hr1
    split
    · split
      · exact noDFDTail_trans hr1 (noDFDTail_trans
          ⟨_, opNewDirectory_events pcd r1v.2, rfl⟩ ⟨_, opFsyncDir_events pcd _, rfl⟩)
      · exact noDFDTail_trans hr1 ⟨_, opNewDirectory_events pcd r1v.2, rfl⟩
    · exact hr1
  have h2 : ∀ (r2v : Status × World), NoDFDTail w r2v.2 →
      NoDFDTail w ((if r2v.1.isOk = true then (r2v.1, some seq, r2v.2)
        else (r2v.1, none, cleanStagingDirectory fpp r2v.2)) :
          Status × Option Nat × World).2.2 := by
    intro r2v hr2
    split
    · exact hr2
    · exact noDFDTail_trans hr2 (noDFDTail_of_shrinkKeep (cleanStaging_shrinkKeep fpp r2v.2))
  apply h2
  apply h1
  split
  · exact ⟨_, opRenameFile_events fpp pcd w, rfl⟩
  · exact noDFDTail_refl w

theorem checkpointTransferPhase_dfd (db : DBModel) (fpp nwd vld vwd : String)
    (lsz : Nat) (w : World) :
    DfdOkTail w (checkpointTransferPhase db fpp nwd vld vwd lsz w).2.2 := by
  simp only [checkpointTransferPhase]
  have hd : (opDisableFileDeletions w).2.events = w.events ++
      [Ev.prim Op.disableFileDeletions (faultOr w Op.disableFileDeletions Status.ok)] :=
    opDisableFileDeletions_events w
  split
  · obtain ⟨ts2, hev2, ha2⟩ := createCustomCheckpoint_noDFD db fpp nwd vld vwd lsz false
      (opDisableFileDeletions w).2
    obtain ⟨hc2, hd2⟩ := countEnable_of_noDFD ha2
    split
    · rename_i hcond hok
      refine ⟨[Ev.prim Op.disableFileDeletions (faultOr w Op.disableFileDeletions Status.ok)]
        ++ ts2 ++ [Ev.prim Op.enableFileDeletions (faultOr
          (createCustomCheckpoint db (ckptLinkCb db fpp nwd)
            (ckptCopyCb db fpp nwd vld vwd) (ckptCreateCb fpp) lsz false
            (opDisableFileDeletions w).2).2.2 Op.enableFileDeletions Status.ok)], ?_, ?_⟩
      · rw [opEnableFileDeletions_events, hev2, hd]
        simp [List.append_assoc]
      · rw [countEnable_append, countEnable_append, hasDisableOk_append,
          hasDisableOk_append, hc2, hd2]
        have hde : isDisableOkEv (Ev.prim Op.disableFileDeletions
            (faultOr w Op.disableFileDeletions Status.ok)) = true := by
          simpa [isDisableOkEv, opDisableFileDeletions] using hok
        simp [countEnable, hasDisableOk, isEnableEv, hde]
    · rename_i hcond hnok
      refine ⟨[Ev.prim Op.disableFileDeletions (faultOr w Op.disableFileDeletions Status.ok)]
        ++ ts2, ?_, ?_⟩
      · rw [hev2, hd]
        simp [List.append_assoc]
      · rw [countEnable_append, hasDisableOk_append, hc2, hd2]
        have hde : isDisableOkEv (Ev.prim Op.disableFileDeletions
            (faultOr w Op.disableFileDeletions Status.ok)) = false := by
          simp only [isDisableOkEv]
          simpa [opDisableFileDeletions] using hnok
        simp [countEnable, hasDisableOk, isEnableEv, hde]
  · rename_i hcond
    refine ⟨[Ev.prim Op.disableFileDeletions (faultOr w Op.disableFileDeletions Status.ok)],
      hd, ?_⟩
    have hnok : (opDisableFileDeletions w).1.isOk = false := by
      rcases Bool.eq_false_or_eq_true (opDisableFileDeletions w).1.isOk with h | h
      · exact absurd (Or.inl h) hcond
      · exact h
    have hde : isDisableOkEv (Ev.prim Op.disableFileDeletions
        (faultOr w Op.disableFileDeletions Status.ok)) = false := by
      simp only [isDisableOkEv]
      simpa [opDisableFileDeletions] using hnok
    simp [countEnable, hasDisableOk, isEnableEv, hde]

theorem createCheckpoint_dfd (db : DBModel) (dir : String) (lsz : Nat)
    (ldir wdir : String) :
    ∀ w, DfdOkTail w (createCheckpoint db dir lsz ldir wdir w).2.2 := by
  intro w
  simp only [createCheckpoint]
  have he : NoDFDTail w (opFileExists dir w).2 :=
    noDFDTail_of_evolvesP
      (opFileExists_evolvesP (Q := fun _ => True) _ _ (fun _ => rfl))
  split
  · exact dfdOk_of_noDFD he
  · split
    · exact dfdOk_of_noDFD he
    · split
      · exact dfdOk_of_noDFD he
      · have hcd : NoDFDTail w
            (opCreateDir (stripTrailingSlashes dir ++ ".tmp")
              (cleanStagingDirectory (stripTrailingSlashes dir ++ ".tmp")
                (opFileExists dir w).2)).2 :=
          noDFDTail_trans (noDFDTail_trans he
            (noDFDTail_of_shrinkKeep (cleanStaging_shrinkKeep _ _)))
            (noDFDTail_of_evolvesP
              (opCreateDir_evolvesP (Q := fun _ => True) _ _ trivial (fun _ => rfl)))
        have hgb : ∀ (p : String) (cv : Status × World), NoDFDTail w cv.2 →
            NoDFDTail w (opFileExists p cv.2).2 := by
          intro p cv hcv
          exact noDFDTail_trans hcv (noDFDTail_of_evolvesP
            (opFileExists_evolvesP (Q := fun _ => True) _ _ (fun _ => rfl)))
        have hga : ∀ (p : String) (cv : Status × World), NoDFDTail w cv.2 →
            NoDFDTail w (opCreateDir p (opFileExists p cv.2).2).2 := by
          intro p cv hcv
          exact noDFDTail_trans (hgb p cv hcv) (noDFDTail_of_evolvesP
            (opCreateDir_evolvesP (Q := fun _ => True) _ _ trivial (fun _ => rfl)))
        have hfin : ∀ (s : Status) (seq : Nat) (w2 : World),
            DfdOkTail w w2 →
            DfdOkTail w (checkpointFinish (stripTrailingSlashes dir)
              (stripTrailingSlashes dir ++ ".tmp") s seq w2).2.2 := by
          intro s seq w2 T
          exact dfdOk_trans_noDFD_right T (checkpointFinish_noDFD _ _ s seq w2)
        have hphase : ∀ (pv : Status × World), NoDFDTail w pv.2 →
            DfdOkTail w
              (checkpointFinish (stripTrailingSlashes dir)
                (stripTrailingSlashes dir ++ ".tmp")
                (checkpointTransferPhase db (stripTrailingSlashes dir ++ ".tmp")
                  (resolvedWalInfo db.name (stripTrailingSlashes dir)
                    (stripTrailingSlashes dir ++ ".tmp") (stripTrailingSlashes wdir)).2
                  (resolvedLogDirValue db.name (stripTrailingSlashes dir)
                    (stripTrailingSlashes ldir))
                  (resolvedWalInfo db.name (stripTrailingSlashes dir)
                    (stripTrailingSlashes dir ++ ".tmp") (stripTrailingSlashes wdir)).1
                  lsz pv.2).1
                (checkpointTransferPhase db (stripTrailingSlashes dir ++ ".tmp")
                  (resolvedWalInfo db.name (stripTrailingSlashes dir)
                    (stripTrailingSlashes dir ++ ".tmp") (stripTrailingSlashes wdir)).2
                  (resolvedLogDirValue db.name (stripTrailingSlashes dir)
                    (stripTrailingSlashes ldir))
                  (resolvedWalInfo db.name (stripTrailingSlashes dir)
                    (stripTrailingSlashes dir ++ ".tmp") (stripTrailingSlashes wdir)).1
                  lsz pv.2).2.1
                (checkpointTransferPhase db (stripTrailingSlashes dir ++ ".tmp")
                  (resolvedWalInfo db.name (stripTrailingSlashes dir)
                    (stripTrailingSlashes dir ++ ".tmp") (stripTrailingSlashes wdir)).2
                  (resolvedLogDirValue db.name (stripTrailingSlashes dir)
                    (stripTrailingSlashes ldir))
                  (resolvedWalInfo db.name (stripTrailingSlashes dir)
                    (stripTrailingSlashes dir ++ ".tmp") (stripTrailingSlashes wdir)).1
                  lsz pv.2).2.2).2.2 := by
          intro pv hpv
          refine hfin _ _ _ ?_
          exact dfdOk_trans_noDFD_left hpv
            (checkpointTransferPhase_dfd db (stripTrailingSlashes dir ++ ".tmp")
              (resolvedWalInfo db.name (stripTrailingSlashes dir)
                (stripTrailingSlashes dir ++ ".tmp") (stripTrailingSlashes wdir)).2
              (resolvedLogDirValue db.name (stripTrailingSlashes dir)
                (stripTrailingSlashes ldir))
              (resolvedWalInfo db.name (stripTrailingSlashes dir)
                (stripTrailingSlashes dir ++ ".tmp") (stripTrailingSlashes wdir)).1
              lsz pv.2)
        split
        · split
          · exact hfin _ _ _ (dfdOk_of_noDFD hcd)
          · exact hphase _ hcd
        · split
          · split
            · exact hfin _ _ _ (dfdOk_of_noDFD (hga _ _ hcd))
            · exact hphase _ (hga _ _ hcd)
          · split
            · exact hfin _ _ _ (dfdOk_of_noDFD (hgb _ _ hcd))
            · exact hphase _ (hgb _ _ hcd)

theorem opGetChildren_events (p : String) (w : World) :
    (opGetChildren p w).2.2.events = w.events ++
      [Ev.prim (Op.getChildren p) (faultOr w (Op.getChildren p) Status.ok)] := rfl

theorem opDeleteDir_events (p : String) (w : World) :
    (opDeleteDir p w).2.events = w.events ++
      [Ev.prim (Op.deleteDir p) (faultOr w (Op.deleteDir p) Status.ok)] := by
  simp only [opDeleteDir, World.logEv]
  split <;> rfl

theorem exportColumnFamily_dfd (db : DBModel) (dir : String) :
    ∀ w, DfdOkTail w (exportColumnFamily db dir w).2.2 := by
  intro w
  have he : NoDFDTail w (opFileExists dir w).2 :=
    noDFDTail_of_evolvesP
      (opFileExists_evolvesP (Q := fun _ => True) _ _ (fun _ => rfl))
  have hfold : ∀ (cd : String) (cs : List String) (w2 : World),
      NoDFDTail w2 (cs.foldl (fun w c => (opDeleteFile (cd ++ "/" ++ c) w).2) w2) :=
    fun cd cs w2 => noDFDTail_of_shrinkKeep (deleteFold_shrinkKeep cd cs w2)
  unfold exportColumnFamily
  lift_lets
  extract_lets e
  split
  · exact dfdOk_of_noDFD he
  · split
    · exact dfdOk_of_noDFD he
    · split
      · exact dfdOk_of_noDFD he
      · lift_lets
        extract_lets tmpExportDir c fl d s1 en ex r n f mv bm cleanupDir g w1
        have hc : NoDFDTail w c.2 :=
          noDFDTail_trans he (noDFDTail_of_evolvesP
            (opCreateDir_evolvesP (Q := fun _ => True) _ _ trivial (fun _ => rfl)))
        have hfl2 : NoDFDTail w fl.2 := by
          show NoDFDTail w
            (if c.1.isOk = true then opFlushCF db.cfName c.2 else (c.1, c.2)).2
          split
          · exact noDFDTail_trans hc (noDFDTail_of_evolvesP
              (opFlushCF_evolvesP (Q := fun _ => True) _ _ (fun _ => rfl)))
          · exact hc
        have hdev : d.2.events = fl.2.events ++
            [Ev.prim Op.disableFileDeletions
              (faultOr fl.2 Op.disableFileDeletions Status.ok)] :=
          opDisableFileDeletions_events fl.2
        have hs1 : NoDFDTail d.2 s1.2 :=
          noDFDTail_of_evolvesP
            (exportFilesInMetaData_evolvesP (Q := fun _ => True) db
              (exportLinkCb db tmpExportDir) (exportCopyCb db tmpExportDir)
              (exportLinkCb_evolvesP db _ (fun _ => trivial) (fun _ _ _ => rfl))
              (exportCopyCb_evolvesP db _ (fun _ => trivial) (fun _ _ _ _ => rfl))
              (fun _ _ _ => rfl) (fun _ _ _ => rfl) db.cfMeta d.2)
        have henv : en.2.events = s1.2.events ++
            [Ev.prim Op.enableFileDeletions
              (faultOr s1.2 Op.enableFileDeletions Status.ok)] :=
          opEnableFileDeletions_events s1.2
        have hex2 : DfdOkTail w ex.2 := by
          show DfdOkTail w
            (if fl.1.isOk = true then
              (if d.1.isOk = true then
                ((if s1.1.isOk = true then en.1 else s1.1), en.2)
              else (d.1, d.2))
            else (fl.1, fl.2)).2
          obtain ⟨tsp, hevp, hap⟩ := hfl2
          obtain ⟨hcp, hdp⟩ := countEnable_of_noDFD hap
          obtain ⟨tse, heve, hae⟩ := hs1
          obtain ⟨hce, hde⟩ := countEnable_of_noDFD hae
          split
          · split
            · rename_i hok
              refine ⟨tsp ++ ([Ev.prim Op.disableFileDeletions
                  (faultOr fl.2 Op.disableFileDeletions Status.ok)] ++ tse ++
                  [Ev.prim Op.enableFileDeletions
                    (faultOr s1.2 Op.enableFileDeletions Status.ok)]), ?_, ?_⟩
              · rw [henv, heve, hdev, hevp]
                simp [List.append_assoc]
              · rw [countEnable_append, countEnable_append, countEnable_append,
                  hasDisableOk_append, hasDisableOk_append, hasDisableOk_append,
                  hce, hde, hcp, hdp]
                have hdok : isDisableOkEv (Ev.prim Op.disableFileDeletions
                    (faultOr fl.2 Op.disableFileDeletions Status.ok)) = true := by
                  simpa [isDisableOkEv, opDisableFileDeletions] using hok
                simp [countEnable, hasDisableOk, isEnableEv, hdok]
            · rename_i hnok
              refine ⟨tsp ++ [Ev.prim Op.disableFileDeletions
                  (faultOr fl.2 Op.disableFileDeletions Status.ok)], ?_, ?_⟩
              · rw [hdev, hevp]
                simp [List.append_assoc]
              · rw [countEnable_append, hasDisableOk_append, hcp, hdp]
                have hdok : isDisableOkEv (Ev.prim Op.disableFileDeletions
                    (faultOr fl.2 Op.disableFileDeletions Status.ok)) = false := by
                  simp only [isDisableOkEv]
                  simpa [opDisableFileDeletions] using hnok
                simp [countEnable, hasDisableOk, isEnableEv, hdok]
          · exact dfdOk_of_noDFD ⟨tsp, hevp, hap⟩
        have hnf : NoDFDTail ex.2 f.2 := by
          show NoDFDTail ex.2
            (if n.1.isOk = true then opFsyncDir dir n.2 else (n.1, n.2)).2
          have hrn : NoDFDTail ex.2 n.2 :=
            noDFDTail_trans ⟨_, opRenameFile_events tmpExportDir dir ex.2, rfl⟩
              ⟨_, opNewDirectory_events dir r.2, rfl⟩
          split
          · exact noDFDTail_trans hrn ⟨_, opFsyncDir_events dir n.2, rfl⟩
          · exact hrn
        have hmv2 : DfdOkTail w mv.2.2 := by
          show DfdOkTail w
            (if ex.1.isOk = true then
              (if r.1.isOk = true then (f.1, true, f.2) else (r.1, false, r.2))
            else (ex.1, false, ex.2)).2.2
          split
          · split
            · exact dfdOk_trans_noDFD_right hex2 hnf
            · exact dfdOk_trans_noDFD_right hex2
                ⟨_, opRenameFile_events tmpExportDir dir ex.2, rfl⟩
          · exact hex2
        split
        · exact hmv2
        · exact dfdOk_trans_noDFD_right hmv2 (noDFDTail_trans (noDFDTail_trans
            ⟨_, opGetChildren_events cleanupDir mv.2.2, rfl⟩
            (hfold cleanupDir g.2.1 g.2.2))
            ⟨_, opDeleteDir_events cleanupDir w1, rfl⟩)

theorem evTailP_refl (P : Ev → Bool) (w : World) : EvTailP P w w := ⟨[], by simp, rfl⟩

theorem evTailP_trans {P : Ev → Bool} {w w1 w2 : World} (h1 : EvTailP P w w1)
    (h2 : EvTailP P w1 w2) : EvTailP P w w2 := by
  obtain ⟨ts1, hev1, ha1⟩ := h1
  obtain ⟨ts2, hev2, ha2⟩ := h2
  refine ⟨ts1 ++ ts2, ?_, ?_⟩
  · rw [hev2, hev1, List.append_assoc]
  · simp only [List.all_append, ha1, ha2, Bool.and_self]

theorem evTailP_of_evolvesP {Q : String → Prop} {P : Ev → Bool} {w w2 : World}
    (h : EvolvesP Q P w w2) : EvTailP P w w2 := by
  obtain ⟨_, _, _, _, _, ts, hts, hall⟩ := h
  exact ⟨ts, hts, hall⟩

theorem opDeleteFile_events (p : String) (w : World) :
    (opDeleteFile p w).2.events = w.events ++
      [Ev.prim (Op.deleteFile p) (faultOr w (Op.deleteFile p) Status.ok)] := by
  simp only [opDeleteFile, World.logEv]
  split <;> rfl

theorem deleteFold_persist (vld vwd : String) (p : String) :
    ∀ (cs : List String) (w : World),
      EvTailP (persistVals vld vwd) w
        (cs.foldl (fun w c => (opDeleteFile (p ++ "/" ++ c) w).2) w) := by
  intro cs
  induction cs with
  | nil => intro w; exact evTailP_refl _ _
  | cons c rest ih =>
    intro w
    exact evTailP_trans ⟨_, opDeleteFile_events _ _, rfl⟩ (ih _)

theorem cleanStaging_persist (vld vwd : String) (p : String) (w : World) :
    EvTailP (persistVals vld vwd) w (cleanStagingDirectory p w) := by
  simp only [cleanStagingDirectory]
  have h1 : EvTailP (persistVals vld vwd) w (opFileExists p w).2 :=
    ⟨_, rfl, rfl⟩
  split
  · exact h1
  · refine evTailP_trans (evTailP_trans (evTailP_trans h1
      ⟨_, opGetChildren_events p (opFileExists p w).2, rfl⟩) ?_)
      ⟨_, opDeleteDir_events p _, rfl⟩
    split
    · exact deleteFold_persist vld vwd p _ _
    · exact evTailP_refl _ _

theorem checkpointFinish_persist (vld vwd : String) (pcd fpp : String) (s : Status)
    (seq : Nat) (w : World) :
    EvTailP (persistVals vld vwd) w (checkpointFinish pcd fpp s seq w).2.2 := by
  simp only [checkpointFinish]
  have h1 : ∀ (r1v : Status × World), EvTailP (persistVals vld vwd) w r1v.2 →
      EvTailP (persistVals vld vwd) w ((if r1v.1.isOk = true then
          (if (opNewDirectory pcd r1v.2).1.isOk = true then
            opFsyncDir pcd (opNewDirectory pcd r1v.2).2
          else ((opNewDirectory pcd r1v.2).1, (opNewDirectory pcd r1v.2).2))
        else (r1v.1, r1v.2)) : Status × World).2 := by
    intro r1v hr1
    split
    · split
      · exact evTailP_trans hr1 (evTailP_trans
          ⟨_, opNewDirectory_events pcd r1v.2, rfl⟩ ⟨_, opFsyncDir_events pcd _, rfl⟩)
      · exact evTailP_trans hr1 ⟨_, opNewDirectory_events pcd r1v.2, rfl⟩
    · exact hr1
  have h2 : ∀ (r2v : Status × World), EvTailP (persistVals vld vwd) w r2v.2 →
      EvTailP (persistVals vld vwd) w ((if r2v.1.isOk = true then (r2v.1, some seq, r2v.2)
        else (r2v.1, none, cleanStagingDirectory fpp r2v.2)) :
          Status × Option Nat × World).2.2 := by
    intro r2v hr2
    split
    · exact hr2
    · exact evTailP_trans hr2 (cleanStaging_persist vld vwd fpp r2v.2)
  apply h2
  apply h1
  split
  · exact ⟨_, opRenameFile_events fpp pcd w, rfl⟩
  · exact evTailP_refl _ _

theorem checkpointTransferPhase_persist (db : DBModel) (fpp nwd vld vwd : String)
    (lsz : Nat) (w : World) :
    EvTailP (persistVals vld vwd) w
      (checkpointTransferPhase db fpp nwd vld vwd lsz w).2.2 := by
  simp only [checkpointTransferPhase]
  have hd : EvTailP (persistVals vld vwd) w (opDisableFileDeletions w).2 :=
    ⟨_, opDisableFileDeletions_events w, rfl⟩
  split
  · have hccc : EvTailP (persistVals vld vwd) w
        (createCustomCheckpoint db (ckptLinkCb db fpp nwd)
          (ckptCopyCb db fpp nwd vld vwd) (ckptCreateCb fpp) lsz false
          (opDisableFileDeletions w).2).2.2 :=
      evTailP_trans hd (evTailP_of_evolvesP
        (createCustomCheckpoint_evolvesP (Q := fun _ => True) db _ _ _ lsz false
          (ckptLinkCb_evolvesP db fpp nwd (fun _ => trivial) (fun _ => trivial)
            (fun _ _ _ => rfl))
          (ckptCopyCb_evolvesP db fpp nwd vld vwd (fun _ => trivial) (fun _ => trivial)
            (fun _ _ _ _ => rfl) (fun _ _ => rfl)
            (fun p st => by simp [persistVals]))
          (ckptCreateCb_evolvesP fpp (fun _ => trivial) (fun _ _ _ => rfl))
          (fun _ _ _ _ => rfl) (fun _ _ _ _ _ _ _ => rfl) (fun _ _ _ _ => rfl)
          (fun _ _ => rfl) (fun _ _ _ => rfl) (fun _ => rfl) (fun _ _ _ => rfl) _))
    split
    · exact evTailP_trans hccc ⟨_, opEnableFileDeletions_events _, rfl⟩
    · exact hccc
  · exact hd

/-- Every options rewrite performed by CreateCheckpoint carries exactly the
resolved db_log_dir and wal_dir option values. -/
theorem createCheckpoint_persist (db : DBModel) (dir : String) (lsz : Nat)
    (ldir wdir : String) :
    ∀ w, EvTailP (persistVals
        (resolvedLogDirValue db.name (stripTrailingSlashes dir)
          (stripTrailingSlashes ldir))
        (resolvedWalInfo db.name (stripTrailingSlashes dir)
          (stripTrailingSlashes dir ++ ".tmp") (stripTrailingSlashes wdir)).1)
      w (createCheckpoint db dir lsz ldir wdir w).2.2 := by
  intro w
  set vld := resolvedLogDirValue db.name (stripTrailingSlashes dir)
    (stripTrailingSlashes ldir) with hvld
  set vwd := (resolvedWalInfo db.name (stripTrailingSlashes dir)
    (stripTrailingSlashes dir ++ ".tmp") (stripTrailingSlashes wdir)).1 with hvwd
  simp only [createCheckpoint]
  have he : EvTailP (persistVals vld vwd) w (opFileExists dir w).2 := ⟨_, rfl, rfl⟩
  split
  · exact he
  · split
    · exact he
    · split
      · exact he
      · have hcd : EvTailP (persistVals vld vwd) w
            (opCreateDir (stripTrailingSlashes dir ++ ".tmp")
              (cleanStagingDirectory (stripTrailingSlashes dir ++ ".tmp")
                (opFileExists dir w).2)).2 :=
          evTailP_trans (evTailP_trans he
            (cleanStaging_persist vld vwd _ _))
            (evTailP_of_evolvesP
              (opCreateDir_evolvesP (Q := fun _ => True) _ _ trivial (fun _ => rfl)))
        have hgb : ∀ (p : String) (cv : Status × World),
            EvTailP (persistVals vld vwd) w cv.2 →
            EvTailP (persistVals vld vwd) w (opFileExists p cv.2).2 := by
          intro p cv hcv
          exact evTailP_trans hcv ⟨_, rfl, rfl⟩
        have hga : ∀ (p : String) (cv : Status × World),
            EvTailP (persistVals vld vwd) w cv.2 →
            EvTailP (persistVals vld vwd) w (opCreateDir p (opFileExists p cv.2).2).2 := by
          intro p cv hcv
          exact evTailP_trans (hgb p cv hcv) (evTailP_of_evolvesP
            (opCreateDir_evolvesP (Q := fun _ => True) _ _ trivial (fun _ => rfl)))
        have hfin : ∀ (s : Status) (seq : Nat) (w2 : World),
            EvTailP (persistVals vld vwd) w w2 →
            EvTailP (persistVals vld vwd) w
              (checkpointFinish (stripTrailingSlashes dir)
                (stripTrailingSlashes dir ++ ".tmp") s seq w2).2.2 := by
          intro s seq w2 T
          exact evTailP_trans T (checkpointFinish_persist vld vwd _ _ s seq w2)
        have hphase : ∀ (pv : Status × World),
            EvTailP (persistVals vld vwd) w pv.2 →
            EvTailP (persistVals vld vwd) w
              (checkpointFinish (stripTrailingSlashes dir)
                (stripTrailingSlashes dir ++ ".tmp")
                (checkpointTransferPhase db (stripTrailingSlashes dir ++ ".tmp")
                  (resolvedWalInfo db.name (stripTrailingSlashes dir)
                    (stripTrailingSlashes dir ++ ".tmp") (stripTrailingSlashes wdir)).2
                  vld vwd lsz pv.2).1
                (checkpointTransferPhase db (stripTrailingSlashes dir ++ ".tmp")
                  (resolvedWalInfo db.name (stripTrailingSlashes dir)
                    (stripTrailingSlashes dir ++ ".tmp") (stripTrailingSlashes wdir)).2
                  vld vwd lsz pv.2).2.1
                (checkpointTransferPhase db (stripTrailingSlashes dir ++ ".tmp")
                  (resolvedWalInfo db.name (stripTrailingSlashes dir)
                    (stripTrailingSlashes dir ++ ".tmp") (stripTrailingSlashes wdir)).2
                  vld vwd lsz pv.2).2.2).2.2 := by
          intro pv hpv
          refine hfin _ _ _ ?_
          exact evTailP_trans hpv
            (checkpointTransferPhase_persist db (stripTrailingSlashes dir ++ ".tmp")
              (resolvedWalInfo db.name (stripTrailingSlashes dir)
                (stripTrailingSlashes dir ++ ".tmp") (stripTrailingSlashes wdir)).2
              vld vwd lsz pv.2)
        split
        · split
          · exact hfin _ _ _ hcd
          · exact hphase _ hcd
        · split
          · split
            · exact hfin _ _ _ (hga _ _ hcd)
            · exact hphase _ (hga _ _ hcd)
          · split
            · exact hfin _ _ _ (hgb _ _ hcd)
            · exact hphase _ (hgb _ _ hcd)

/-- C2 counterexample: with only the second exported table file's hard
link failing as unsupported, ExportColumnFamily returns NotSupported and
assigns no metadata instead of falling back to copy. -/
theorem export_later_file_ns_counterexample :
    (exportColumnFamily dbStd "/exp" wLinkTwoNS).1 = Status.notSupported "" ∧
    (exportColumnFamily dbStd "/exp" wLinkTwoNS).2.1 = none := by
  constructor <;> decide

/-- C2 (amended): the copy fallback in ExportFilesInMetaData fires only
for the very first file: when every hard-link attempt reports
NotSupported (so in particular the first one does), every listed table
file is copied and the export succeeds with one metadata record per
file; a NotSupported link failure on any later file instead aborts the
call (see the counterexample). -/
theorem export_firstFile_fallback (db : DBModel) (exportDir : String) (w : World)
    (hfs : exportDir ∉ w.fs)
    (hstrip : ¬ stripTrailingSlashes exportDir = "")
    (hparse : ∀ fm ∈ allExportFiles db.cfMeta.levels, ∃ nt, w.parseFileName fm.name = some nt)
    (hlinkNS : ∀ src dst, w.faults (Op.linkFile src dst) = some (Status.notSupported ""))
    (hother : ∀ op, (∀ s d, op ≠ Op.linkFile s d) → w.faults op = none)
    (hlv : db.cfMeta.levels.isEmpty = false) :
    (exportColumnFamily db exportDir w).1 = Status.ok ∧
    (exportColumnFamily db exportDir w).2.1 =
      some { dbComparatorName := db.comparatorName,
             files := specExportRecords exportDir db.cfMeta.levels } ∧
    ∀ fm ∈ allExportFiles db.cfMeta.levels,
      Ev.copyReq2 db.name fm.name Status.ok ∈ (exportColumnFamily db exportDir w).2.2.events := by
  have hnl : ∀ (op : Op), (∀ s d, op ≠ Op.linkFile s d) → w.faults op = none := hother
  obtain ⟨w1, hw1f, hw1p, hok, hmeta, hpre⟩ := exportColumnFamily_run db exportDir w
    hfs hstrip
    (hnl _ (fun s d h => Op.noConfusion h)) (hnl _ (fun s d h => Op.noConfusion h))
    (hnl _ (fun s d h => Op.noConfusion h)) (hnl _ (fun s d h => Op.noConfusion h))
    (hnl _ (fun s d h => Op.noConfusion h)) (hnl _ (fun s d h => Op.noConfusion h))
    (hnl _ (fun s d h => Op.noConfusion h)) (hnl _ (fun s d h => Op.noConfusion h))
    (fun w2 hf hp => by
      obtain ⟨a, b, _⟩ := exportFilesInMetaData_NS db (stripTrailingSlashes exportDir ++ ".tmp")
        db.cfMeta w2
        (fun fm h => by rw [hp]; exact hparse fm h)
        (fun src dst => by rw [hf]; exact hlinkNS src dst)
        (fun src dst l => by rw [hf]; exact hnl _ (fun s d h => Op.noConfusion h))
      exact ⟨a, b⟩)
  refine ⟨hok, by rw [hmeta, hlv]; rfl, ?_⟩
  obtain ⟨_, _, hmem⟩ := exportFilesInMetaData_NS db (stripTrailingSlashes exportDir ++ ".tmp")
    db.cfMeta w1
    (fun fm h => by rw [hw1p]; exact hparse fm h)
    (fun src dst => by rw [hw1f]; exact hlinkNS src dst)
    (fun src dst l => by rw [hw1f]; exact hnl _ (fun s d h => Op.noConfusion h))
  intro fm h
  exact hpre.subset (hmem fm h)

/-- Witness for the amended C2 at concrete inputs: both table files of the
column family end up copied and the export succeeds with both records. -/
theorem export_firstFile_fallback_witness :
    (exportColumnFamily dbStd "/exp" wAllLinksNS).1 = Status.ok ∧
    (exportColumnFamily dbStd "/exp" wAllLinksNS).2.1 =
      some { dbComparatorName := dbStd.comparatorName,
             files := specExportRecords "/exp" dbStd.cfMeta.levels } ∧
    Ev.copyReq2 dbStd.name sstOne.name Status.ok ∈
      (exportColumnFamily dbStd "/exp" wAllLinksNS).2.2.events ∧
    Ev.copyReq2 dbStd.name sstTwo.name Status.ok ∈
      (exportColumnFamily dbStd "/exp" wAllLinksNS).2.2.events := by
  have h := export_firstFile_fallback dbStd "/exp" wAllLinksNS
    (by decide) (by decide)
    (by
      intro fm hm
      simp [allExportFiles, dbStd] at hm
      rcases hm with rfl | rfl
      · exact ⟨(1, FileType.table), rfl⟩
      · exact ⟨(2, FileType.table), rfl⟩)
    (fun src dst => rfl)
    (by intro op hne; cases op <;> first | rfl | exact absurd rfl (hne _ _))
    (by decide)
  exact ⟨h.1, h.2.1,
    h.2.2 sstOne (by simp [allExportFiles, dbStd]),
    h.2.2 sstTwo (by simp [allExportFiles, dbStd])⟩

/-- C10: on a successful fault-free ExportColumnFamily call the metadata
out-parameter is written iff the captured column-family metadata has at
least one level; when written it holds the comparator name and one record
per table file across all levels with the captured attributes. -/
theorem export_metadata_assignment (db : DBModel) (exportDir : String) (w : World)
    (hfs : exportDir ∉ w.fs)
    (hstrip : ¬ stripTrailingSlashes exportDir = "")
    (hparse : ∀ fm ∈ allExportFiles db.cfMeta.levels, ∃ nt, w.parseFileName fm.name = some nt)
    (hnf : NoFaults w) :
    (exportColumnFamily db exportDir w).1 = Status.ok ∧
    (exportColumnFamily db exportDir w).2.1 =
      (if db.cfMeta.levels.isEmpty then none
       else some { dbComparatorName := db.comparatorName,
                   files := specExportRecords exportDir db.cfMeta.levels }) := by
  obtain ⟨w1, _, _, hok, hmeta, _⟩ := exportColumnFamily_run db exportDir w hfs hstrip
    (hnf _) (hnf _) (hnf _) (hnf _) (hnf _) (hnf _) (hnf _) (hnf _)
    (fun w2 hf hp => by
      have hn2 : NoFaults w2 := fun op => by rw [hf]; exact hnf op
      exact exportFilesInMetaData_benign db _ db.cfMeta w2
        (fun fm h => by rw [hp]; exact hparse fm h) hn2)
  exact ⟨hok, hmeta⟩

/-- Witness for C10 at concrete inputs: a one-level column family gets
its metadata assigned, an empty one leaves the out-parameter unassigned,
both with success. -/
theorem export_metadata_assignment_witness :
    ((exportColumnFamily dbStd "/exp" wBenign).1 = Status.ok ∧
     (exportColumnFamily dbStd "/exp" wBenign).2.1 =
       some { dbComparatorName := dbStd.comparatorName,
              files := specExportRecords "/exp" dbStd.cfMeta.levels }) ∧
    ((exportColumnFamily dbMini "/exp" wBenign).1 = Status.ok ∧
     (exportColumnFamily dbMini "/exp" wBenign).2.1 = none) := by
  have h1 := export_metadata_assignment dbStd "/exp" wBenign (by decide) (by decide)
    (by
      intro fm hm
      simp [allExportFiles, dbStd] at hm
      rcases hm with rfl | rfl
      · exact ⟨(1, FileType.table), rfl⟩
      · exact ⟨(2, FileType.table), rfl⟩)
    (fun op => rfl)
  have h2 := export_metadata_assignment dbMini "/exp" wBenign (by decide) (by decide)
    (by intro fm hm; simp [allExportFiles, dbMini] at hm)
    (fun op => rfl)
  exact ⟨⟨h1.1, by rw [h1.2]; rfl⟩, ⟨h2.1, by rw [h2.2]; rfl⟩⟩


/-- C3: within one CreateCheckpoint call, after any hard-link invocation
returns NotSupported no further link invocation occurs in the transfer
trace (the shared same-filesystem flag is cleared for the remainder of
the call), and every NotSupported link invocation is immediately followed
by the copy invocation of the same file (the failure is absorbed by the
fallback). -/
theorem checkpoint_link_fallback_discipline (db : DBModel) (dir : String)
    (lsz : Nat) (ldir wdir : String) (w : World) (hw : w.events = []) :
    linkTailOk (transferEvs (createCheckpoint db dir lsz ldir wdir w).2.2.events) = true ∧
    linkFallbackOk (transferEvs (createCheckpoint db dir lsz ldir wdir w).2.2.events) =
      true := by
  obtain ⟨bo, ts, hev, hfb, htl, _, _⟩ := createCheckpoint_traceTail db dir lsz ldir wdir w
  rw [hev, hw, List.nil_append]
  exact ⟨htl, hfb⟩

/-- Witness for C3 at concrete inputs: the hard link of table file 3 is
unsupported, the call still succeeds, the transfer trace contains that
NotSupported link invocation, and the discipline holds. -/
theorem checkpoint_link_fallback_discipline_witness :
    (createCheckpoint dbStd "/snap" kMaxUInt64 "" "" wLinkSstNS).1 = Status.ok ∧
    hasNSLinkEv (transferEvs
      (createCheckpoint dbStd "/snap" kMaxUInt64 "" "" wLinkSstNS).2.2.events) = true ∧
    linkTailOk (transferEvs
      (createCheckpoint dbStd "/snap" kMaxUInt64 "" "" wLinkSstNS).2.2.events) = true ∧
    linkFallbackOk (transferEvs
      (createCheckpoint dbStd "/snap" kMaxUInt64 "" "" wLinkSstNS).2.2.events) = true := by
  have h := checkpoint_link_fallback_discipline dbStd "/snap" kMaxUInt64 "" "" wLinkSstNS rfl
  exact ⟨by decide, by decide, h.1, h.2⟩


/-- C6: in CreateCheckpoint and in ExportColumnFamily, EnableFileDeletions
is invoked exactly once when DisableFileDeletions succeeded and never
otherwise, on every path including failure paths. -/
theorem enable_matches_disable (db : DBModel) (dir expDir : String) (lsz : Nat)
    (ldir wdir : String) (w w2 : World) (hw : w.events = []) (hw2 : w2.events = []) :
    countEnable (createCheckpoint db dir lsz ldir wdir w).2.2.events =
      (if hasDisableOk (createCheckpoint db dir lsz ldir wdir w).2.2.events = true
       then 1 else 0) ∧
    countEnable (exportColumnFamily db expDir w2).2.2.events =
      (if hasDisableOk (exportColumnFamily db expDir w2).2.2.events = true
       then 1 else 0) := by
  obtain ⟨ts1, hev1, hc1⟩ := createCheckpoint_dfd db dir lsz ldir wdir w
  obtain ⟨ts2, hev2, hc2⟩ := exportColumnFamily_dfd db expDir w2
  rw [hev1, hev2, hw, hw2, List.nil_append, List.nil_append]
  exact ⟨hc1, hc2⟩

/-- Witness for C6 at concrete inputs: a checkpoint run whose directory
fsync fails after the rename (a failure path) still invokes
EnableFileDeletions exactly once after its successful disable, and so
does a successful export run. -/
theorem enable_matches_disable_witness :
    countEnable (createCheckpoint dbStd "/snap" kMaxUInt64 "" ""
      wFsyncFails).2.2.events =
      (if hasDisableOk (createCheckpoint dbStd "/snap" kMaxUInt64 "" ""
        wFsyncFails).2.2.events = true then 1 else 0) ∧
    hasDisableOk (createCheckpoint dbStd "/snap" kMaxUInt64 "" ""
      wFsyncFails).2.2.events = true ∧
    (createCheckpoint dbStd "/snap" kMaxUInt64 "" "" wFsyncFails).1.isOk = false ∧
    countEnable (exportColumnFamily dbStd "/exp" wBenign).2.2.events =
      (if hasDisableOk (exportColumnFamily dbStd "/exp" wBenign).2.2.events = true
       then 1 else 0) ∧
    hasDisableOk (exportColumnFamily dbStd "/exp" wBenign).2.2.events = true := by
  have h := enable_matches_disable dbStd "/snap" "/exp" kMaxUInt64 "" ""
    wFsyncFails wBenign rfl rfl
  exact ⟨h.1, by decide, by decide, h.2, by decide⟩


/-- C9 counterexample: a wal-dir override equal to the source database's
own directory is recorded in the rewritten options file as the checkpoint
directory, not as empty. -/
theorem walDirValue_counterexample :
    Ev.prim (Op.persistOptions "/snap.tmp/OPTIONS-5" "" "/snap") Status.ok ∈
      (createCheckpoint dbOptionsOnly "/snap" kMaxUInt64 "" "/db" wBenign).2.2.events ∧
    (resolvedWalInfo dbOptionsOnly.name "/snap" "/snap.tmp"
      (stripTrailingSlashes "/db")).1 = "/snap" ∧
    ¬ (resolvedWalInfo dbOptionsOnly.name "/snap" "/snap.tmp"
      (stripTrailingSlashes "/db")).1 = "" := by
  refine ⟨by decide, by decide, by decide⟩

/-- C9 (amended): a db_log_dir override equal to the source db directory
or the target is recorded empty; a wal_dir override that is empty or
equals the source db directory or the target records the checkpoint
directory itself as the option value (not empty) and routes WAL files
into the staging directory; an external override not nested under the
target is preserved as-is and WAL files go directly there; and every
options rewrite performed by the call persists exactly these resolved
values. -/
theorem walDir_logDir_resolution (db : DBModel) (dir ldir wdir : String)
    (lsz : Nat) (w : World) (hw : w.events = []) :
    ((stripTrailingSlashes ldir = db.name ∨
        stripTrailingSlashes ldir = stripTrailingSlashes dir) →
      resolvedLogDirValue db.name (stripTrailingSlashes dir)
        (stripTrailingSlashes ldir) = "") ∧
    ((stripTrailingSlashes wdir = "" ∨ stripTrailingSlashes wdir = db.name ∨
        stripTrailingSlashes wdir = stripTrailingSlashes dir) →
      resolvedWalInfo db.name (stripTrailingSlashes dir)
        (stripTrailingSlashes dir ++ ".tmp") (stripTrailingSlashes wdir) =
        (stripTrailingSlashes dir, stripTrailingSlashes dir ++ ".tmp")) ∧
    (¬ (stripTrailingSlashes wdir = "" ∨ stripTrailingSlashes wdir = db.name ∨
        stripTrailingSlashes wdir = stripTrailingSlashes dir) →
      strStartsWith (stripTrailingSlashes wdir)
        (stripTrailingSlashes dir ++ "/") = false →
      resolvedWalInfo db.name (stripTrailingSlashes dir)
        (stripTrailingSlashes dir ++ ".tmp") (stripTrailingSlashes wdir) =
        (stripTrailingSlashes wdir, stripTrailingSlashes wdir)) ∧
    (∀ p ld vw st, Ev.prim (Op.persistOptions p ld vw) st ∈
        (createCheckpoint db dir lsz ldir wdir w).2.2.events →
      ld = resolvedLogDirValue db.name (stripTrailingSlashes dir)
        (stripTrailingSlashes ldir) ∧
      vw = (resolvedWalInfo db.name (stripTrailingSlashes dir)
        (stripTrailingSlashes dir ++ ".tmp") (stripTrailingSlashes wdir)).1) := by
  refine ⟨?_, ?_, ?_, ?_⟩
  · intro h
    unfold resolvedLogDirValue
    rw [if_pos h]
  · intro h
    unfold resolvedWalInfo
    rw [if_pos h]
  · intro h hns
    unfold resolvedWalInfo
    rw [if_neg h]
    simp [hns]
  · intro p ld vw st hm
    obtain ⟨ts, hev, hall⟩ := createCheckpoint_persist db dir lsz ldir wdir w
    rw [hev, hw, List.nil_append] at hm
    have h2 := List.all_eq_true.mp hall _ hm
    simpa [persistVals] using h2

/-- Witness for the amended C9 at concrete inputs: an external wal-dir
override "/wals" is preserved as-is and used directly, and the options
rewrite of the run persists exactly ("", "/wals"). -/
theorem walDir_logDir_resolution_witness :
    resolvedWalInfo dbStd.name "/snap" "/snap.tmp" (stripTrailingSlashes "/wals") =
      ("/wals", "/wals") ∧
    ("" = resolvedLogDirValue dbStd.name (stripTrailingSlashes "/snap")
        (stripTrailingSlashes "") ∧
     "/wals" = (resolvedWalInfo dbStd.name (stripTrailingSlashes "/snap")
        (stripTrailingSlashes "/snap" ++ ".tmp") (stripTrailingSlashes "/wals")).1) ∧
    Ev.prim (Op.copyFile "/db/000006.log" "/wals/000006.log" 50) Status.ok ∈
      (createCheckpoint dbStd "/snap" kMaxUInt64 "" "/wals" wBenign).2.2.events := by
  have h := walDir_logDir_resolution dbStd "/snap" "" "/wals" kMaxUInt64 wBenign rfl
  refine ⟨?_, ?_, by decide⟩
  · have h3 := h.2.2.1 (by decide) (by decide)
    simpa using h3
  · exact h.2.2.2 "/snap.tmp/OPTIONS-5" "" "/wals" Status.ok (by decide)

end Ckpt

namespace Ckpt

theorem ckptLinkCb_benign (db : DBModel) (full nwd d f : String) (t : FileType)
    (w : World) (hnf : NoFaults w) :
    (ckptLinkCb db full nwd d f t w).1 = Status.ok := by
  have hnf2 : ∀ op, w.faults op = none := hnf
  simp [ckptLinkCb, opLinkFile, faultOr, hnf2]

theorem ckptCopyCb_benign (db : DBModel) (full nwd vld vwd d f : String) (l : Nat)
    (t : FileType) (cn cv : String) (w : World) (hnf : NoFaults w) :
    (ckptCopyCb db full nwd vld vwd d f l t cn cv w).1 = Status.ok := by
  have hnf2 : ∀ op, w.faults op = none := hnf
  simp only [ckptCopyCb]
  split
  · simp [copyOptionsFile, opLoadOptionsFromFile, opPersistOptions, World.logEv,
      faultOr, hnf2, Status.isOk]
  · simp [opCopyFile, faultOr, hnf2]

theorem ckptCreateCb_benign (db : DBModel) (full f c : String) (t : FileType)
    (w : World) (hnf : NoFaults w) :
    (ckptCreateCb full f c t w).1 = Status.ok := by
  have hnf2 : ∀ op, w.faults op = none := hnf
  simp [ckptCreateCb, opCreateFile, faultOr, hnf2]

theorem callCopy_noFaults {copyCb : CopyCb}
    (hcb : ∀ d f l t cn cv w, EvolvesP (fun _ => True) (fun _ => true) w
      (copyCb d f l t cn cv w).2)
    (d f : String) (l : Nat) (t : FileType) (cn cv : String) (w : World)
    (hnf : NoFaults w) : NoFaults (callCopy copyCb d f l t cn cv w).2 :=
  noFaults_of_evolvesP (callCopy_evolvesP (hcb d f l t cn cv w) (fun _ => rfl)) hnf

/-- The benign characterization of the first live-files loop with the
checkpoint copy callback: it succeeds, records the last seen current and
descriptor file names, and its transfer trace is exactly one copy per
non-table, non-blob, non-current live file with the manifest capped at
the given manifest size and everything else uncapped. -/
theorem liveFilesPass_benign (db : DBModel) (full nwd vld vwd : String)
    (parse : String → Option (Nat × FileType)) (msize : Nat) :
    ∀ (files : List String) (mf cf : String)
      (acc : List (String × Nat × FileType)) (w : World),
      NoFaults w →
      (∀ f ∈ files, ∃ nt, parse f = some nt) →
      (liveFilesPass parse db.name (ckptCopyCb db full nwd vld vwd) msize files
        Status.ok mf cf acc w).1 = Status.ok ∧
      (liveFilesPass parse db.name (ckptCopyCb db full nwd vld vwd) msize files
        Status.ok mf cf acc w).2.1 = lastOfType parse FileType.descriptor files mf ∧
      (liveFilesPass parse db.name (ckptCopyCb db full nwd vld vwd) msize files
        Status.ok mf cf acc w).2.2.1 = lastOfType parse FileType.current files cf ∧
      NoFaults (liveFilesPass parse db.name (ckptCopyCb db full nwd vld vwd) msize files
        Status.ok mf cf acc w).2.2.2.2 ∧
      ∃ ts, (liveFilesPass parse db.name (ckptCopyCb db full nwd vld vwd) msize files
          Status.ok mf cf acc w).2.2.2.2.events = w.events ++ ts ∧
        transferEvs ts = expectedLiveCopyEvs parse db.name msize files := by
  intro files
  induction files with
  | nil =>
    intro mf cf acc w hnf _
    exact ⟨rfl, rfl, rfl, hnf, ⟨[], by simp [liveFilesPass], by simp [expectedLiveCopyEvs, transferEvs]⟩⟩
  | cons f rest ih =>
    intro mf cf acc w hnf hparse
    obtain ⟨⟨number, t⟩, hp⟩ := hparse f (by simp)
    have hparseRest : ∀ g ∈ rest, ∃ nt, parse g = some nt :=
      fun g hg => hparse g (by simp [hg])
    simp only [liveFilesPass]
    split
    · rename_i hbad
      simp [Status.isOk] at hbad
    · rw [hp]
      simp only [lastOfType, expectedLiveCopyEvs, hp]
      split
      · -- current-file marker
        rename_i hcur
        subst hcur
        have h2 := ih mf f acc w hnf hparseRest
        simp only [if_pos rfl] at h2 ⊢
        refine ⟨h2.1, ?_, h2.2.2.1, h2.2.2.2.1, ?_⟩
        · rw [h2.2.1]
          rfl
        · exact h2.2.2.2.2
      · rename_i hncur
        split
        · -- non-table, non-blob: copied right here
          rename_i hcopy
          have hst : (callCopy (ckptCopyCb db full nwd vld vwd) db.name f
              (if t = FileType.descriptor then msize else 0) t
              kUnknownFileChecksumFuncName kUnknownFileChecksum w).1 = Status.ok := by
            simpa [callCopy] using
              ckptCopyCb_benign db full nwd vld vwd db.name f
                (if t = FileType.descriptor then msize else 0) t
                kUnknownFileChecksumFuncName kUnknownFileChecksum w hnf
          have hnf2 : NoFaults (callCopy (ckptCopyCb db full nwd vld vwd) db.name f
              (if t = FileType.descriptor then msize else 0) t
              kUnknownFileChecksumFuncName kUnknownFileChecksum w).2 :=
            callCopy_noFaults (ckptCopyCb_extends db full nwd vld vwd) _ _ _ _ _ _ _ hnf
          obtain ⟨tsc, hevc, htrc⟩ := callCopy_transfer
            (ckptCopyCb_primOnly db full nwd vld vwd) db.name f
            (if t = FileType.descriptor then msize else 0) t
            kUnknownFileChecksumFuncName kUnknownFileChecksum w
          rw [hst]
          have h2 := ih (if t = FileType.descriptor then f else mf) cf acc _ hnf2
            hparseRest
          refine ⟨h2.1, by rw [h2.2.1], by rw [h2.2.2.1], h2.2.2.2.1, ?_⟩
          obtain ⟨tsr, hevr, htrr⟩ := h2.2.2.2.2
          refine ⟨tsc ++ tsr, ?_, ?_⟩
          · rw [hevr, hevc, List.append_assoc]
          · rw [transferEvs_append, htrc, htrr, hst]
            rfl
        · -- table or blob: deferred
          rename_i hdef
          have h2 := ih (if t = FileType.descriptor then f else mf) cf
            (acc ++ [(f, number, t)]) w hnf hparseRest
          refine ⟨h2.1, by rw [h2.2.1], by rw [h2.2.2.1], h2.2.2.2.1, ?_⟩
          obtain ⟨tsr, hevr, htrr⟩ := h2.2.2.2.2
          exact ⟨tsr, hevr, htrr⟩

end Ckpt

namespace Ckpt

theorem callLink_noFaults {linkCb : LinkCb}
    (hcb : ∀ d f t w, EvolvesP (fun _ => True) (fun _ => true) w (linkCb d f t w).2)
    (d f : String) (t : FileType) (w : World) (hnf : NoFaults w) :
    NoFaults (callLink linkCb d f t w).2 :=
  noFaults_of_evolvesP (callLink_evolvesP (hcb d f t w) (fun _ => rfl)) hnf

theorem callCreate_noFaults {createCb : CreateCb}
    (hcb : ∀ f c t w, EvolvesP (fun _ => True) (fun _ => true) w (createCb f c t w).2)
    (f c : String) (t : FileType) (w : World) (hnf : NoFaults w) :
    NoFaults (callCreate createCb f c t w).2 :=
  noFaults_of_evolvesP (callCreate_evolvesP (hcb f c t w) (fun _ => rfl)) hnf

theorem tableBlobPass_benign (db : DBModel) (full nwd vld vwd : String) (gc : Bool)
    (cks : Nat → Option (String × String)) :
    ∀ files (b : Bool) (w : World), NoFaults w →
      (tableBlobPass db.name (ckptLinkCb db full nwd) (ckptCopyCb db full nwd vld vwd)
        gc cks files b Status.ok w).1 = Status.ok ∧
      NoFaults (tableBlobPass db.name (ckptLinkCb db full nwd)
        (ckptCopyCb db full nwd vld vwd) gc cks files b Status.ok w).2.2 := by
  intro files
  induction files with
  | nil =>
    intro b w hnf
    exact ⟨rfl, hnf⟩
  | cons fh rest ih =>
    obtain ⟨fname, number, t⟩ := fh
    intro b w hnf
    simp only [tableBlobPass]
    split
    · rename_i hbad
      simp [Status.isOk] at hbad
    · have hl : (callLink (ckptLinkCb db full nwd) db.name fname t w).1 = Status.ok := by
        simpa [callLink] using ckptLinkCb_benign db full nwd db.name fname t w hnf
      have hlw : NoFaults (callLink (ckptLinkCb db full nwd) db.name fname t w).2 :=
        callLink_noFaults (ckptLinkCb_extends db full nwd) db.name fname t w hnf
      split
      · -- same-filesystem flag set: link attempted and succeeds
        rw [hl]
        simp only [Status.isNotSupported]
        rename_i hb
        simp only [if_false, Bool.false_eq_true, not_true, ite_false, hb]
        exact ih true _ hlw
      · -- flag already false: plain copy
        have hstep : ∀ (cs : String × String),
            (tableBlobPass db.name (ckptLinkCb db full nwd)
              (ckptCopyCb db full nwd vld vwd) gc cks rest (Status.ok, b, w).2.1
              (callCopy (ckptCopyCb db full nwd vld vwd) db.name fname 0 t
                cs.1 cs.2 (Status.ok, b, w).2.2).1
              (callCopy (ckptCopyCb db full nwd vld vwd) db.name fname 0 t
                cs.1 cs.2 (Status.ok, b, w).2.2).2).1 = Status.ok ∧
            NoFaults ((tableBlobPass db.name (ckptLinkCb db full nwd)
              (ckptCopyCb db full nwd vld vwd) gc cks rest (Status.ok, b, w).2.1
              (callCopy (ckptCopyCb db full nwd vld vwd) db.name fname 0 t
                cs.1 cs.2 (Status.ok, b, w).2.2).1
              (callCopy (ckptCopyCb db full nwd vld vwd) db.name fname 0 t
                cs.1 cs.2 (Status.ok, b, w).2.2).2).2.2) := by
          intro cs
          have hst : (callCopy (ckptCopyCb db full nwd vld vwd) db.name fname 0 t
              cs.1 cs.2 (Status.ok, b, w).2.2).1 = Status.ok := by
            simpa [callCopy] using ckptCopyCb_benign db full nwd vld vwd db.name
              fname 0 t cs.1 cs.2 w hnf
          rw [hst]
          exact ih b _ (callCopy_noFaults (ckptCopyCb_extends db full nwd vld vwd)
            _ _ _ _ _ _ _ hnf)
        exact hstep _

end Ckpt

namespace Ckpt


theorem expectedLiveCopyEvs_noCreate (parse : String → Option (Nat × FileType))
    (dbName : String) (msize : Nat) :
    ∀ files, ∀ e ∈ expectedLiveCopyEvs parse dbName msize files,
      isCreateReqEv e = false := by
  intro files
  induction files with
  | nil =>
    intro e he
    rw [expectedLiveCopyEvs] at he
    exact absurd he (List.not_mem_nil _)
  | cons f rest ih =>
    intro e he
    rw [expectedLiveCopyEvs] at he
    cases hp : parse f with
    | none =>
      rw [hp] at he
      exact absurd he (List.not_mem_nil _)
    | some nt =>
      obtain ⟨number, t⟩ := nt
      rw [hp] at he
      simp only [] at he
      by_cases hc : t = FileType.current
      · rw [if_pos hc] at he
        exact ih e he
      · rw [if_neg hc] at he
        by_cases hcb : t ≠ FileType.table ∧ t ≠ FileType.blob
        · rw [if_pos hcb] at he
          rcases List.mem_cons.mp he with rfl | h2
          · rfl
          · exact ih e h2
        · rw [if_neg hcb] at he
          exact ih e he

/-- The transfer body under no faults: the transfer trace starts with the
expected live-file copies, the CURRENT file is synthesized exactly when
both a current marker and a manifest name were seen, and no create-file
invocation happens otherwise. -/
theorem customTransferTail_c8 (db : DBModel) (full nwd vld vwd : String)
    (flush : Bool) (minLog : Nat) (liveFiles : List String) (msize : Nat)
    (walFiles : List WalFileDesc) (w : World)
    (hnf : NoFaults w)
    (hparse : ∀ f ∈ liveFiles, ∃ nt, w.parseFileName f = some nt) :
    ∃ ts, (customTransferTail db (ckptLinkCb db full nwd)
        (ckptCopyCb db full nwd vld vwd) (ckptCreateCb full) false flush minLog
        liveFiles msize walFiles w).2.events = w.events ++ ts ∧
      (∃ rest, transferEvs ts =
        expectedLiveCopyEvs w.parseFileName db.name msize liveFiles ++ rest) ∧
      ((lastOfType w.parseFileName FileType.current liveFiles "" ≠ "" ∧
        lastOfType w.parseFileName FileType.descriptor liveFiles "" ≠ "") →
        Ev.createReq (lastOfType w.parseFileName FileType.current liveFiles "")
          (strDrop (lastOfType w.parseFileName FileType.descriptor liveFiles "") 1
            ++ "\n") FileType.current Status.ok ∈ ts) ∧
      (¬ (lastOfType w.parseFileName FileType.current liveFiles "" ≠ "" ∧
          lastOfType w.parseFileName FileType.descriptor liveFiles "" ≠ "") →
        ts.all (fun e => !isCreateReqEv e) = true) := by
  obtain ⟨hlp1, hlpmf, hlpcf, hlpnf, ts1, hev1, htr1⟩ :=
    liveFilesPass_benign db full nwd vld vwd w.parseFileName msize liveFiles
      "" "" [] w hnf hparse
  have hall1 : ts1.all (fun e => !isCreateReqEv e) = true := by
    rw [List.all_eq_true]
    intro e he
    by_cases hc : isCreateReqEv e = true
    · have htr : isTransferEv e = true := by
        cases e <;> simp [isCreateReqEv, isTransferEv] at hc ⊢
      have hmem : e ∈ transferEvs ts1 := List.mem_filter.mpr ⟨he, htr⟩
      rw [htr1] at hmem
      have := expectedLiveCopyEvs_noCreate w.parseFileName db.name msize liveFiles e hmem
      rw [hc] at this
      exact absurd this (by simp)
    · simp at hc
      simp [hc]
  simp only [customTransferTail]
  rw [hlp1]
  simp only [Status.isOk, Bool.false_eq_true, and_false, if_false, false_and, ite_false]
  set LP := liveFilesPass w.parseFileName db.name (ckptCopyCb db full nwd vld vwd) msize
    liveFiles Status.ok "" "" [] w with hLP
  obtain ⟨htb1, htbnf⟩ := tableBlobPass_benign db full nwd vld vwd false
    LP.2.2.2.2.checksums LP.2.2.2.1 true LP.2.2.2.2 hlpnf
  rw [htb1]
  set TB := tableBlobPass db.name (ckptLinkCb db full nwd) (ckptCopyCb db full nwd vld vwd)
    false LP.2.2.2.2.checksums LP.2.2.2.1 true Status.ok LP.2.2.2.2 with hTB
  have htbE := tableBlobPass_evolvesP (Q := fun _ => True) (P := fun e => !isCreateReqEv e)
    db.name (ckptLinkCb db full nwd) (ckptCopyCb db full nwd vld vwd) false
    LP.2.2.2.2.checksums
    (ckptLinkCb_evolvesP db full nwd (fun _ => trivial) (fun _ => trivial)
      (fun _ _ _ => rfl))
    (ckptCopyCb_evolvesP db full nwd vld vwd (fun _ => trivial) (fun _ => trivial)
      (fun _ _ _ _ => rfl) (fun _ _ => rfl) (fun _ _ => rfl))
    (fun _ _ _ _ => rfl) (fun _ _ _ _ _ _ _ => rfl)
    LP.2.2.2.1 true Status.ok LP.2.2.2.2
  rw [← hTB] at htbE
  obtain ⟨-, -, -, -, -, ts2, hev2, hall2⟩ := htbE
  rw [hlpmf, hlpcf]
  simp only [Status.isOk, eq_self_iff_true, true_and]
  by_cases hcnd : lastOfType w.parseFileName FileType.current liveFiles "" ≠ "" ∧
      lastOfType w.parseFileName FileType.descriptor liveFiles "" ≠ ""
  · rw [if_pos hcnd]
    obtain ⟨ts3, hev3, htr3⟩ := callCreate_transfer (ckptCreateCb_primOnly full)
      (lastOfType w.parseFileName FileType.current liveFiles "")
      (strDrop (lastOfType w.parseFileName FileType.descriptor liveFiles "") 1 ++ "\n")
      FileType.current TB.2.2
    have hcr : (callCreate (ckptCreateCb full)
        (lastOfType w.parseFileName FileType.current liveFiles "")
        (strDrop (lastOfType w.parseFileName FileType.descriptor liveFiles "") 1 ++ "\n")
        FileType.current TB.2.2).1 = Status.ok := by
      simpa [callCreate] using ckptCreateCb_benign db full
        (lastOfType w.parseFileName FileType.current liveFiles "")
        (strDrop (lastOfType w.parseFileName FileType.descriptor liveFiles "") 1 ++ "\n")
        FileType.current TB.2.2 htbnf
    rw [hcr] at htr3
    have hwp := walPass_evolvesP (Q := fun _ => True) (P := fun e => !isCreateReqEv e)
      (ckptLinkCb db full nwd) (ckptCopyCb db full nwd vld vwd) db.walSrcDir flush minLog
      (ckptLinkCb_evolvesP db full nwd (fun _ => trivial) (fun _ => trivial)
        (fun _ _ _ => rfl))
      (ckptCopyCb_evolvesP db full nwd vld vwd (fun _ => trivial) (fun _ => trivial)
        (fun _ _ _ _ => rfl) (fun _ _ => rfl) (fun _ _ => rfl))
      (fun _ _ _ _ => rfl) (fun _ _ _ _ _ _ _ => rfl)
      walFiles TB.2.1
      (callCreate (ckptCreateCb full)
        (lastOfType w.parseFileName FileType.current liveFiles "")
        (strDrop (lastOfType w.parseFileName FileType.descriptor liveFiles "") 1 ++ "\n")
        FileType.current TB.2.2).1
      (callCreate (ckptCreateCb full)
        (lastOfType w.parseFileName FileType.current liveFiles "")
        (strDrop (lastOfType w.parseFileName FileType.descriptor liveFiles "") 1 ++ "\n")
        FileType.current TB.2.2).2
    obtain ⟨-, -, -, -, -, ts4, hev4, hall4⟩ := hwp
    refine ⟨ts1 ++ (ts2 ++ (ts3 ++ ts4)), ?_, ?_, ?_, ?_⟩
    · rw [hev4, hev3, hev2, hev1]
      simp only [List.append_assoc]
    · exact ⟨transferEvs (ts2 ++ (ts3 ++ ts4)), by rw [transferEvs_append, htr1]⟩
    · intro _
      have hmf : Ev.createReq (lastOfType w.parseFileName FileType.current liveFiles "")
          (strDrop (lastOfType w.parseFileName FileType.descriptor liveFiles "") 1 ++ "\n")
          FileType.current Status.ok ∈ List.filter isTransferEv ts3 := by
        show Ev.createReq (lastOfType w.parseFileName FileType.current liveFiles "")
          (strDrop (lastOfType w.parseFileName FileType.descriptor liveFiles "") 1 ++ "\n")
          FileType.current Status.ok ∈ transferEvs ts3
        rw [htr3]
        exact List.mem_singleton.mpr rfl
      have hm3 := List.mem_of_mem_filter hmf
      exact List.mem_append_right _ (List.mem_append_right _ (List.mem_append_left _ hm3))
    · intro hn
      exact absurd hcnd hn
  · rw [if_neg hcnd]
    dsimp only
    have hwp := walPass_evolvesP (Q := fun _ => True) (P := fun e => !isCreateReqEv e)
      (ckptLinkCb db full nwd) (ckptCopyCb db full nwd vld vwd) db.walSrcDir flush minLog
      (ckptLinkCb_evolvesP db full nwd (fun _ => trivial) (fun _ => trivial)
        (fun _ _ _ => rfl))
      (ckptCopyCb_evolvesP db full nwd vld vwd (fun _ => trivial) (fun _ => trivial)
        (fun _ _ _ _ => rfl) (fun _ _ => rfl) (fun _ _ => rfl))
      (fun _ _ _ _ => rfl) (fun _ _ _ _ _ _ _ => rfl)
      walFiles TB.2.1 Status.ok TB.2.2
    obtain ⟨-, -, -, -, -, ts4, hev4, hall4⟩ := hwp
    refine ⟨ts1 ++ (ts2 ++ ts4), ?_, ?_, ?_, ?_⟩
    · rw [hev4, hev2, hev1]
      simp only [List.append_assoc]
    · exact ⟨transferEvs (ts2 ++ ts4), by rw [transferEvs_append, htr1]⟩
    · intro hcc
      exact absurd hcc hcnd
    · intro _
      rw [List.all_append, List.all_append, hall1, hall2, hall4]
      rfl

/-- C8: during live-file transfer the manifest is copied with the cap taken
from the second live-file enumeration, every other non-table, non-blob file
is copied uncapped, and the CURRENT file is synthesized via create-file,
with the manifest base name plus newline as content, exactly when both a
current marker and a manifest name were seen. -/
theorem manifest_cap_and_current (db : DBModel) (full nwd vld vwd : String)
    (lsz minLog : Nat) (w : World)
    (hnf : NoFaults w) (hmin : db.minLogNum = some minLog)
    (hparse : ∀ f ∈ db.liveFiles2, ∃ nt, w.parseFileName f = some nt) :
    ∃ ts, (createCustomCheckpoint db (ckptLinkCb db full nwd)
        (ckptCopyCb db full nwd vld vwd) (ckptCreateCb full) lsz false w).2.2.events =
        w.events ++ ts ∧
      (∃ rest, transferEvs ts =
        expectedLiveCopyEvs w.parseFileName db.name db.manifestSize2 db.liveFiles2 ++ rest) ∧
      ((lastOfType w.parseFileName FileType.current db.liveFiles2 "" ≠ "" ∧
        lastOfType w.parseFileName FileType.descriptor db.liveFiles2 "" ≠ "") →
        Ev.createReq (lastOfType w.parseFileName FileType.current db.liveFiles2 "")
          (strDrop (lastOfType w.parseFileName FileType.descriptor db.liveFiles2 "") 1
            ++ "\n") FileType.current Status.ok ∈ ts) ∧
      ((¬ (lastOfType w.parseFileName FileType.current db.liveFiles2 "" ≠ "" ∧
          lastOfType w.parseFileName FileType.descriptor db.liveFiles2 "" ≠ "")) →
        ts.all (fun e => !isCreateReqEv e) = true) := by
  have hnf2 : ∀ op, w.faults op = none := hnf
  have htail : ∀ (w0 : World) (ts0 : List Ev) (fl : Bool),
      NoFaults w0 → w0.parseFileName = w.parseFileName →
      w0.events = w.events ++ ts0 → ts0.all isPrimEv = true →
      ∃ ts, (customTransferTail db (ckptLinkCb db full nwd)
          (ckptCopyCb db full nwd vld vwd) (ckptCreateCb full) false fl minLog
          db.liveFiles2 db.manifestSize2 db.walFilesMain w0).2.events = w.events ++ ts ∧
        (∃ rest, transferEvs ts =
          expectedLiveCopyEvs w.parseFileName db.name db.manifestSize2 db.liveFiles2
            ++ rest) ∧
        ((lastOfType w.parseFileName FileType.current db.liveFiles2 "" ≠ "" ∧
          lastOfType w.parseFileName FileType.descriptor db.liveFiles2 "" ≠ "") →
          Ev.createReq (lastOfType w.parseFileName FileType.current db.liveFiles2 "")
            (strDrop (lastOfType w.parseFileName FileType.descriptor db.liveFiles2 "") 1
              ++ "\n") FileType.current Status.ok ∈ ts) ∧
        ((¬ (lastOfType w.parseFileName FileType.current db.liveFiles2 "" ≠ "" ∧
            lastOfType w.parseFileName FileType.descriptor db.liveFiles2 "" ≠ "")) →
          ts.all (fun e => !isCreateReqEv e) = true) := by
    intro w0 ts0 fl hnf0 hp0 he0 hall0
    obtain ⟨ts, hev, ⟨rest, hpre⟩, hcr, hncr⟩ := customTransferTail_c8 db full nwd vld vwd
      fl minLog db.liveFiles2 db.manifestSize2 db.walFilesMain w0 hnf0
      (by rw [hp0]; exact hparse)
    rw [hp0] at hpre hcr hncr
    have h0 : ts0.all (fun e => !isCreateReqEv e) = true := by
      rw [List.all_eq_true] at hall0 ⊢
      intro e he
      have hpr := hall0 e he
      cases e <;> simp [isPrimEv, isCreateReqEv] at hpr ⊢
    refine ⟨ts0 ++ ts, ?_, ?_, ?_, ?_⟩
    · rw [hev, he0, List.append_assoc]
    · exact ⟨rest, by
        rw [transferEvs_append, transferEvs_primOnly hall0, List.nil_append, hpre]⟩
    · intro hc
      exact List.mem_append_right _ (hcr hc)
    · intro hn
      rw [List.all_append, h0, hncr hn]
      rfl
  simp only [createCustomCheckpoint, hmin]
  by_cases hdec : ¬ db.allow2pc = true ∧ lsz ≠ kMaxUInt64 ∧ 0 < lsz
  · rw [if_pos hdec]
    simp only [opGetSortedWalFiles, opGetLiveFiles, opFlushWAL, World.logEv, faultOr,
      hnf2, Status.isOk, eq_self_iff_true, not_true, ite_false, ite_true, if_false,
      if_true]
    exact htail _ [Ev.prim (Op.getSortedWalFiles 1) Status.ok,
      Ev.prim (Op.getLiveFiles 1 (flushMemtableDecision db.allow2pc lsz
        (totalWalSize db.walFilesFlushCheck))) Status.ok,
      Ev.prim (Op.getLiveFiles 2 (flushMemtableDecision db.allow2pc lsz
        (totalWalSize db.walFilesFlushCheck))) Status.ok,
      Ev.prim Op.flushWAL Status.ok,
      Ev.prim (Op.getSortedWalFiles 2) Status.ok] _
      (fun op => hnf op) rfl (by simp) rfl
  · rw [if_neg hdec]
    simp only [opGetSortedWalFiles, opGetLiveFiles, opFlushWAL, World.logEv, faultOr,
      hnf2, Status.isOk, eq_self_iff_true, not_true, ite_false, ite_true, if_false,
      if_true]
    exact htail _ [Ev.prim (Op.getLiveFiles 1 (flushMemtableDecision db.allow2pc lsz
        (totalWalSize db.walFilesFlushCheck))) Status.ok,
      Ev.prim (Op.getLiveFiles 2 (flushMemtableDecision db.allow2pc lsz
        (totalWalSize db.walFilesFlushCheck))) Status.ok,
      Ev.prim Op.flushWAL Status.ok,
      Ev.prim (Op.getSortedWalFiles 2) Status.ok] _
      (fun op => hnf op) rfl (by simp) rfl

/-- Witness for C8 at concrete inputs: the standard database model under a
fault-free world, with every hypothesis discharged at the call. -/
theorem manifest_cap_and_current_witness :
    dbStd.minLogNum = some 0 ∧
    (∃ ts, (createCustomCheckpoint dbStd (ckptLinkCb dbStd "/snap.tmp" "/snap")
        (ckptCopyCb dbStd "/snap.tmp" "/snap" "" "") (ckptCreateCb "/snap.tmp")
        kMaxUInt64 false wBenign).2.2.events = wBenign.events ++ ts ∧
      (∃ rest, transferEvs ts =
        expectedLiveCopyEvs wBenign.parseFileName dbStd.name dbStd.manifestSize2
          dbStd.liveFiles2 ++ rest) ∧
      ((lastOfType wBenign.parseFileName FileType.current dbStd.liveFiles2 "" ≠ "" ∧
        lastOfType wBenign.parseFileName FileType.descriptor dbStd.liveFiles2 "" ≠ "") →
        Ev.createReq (lastOfType wBenign.parseFileName FileType.current dbStd.liveFiles2 "")
          (strDrop (lastOfType wBenign.parseFileName FileType.descriptor
            dbStd.liveFiles2 "") 1 ++ "\n") FileType.current Status.ok ∈ ts) ∧
      ((¬ (lastOfType wBenign.parseFileName FileType.current dbStd.liveFiles2 "" ≠ "" ∧
          lastOfType wBenign.parseFileName FileType.descriptor dbStd.liveFiles2 "" ≠ "")) →
        ts.all (fun e => !isCreateReqEv e) = true)) :=
  ⟨rfl, manifest_cap_and_current dbStd "/snap.tmp" "/snap" "" "" kMaxUInt64 0 wBenign
    (fun _ => rfl) rfl
    (by
      intro f hf
      simp only [dbStd, List.mem_cons, List.not_mem_nil, or_false] at hf
      rcases hf with rfl | rfl | rfl | rfl | rfl <;> exact ⟨_, rfl⟩)⟩

/-- C1 counterexample: when the directory fsync after the successful rename
fails, the call returns that error yet the target directory exists
afterwards, and an earlier enable-file-deletions failure was encountered
but is not the error returned. -/
theorem checkpoint_failure_target_counterexample :
    (createCheckpoint dbMini "/snap" kMaxUInt64 "" "" wFsyncFails).1 =
      Status.ioError "fsync failed" ∧
    "/snap" ∈ (createCheckpoint dbMini "/snap" kMaxUInt64 "" "" wFsyncFails).2.2.fs ∧
    "/snap.tmp" ∉ (createCheckpoint dbMini "/snap" kMaxUInt64 "" "" wFsyncFails).2.2.fs ∧
    Ev.prim Op.enableFileDeletions (Status.ioError "enable failed") ∈
      (createCheckpoint dbMini "/snap" kMaxUInt64 "" "" wFsyncFails).2.2.events ∧
    Ev.prim (Op.renameFile "/snap.tmp" "/snap") Status.ok ∈
      (createCheckpoint dbMini "/snap" kMaxUInt64 "" "" wFsyncFails).2.2.events := by
  decide

/-- Behaviour of the finish step on the filesystem: when the overall result
is a failure, either the rename never succeeded and both directories are
absent, or a successful rename is in the trace and the target survives the
staging purge. -/
theorem checkpointFinish_failure_fs (pd fp : String) (s : Status) (sq : Nat) (W : World)
    (hpne : pd ≠ fp) (hnsw : strStartsWith pd (fp ++ "/") = false)
    (hFE : W.faults (Op.fileExists fp) = none)
    (hDD : W.faults (Op.deleteDir fp) = none)
    (hpd : pd ∉ W.fs) (hfpin : s.isOk = true → fp ∈ W.fs) :
    (checkpointFinish pd fp s sq W).1 ≠ Status.ok →
    (pd ∉ (checkpointFinish pd fp s sq W).2.2.fs ∧
      fp ∉ (checkpointFinish pd fp s sq W).2.2.fs) ∨
    (Ev.prim (Op.renameFile fp pd) Status.ok ∈ (checkpointFinish pd fp s sq W).2.2.events ∧
      pd ∈ (checkpointFinish pd fp s sq W).2.2.fs ∧
      fp ∉ (checkpointFinish pd fp s sq W).2.2.fs) := by
  simp only [checkpointFinish]
  have h2 : ∀ (r2v : Status × World),
      r2v.2.faults (Op.fileExists fp) = none →
      r2v.2.faults (Op.deleteDir fp) = none →
      (pd ∉ r2v.2.fs ∨ (Ev.prim (Op.renameFile fp pd) Status.ok ∈ r2v.2.events ∧
        pd ∈ r2v.2.fs)) →
      ((if r2v.1.isOk = true then (r2v.1, some sq, r2v.2)
        else (r2v.1, none, cleanStagingDirectory fp r2v.2)) :
          Status × Option Nat × World).1 ≠ Status.ok →
      (pd ∉ ((if r2v.1.isOk = true then (r2v.1, some sq, r2v.2)
          else (r2v.1, none, cleanStagingDirectory fp r2v.2)) :
            Status × Option Nat × World).2.2.fs ∧
        fp ∉ ((if r2v.1.isOk = true then (r2v.1, some sq, r2v.2)
          else (r2v.1, none, cleanStagingDirectory fp r2v.2)) :
            Status × Option Nat × World).2.2.fs) ∨
      (Ev.prim (Op.renameFile fp pd) Status.ok ∈
          ((if r2v.1.isOk = true then (r2v.1, some sq, r2v.2)
            else (r2v.1, none, cleanStagingDirectory fp r2v.2)) :
              Status × Option Nat × World).2.2.events ∧
        pd ∈ ((if r2v.1.isOk = true then (r2v.1, some sq, r2v.2)
          else (r2v.1, none, cleanStagingDirectory fp r2v.2)) :
            Status × Option Nat × World).2.2.fs ∧
        fp ∉ ((if r2v.1.isOk = true then (r2v.1, some sq, r2v.2)
          else (r2v.1, none, cleanStagingDirectory fp r2v.2)) :
            Status × Option Nat × World).2.2.fs) := by
    intro r2v h1f h2f hdisj
    split
    · rename_i hok
      intro hne2
      exact absurd (Status.eq_ok hok) hne2
    · intro _
      have hSKc := cleanStaging_shrinkKeep fp r2v.2
      have hfpgone := cleanStaging_removes fp r2v.2 h1f h2f
      rcases hdisj with hl | ⟨hev, hpdm⟩
      · exact Or.inl ⟨fun h => hl (hSKc.2.2.2.1 pd h), hfpgone⟩
      · refine Or.inr ⟨?_, hSKc.2.2.2.2.1 pd hpdm hpne hnsw, hfpgone⟩
        obtain ⟨ts, hevq, -⟩ := hSKc.2.2.2.2.2
        rw [hevq]
        exact List.mem_append_left _ hev
  have h1 : ∀ (r1v : Status × World),
      r1v.2.faults (Op.fileExists fp) = none →
      r1v.2.faults (Op.deleteDir fp) = none →
      (pd ∉ r1v.2.fs ∨ (Ev.prim (Op.renameFile fp pd) Status.ok ∈ r1v.2.events ∧
        pd ∈ r1v.2.fs)) →
      ∀ (r2v : Status × World), r2v = (if r1v.1.isOk = true then
          (if (opNewDirectory pd r1v.2).1.isOk = true then
            opFsyncDir pd (opNewDirectory pd r1v.2).2
          else ((opNewDirectory pd r1v.2).1, (opNewDirectory pd r1v.2).2))
        else (r1v.1, r1v.2)) →
      r2v.2.faults (Op.fileExists fp) = none ∧
      r2v.2.faults (Op.deleteDir fp) = none ∧
      (pd ∉ r2v.2.fs ∨ (Ev.prim (Op.renameFile fp pd) Status.ok ∈ r2v.2.events ∧
        pd ∈ r2v.2.fs)) := by
    intro r1v hf1 hf2 hdisj r2v hr2v
    subst hr2v
    split
    · split
      · refine ⟨hf1, hf2, ?_⟩
        rcases hdisj with hl | ⟨hev, hpdm⟩
        · exact Or.inl hl
        · exact Or.inr ⟨List.mem_append_left _ (List.mem_append_left _ hev), hpdm⟩
      · refine ⟨hf1, hf2, ?_⟩
        rcases hdisj with hl | ⟨hev, hpdm⟩
        · exact Or.inl hl
        · exact Or.inr ⟨List.mem_append_left _ hev, hpdm⟩
    · exact ⟨hf1, hf2, hdisj⟩
  have hr1 : (if s.isOk = true then opRenameFile fp pd W else (s, W)).2.faults
        (Op.fileExists fp) = none ∧
      (if s.isOk = true then opRenameFile fp pd W else (s, W)).2.faults
        (Op.deleteDir fp) = none ∧
      (pd ∉ (if s.isOk = true then opRenameFile fp pd W else (s, W)).2.fs ∨
        (Ev.prim (Op.renameFile fp pd) Status.ok ∈
            (if s.isOk = true then opRenameFile fp pd W else (s, W)).2.events ∧
          pd ∈ (if s.isOk = true then opRenameFile fp pd W else (s, W)).2.fs)) := by
    split
    · rename_i hsok
      simp only [opRenameFile, World.logEv]
      refine ⟨?_, ?_, ?_⟩
      · split <;> exact hFE
      · split <;> exact hDD
      · split
        · rename_i hrok
          refine Or.inr ⟨?_, ?_⟩
          · have hst := Status.eq_ok hrok
            rw [hst]
            exact List.mem_append_right _ (List.mem_singleton.mpr rfl)
          · have hfpW := hfpin hsok
            have hre : renameEntry fp pd fp = pd := by simp [renameEntry]
            have hmm : renameEntry fp pd fp ∈ List.map (renameEntry fp pd) W.fs :=
              List.mem_map_of_mem _ hfpW
            rw [hre] at hmm
            exact hmm
        · exact Or.inl hpd
    · exact ⟨hFE, hDD, Or.inl hpd⟩
  obtain ⟨ha, hb, hc⟩ := h1 (if s.isOk = true then opRenameFile fp pd W else (s, W))
    hr1.1 hr1.2.1 hr1.2.2 _ rfl
  exact h2 _ ha hb hc

/-- The transfer phase only grows the filesystem with paths under the
staging directory or the WAL target directory. -/
theorem checkpointTransferPhase_evolvesP {Q : String → Prop} (db : DBModel)
    (fp nwd vld vwd : String) (lsz : Nat) (w : World)
    (hqf : ∀ f, Q (fp ++ f)) (hqn : ∀ f, Q (nwd ++ f)) :
    EvolvesP Q (fun _ => true) w
      (checkpointTransferPhase db fp nwd vld vwd lsz w).2.2 := by
  simp only [checkpointTransferPhase]
  split
  · have E1 : EvolvesP Q (fun _ => true) w (opDisableFileDeletions w).2 :=
      opDisableFileDeletions_evolvesP _ (fun _ => rfl)
    have E2 := evolvesP_trans E1 (createCustomCheckpoint_evolvesP db _ _ _ lsz false
      (ckptLinkCb_evolvesP db fp nwd hqf hqn (fun _ _ _ => rfl))
      (ckptCopyCb_evolvesP db fp nwd vld vwd hqf hqn (fun _ _ _ _ => rfl)
        (fun _ _ => rfl) (fun _ _ => rfl))
      (ckptCreateCb_evolvesP fp hqf (fun _ _ _ => rfl))
      (fun _ _ _ _ => rfl) (fun _ _ _ _ _ _ _ => rfl) (fun _ _ _ _ => rfl)
      (fun _ _ => rfl) (fun _ _ _ => rfl) (fun _ => rfl) (fun _ _ _ => rfl)
      (opDisableFileDeletions w).2)
    split
    · exact evolvesP_trans E2 (opEnableFileDeletions_evolvesP _ (fun _ => rfl))
    · exact E2
  · exact opDisableFileDeletions_evolvesP _ (fun _ => rfl)

/-- C1 amended: with benign cleanup primitives, a fresh target name and a
nonempty parsed directory, every failing CreateCheckpoint call either left
no trace of a successful rename and then neither the target nor the staging
directory exists afterwards, or a successful rename of the staging directory
onto the target is in the trace and then the target directory still exists
while the staging directory is gone. -/
theorem checkpoint_failure_cleanup (db : DBModel) (dir ldir : String) (lsz : Nat)
    (w : World) (hcb : CleanupBenign w)
    (hfe : dir ∉ w.fs) (htgt : stripTrailingSlashes dir ∉ w.fs)
    (hstrip : stripTrailingSlashes dir ≠ "") :
    (createCheckpoint db dir lsz ldir "" w).1 ≠ Status.ok →
    (stripTrailingSlashes dir ∉ (createCheckpoint db dir lsz ldir "" w).2.2.fs ∧
      stripTrailingSlashes dir ++ ".tmp" ∉ (createCheckpoint db dir lsz ldir "" w).2.2.fs) ∨
    (Ev.prim (Op.renameFile (stripTrailingSlashes dir ++ ".tmp") (stripTrailingSlashes dir))
        Status.ok ∈ (createCheckpoint db dir lsz ldir "" w).2.2.events ∧
      stripTrailingSlashes dir ∈ (createCheckpoint db dir lsz ldir "" w).2.2.fs ∧
      stripTrailingSlashes dir ++ ".tmp" ∉ (createCheckpoint db dir lsz ldir "" w).2.2.fs) := by
  set pd := stripTrailingSlashes dir with hpdd
  set fp := pd ++ ".tmp" with hfpdef
  have h4 : strLen ".tmp" = 4 := rfl
  have hpne : pd ≠ fp := by
    intro h
    have hl := congrArg strLen h
    rw [hfpdef, strLen_append, h4] at hl
    omega
  have hnsw : strStartsWith pd (fp ++ "/") = false := by
    cases h : strStartsWith pd (fp ++ "/") with
    | false => rfl
    | true =>
      have hl := strLen_le_of_startsWith h
      rw [strLen_append, hfpdef, strLen_append, h4] at hl
      have h1 : strLen "/" = 1 := rfl
      rw [h1] at hl
      exact absurd hl (by omega)
  have hq : ∀ f, strLen pd < strLen (fp ++ f) := fun f => by
    rw [strLen_append, hfpdef, strLen_append, h4]
    omega
  have he1 : (opFileExists dir w).1 = Status.notFound "" := by
    simp [opFileExists, faultOr, hcb.1 dir, hfe]
  have hSK := cleanStaging_shrinkKeep fp (opFileExists dir w).2
  have hW1f : (cleanStagingDirectory fp (opFileExists dir w).2).faults = w.faults := hSK.1
  have hpdW1 : pd ∉ (cleanStagingDirectory fp (opFileExists dir w).2).fs := by
    intro h
    exact htgt (hSK.2.2.2.1 pd h)
  have hCf : (opCreateDir fp (cleanStagingDirectory fp (opFileExists dir w).2)).2.faults =
      w.faults := by
    simp only [opCreateDir, World.logEv]
    split <;> exact hW1f
  have hpdC : pd ∉ (opCreateDir fp (cleanStagingDirectory fp (opFileExists dir w).2)).2.fs := by
    simp only [opCreateDir, World.logEv]
    split
    · intro h
      rcases mem_insertPath.mp h with h1 | h2
      · exact hpne h1
      · exact hpdW1 h2
    · exact hpdW1
  have hfpC : (opCreateDir fp (cleanStagingDirectory fp (opFileExists dir w).2)).1.isOk = true →
      fp ∈ (opCreateDir fp (cleanStagingDirectory fp (opFileExists dir w).2)).2.fs := by
    intro hok
    simp only [opCreateDir, World.logEv] at hok ⊢
    rw [if_pos hok]
    exact mem_insertPath.mpr (Or.inl rfl)
  have htb : ∀ (W2 : World), W2.faults = w.faults → pd ∉ W2.fs → fp ∈ W2.fs →
      ∀ (vld : String) (sq : Nat),
      (checkpointFinish pd fp (checkpointTransferPhase db fp fp vld pd lsz W2).1 sq
        (checkpointTransferPhase db fp fp vld pd lsz W2).2.2).1 ≠ Status.ok →
      (pd ∉ (checkpointFinish pd fp (checkpointTransferPhase db fp fp vld pd lsz W2).1 sq
          (checkpointTransferPhase db fp fp vld pd lsz W2).2.2).2.2.fs ∧
        fp ∉ (checkpointFinish pd fp (checkpointTransferPhase db fp fp vld pd lsz W2).1 sq
          (checkpointTransferPhase db fp fp vld pd lsz W2).2.2).2.2.fs) ∨
      (Ev.prim (Op.renameFile fp pd) Status.ok ∈
          (checkpointFinish pd fp (checkpointTransferPhase db fp fp vld pd lsz W2).1 sq
            (checkpointTransferPhase db fp fp vld pd lsz W2).2.2).2.2.events ∧
        pd ∈ (checkpointFinish pd fp (checkpointTransferPhase db fp fp vld pd lsz W2).1 sq
          (checkpointTransferPhase db fp fp vld pd lsz W2).2.2).2.2.fs ∧
        fp ∉ (checkpointFinish pd fp (checkpointTransferPhase db fp fp vld pd lsz W2).1 sq
          (checkpointTransferPhase db fp fp vld pd lsz W2).2.2).2.2.fs) := by
    intro W2 hf hpdW2 hfpW2 vld sq
    obtain ⟨hTf, -, -, hTmono, hTnew, -⟩ :=
      checkpointTransferPhase_evolvesP (Q := fun q => strLen pd < strLen q)
        db fp fp vld pd lsz W2 hq hq
    exact checkpointFinish_failure_fs pd fp _ sq _ hpne hnsw
      (by rw [hTf, hf]; exact hcb.1 fp)
      (by rw [hTf, hf]; exact hcb.2.2.2 fp)
      (fun h => (hTnew pd h).elim (fun h2 => hpdW2 h2) (fun hQ => absurd hQ (lt_irrefl _)))
      (fun _ => hTmono fp hfpW2)
  have hsw : stripTrailingSlashes "" = "" := by decide
  simp only [createCheckpoint]
  rw [he1, hsw]
  have hwi : resolvedWalInfo db.name pd fp "" = (pd, fp) := by simp [resolvedWalInfo]
  rw [hwi]
  simp only [Status.isOk, Status.isNotFound, Bool.false_eq_true, eq_self_iff_true,
    not_true, ite_true, ite_false, if_false, if_true, hstrip, true_or,
    not_false_eq_true]
  split
  · rename_i hcs
    exact checkpointFinish_failure_fs pd fp _ 0 _ hpne hnsw
      (by rw [hCf]; exact hcb.1 fp)
      (by rw [hCf]; exact hcb.2.2.2 fp)
      hpdC
      (fun hok => absurd hok (by simpa using hcs))
  · rename_i hcs
    rw [not_not] at hcs
    exact htb _ hCf hpdC (hfpC hcs) _ _

/-- Witness for the amended C1 at concrete inputs: the fsync-failure world,
where the call fails after a successful rename and the second disjunct
holds. -/
theorem checkpoint_failure_cleanup_witness :
    (stripTrailingSlashes "/snap" ∉
        (createCheckpoint dbMini "/snap" kMaxUInt64 "" "" wFsyncFails).2.2.fs ∧
      stripTrailingSlashes "/snap" ++ ".tmp" ∉
        (createCheckpoint dbMini "/snap" kMaxUInt64 "" "" wFsyncFails).2.2.fs) ∨
    (Ev.prim (Op.renameFile (stripTrailingSlashes "/snap" ++ ".tmp")
        (stripTrailingSlashes "/snap")) Status.ok ∈
        (createCheckpoint dbMini "/snap" kMaxUInt64 "" "" wFsyncFails).2.2.events ∧
      stripTrailingSlashes "/snap" ∈
        (createCheckpoint dbMini "/snap" kMaxUInt64 "" "" wFsyncFails).2.2.fs ∧
      stripTrailingSlashes "/snap" ++ ".tmp" ∉
        (createCheckpoint dbMini "/snap" kMaxUInt64 "" "" wFsyncFails).2.2.fs) :=
  checkpoint_failure_cleanup dbMini "/snap" "" kMaxUInt64 wFsyncFails
    ⟨fun _ => rfl, fun _ => rfl, fun _ => rfl, fun _ => rfl⟩
    (by decide) (by decide) (by decide) (by decide)

end Ckpt
